import Mathlib

/-!
# Chess rules engine: shallow embedding of `chess.hpp` / `chess.cpp`

The C++ class `chess` becomes the structure `chess` with explicit state
passing.  The array `_square[8][8]` is a function of the two indices
(row `rank - 1`, column `file - 1`).  A failed `assert`, a read through the
`(0,0)` sentinel of `find_king`, and a `while` loop that never leaves are all
rendered as `none`; every function that can reach one of them returns an
`Option`.  Member functions keep their names; `at` is written `at_` and the
parameters `from`, `to` are written `src`, `dst`.  A reference returned by the
source (`at`, `king_moved`, `rook_moved`) is split into a read and an assignment.
-/

namespace Chess

/-- A square: `file` is the column (a = 1), `rank` the row, both `int` in the source. -/
structure position where
  file : Int
  rank : Int
deriving DecidableEq

inductive piece_type where
  | pawn | rook | knight | bishop | queen | king
deriving DecidableEq

inductive player where
  | white | black
deriving DecidableEq

inductive result where
  | capture | ok | no_piece | bad_piece | bad_move | blocked | lapsed
  | in_check | would_check | has_moved | bad_promote
deriving DecidableEq

structure occupant where
  is_empty : Bool
  owner : player
  piece : piece_type
deriving DecidableEq

/-- The data members of `class chess`. -/
structure chess where
  _current_player : player
  _square : Int → Int → occupant
  pawn_double_moved : position
  _b_king_moved : Bool
  _b_rook_1_moved : Bool
  _b_rook_2_moved : Bool
  _w_king_moved : Bool
  _w_rook_1_moved : Bool
  _w_rook_2_moved : Bool

/-- One call of `play`: its three arguments. -/
structure move where
  src : position
  dst : position
  promote : piece_type

/-- The eight indices `0 .. 7` of a `for (int i = 0; i < 8; ++i)` loop. -/
def idx8 : List Int := [0, 1, 2, 3, 4, 5, 6, 7]

/-- The index pairs `(i, j)` in the order of the nested loops of `in_check`. -/
def all_cells : List (Int × Int) :=
  idx8.flatMap (fun i => idx8.map (fun j => (i, j)))

/-- The vector `pieces` of `setBoard`, indexed by column. -/
def back_rank (i : Int) : piece_type :=
  if i = 0 then piece_type.rook
  else if i = 1 then piece_type.knight
  else if i = 2 then piece_type.bishop
  else if i = 3 then piece_type.queen
  else if i = 4 then piece_type.king
  else if i = 5 then piece_type.bishop
  else if i = 6 then piece_type.knight
  else piece_type.rook

/-- Value-initialised `occupant{}`: every member zero. -/
def occupant_zero : occupant := ⟨false, player.white, piece_type.pawn⟩

/-- The function `chess::empty_square`. -/
def empty_square : occupant := ⟨true, player.white, piece_type.pawn⟩

/-- The board after `setBoard` ran on the value-initialised array: rows 0, 1, 6, 7
are filled, rows 2..5 only get `is_empty = true`. -/
def setBoard (i j : Int) : occupant :=
  if 0 ≤ j ∧ j < 8 then
    if i = 0 then ⟨false, player.white, back_rank j⟩
    else if i = 1 then ⟨false, player.white, piece_type.pawn⟩
    else if i = 6 then ⟨false, player.black, piece_type.pawn⟩
    else if i = 7 then ⟨false, player.black, back_rank j⟩
    else if 2 ≤ i ∧ i < 6 then { occupant_zero with is_empty := true }
    else occupant_zero
  else occupant_zero

/-- The constructor `chess::chess()` with the default member initialisers. -/
def chess.new : chess :=
  { _current_player := player.white
    _square := setBoard
    pawn_double_moved := ⟨0, 0⟩
    _b_king_moved := false
    _b_rook_1_moved := false
    _b_rook_2_moved := false
    _w_king_moved := false
    _w_rook_1_moved := false
    _w_rook_2_moved := false }

/-- The accessor `chess::at` (read). -/
def chess.at_ (s : chess) (p : position) : occupant :=
  s._square (p.rank - 1) (p.file - 1)

/-- Assignment through the reference returned by `chess::at`. -/
def chess.set_at (s : chess) (p : position) (o : occupant) : chess :=
  { s with _square := fun i j => if i = p.rank - 1 ∧ j = p.file - 1 then o else s._square i j }

/-- The function `chess::position_out_of_bounds`. -/
def position_out_of_bounds (p : position) : Bool :=
  (decide (p.file < 1) || decide (p.file > 8)) || (decide (p.rank < 1) || decide (p.rank > 8))

/-- One pass of `if (d < 0) d++; if (d > 0) d--;`. -/
def step_distance (d : Int) : Int :=
  let d1 := if d < 0 then d + 1 else d
  if d1 > 0 then d1 - 1 else d1

/-- The `while` loop of `empty_path`.  `sq` reads a square, `chk` is the call
`in_check(square)` made when `castling` is set.  The first argument bounds the
number of iterations; `none` stands for a loop that does not end (or an aborted
`in_check`). -/
def empty_path_loop (sq : position → occupant) (chk : position → Option Bool) :
    Nat → position → Int → Int → Bool → Option result
  | 0, _, _, _, _ => none
  | fuel + 1, src, file_distance, rank_distance, castling =>
    let file_distance := step_distance file_distance
    let rank_distance := step_distance rank_distance
    let square : position := ⟨src.file + file_distance, src.rank + rank_distance⟩
    let empty := (sq square).is_empty
    match (if castling then chk square else some false) with
    | none => none
    | some true => some result.would_check
    | some false =>
      if empty then empty_path_loop sq chk fuel src file_distance rank_distance castling
      else if file_distance ≠ 0 ∨ rank_distance ≠ 0 then some result.blocked
      else some result.ok

/-- The function `chess::empty_path`.  Each pass brings both distances one step
closer to zero, so after `|file_distance| + |rank_distance| + 1` passes the loop
either has left or stays on `src` for ever. -/
def empty_path_with (sq : position → occupant) (chk : position → Option Bool)
    (src : position) (file_distance rank_distance : Int) (castling : Bool) : Option result :=
  empty_path_loop sq chk (file_distance.natAbs + rank_distance.natAbs + 1)
    src file_distance rank_distance castling

/-- The function `chess::pawn_move`.  Where a nested `if` of the source falls
through to the final `return result::bad_move`, the `else` branches spell it out. -/
def chess.pawn_move (s : chess) (src dst : position) (file_distance rank_distance : Int) : result :=
  if (rank_distance > 0 ∧ (s.at_ src).owner = player.black)
      ∨ (rank_distance < 0 ∧ (s.at_ src).owner = player.white) then result.bad_move
  else if (rank_distance.natAbs = 2 ∧ file_distance = 0)
      ∧ ((rank_distance = 2 ∧ src.rank = 2) ∨ (rank_distance = -2 ∧ src.rank = 7)) then
    if (s.at_ dst).is_empty ∧ (s.at_ ⟨dst.file, dst.rank - Int.tdiv rank_distance 2⟩).is_empty then
      result.ok
    else result.blocked
  else if rank_distance.natAbs = 1 then
    if file_distance = 0 then
      if (s.at_ dst).is_empty then result.ok else result.blocked
    else if file_distance.natAbs = 1 then
      let capture_ep : position := ⟨src.file + file_distance, src.rank⟩
      if (¬ (s.at_ capture_ep).is_empty ∧ (s.at_ capture_ep).owner ≠ (s.at_ src).owner)
          ∧ (dst.rank = 3 ∨ dst.rank = 6) then result.ok
      else if ¬ (s.at_ dst).is_empty ∧ (s.at_ src).owner ≠ (s.at_ dst).owner then result.ok
      else result.bad_move
    else result.bad_move
  else result.bad_move

/-- The function `chess::rook_move` (`empty_path` is called with `castling = false`). -/
def chess.rook_move (s : chess) (src : position) (file_distance rank_distance : Int) :
    Option result :=
  if file_distance ≠ 0 ∧ rank_distance ≠ 0 then some result.bad_move
  else empty_path_with s.at_ (fun _ => some false) src file_distance rank_distance false

/-- The function `chess::knight_move`. -/
def knight_move (file_distance rank_distance : Int) : result :=
  if ¬ ((file_distance.natAbs = 2 ∧ rank_distance.natAbs = 1)
      ∨ (file_distance.natAbs = 1 ∧ rank_distance.natAbs = 2)) then result.bad_move
  else result.ok

/-- The function `chess::bishop_move`. -/
def chess.bishop_move (s : chess) (src : position) (file_distance rank_distance : Int) :
    Option result :=
  if file_distance.natAbs ≠ rank_distance.natAbs then some result.bad_move
  else empty_path_with s.at_ (fun _ => some false) src file_distance rank_distance false

/-- The function `chess::queen_move`. -/
def chess.queen_move (s : chess) (src : position) (file_distance rank_distance : Int) :
    Option result :=
  if (file_distance ≠ 0 ∧ rank_distance ≠ 0)
      ∧ file_distance.natAbs ≠ rank_distance.natAbs then some result.bad_move
  else empty_path_with s.at_ (fun _ => some false) src file_distance rank_distance false

/-- The function `chess::get_rook`. -/
def get_rook (dst : position) : position :=
  if dst.file = 3 then ⟨1, dst.rank⟩ else ⟨8, dst.rank⟩

/-- The function `chess::king_move`. -/
def chess.king_move (s : chess) (src dst : position) (file_distance rank_distance : Int) :
    Option result :=
  if file_distance.natAbs ≤ 1 ∧ rank_distance.natAbs ≤ 1 then some result.ok
  else if file_distance.natAbs = 2 ∧ src.file = 5 ∧ rank_distance = 0 then
    if (s.at_ (get_rook dst)).piece ≠ piece_type.rook then some result.bad_move
    else empty_path_with s.at_ (fun _ => some false) src file_distance rank_distance false
  else some result.bad_move

/-- The function `chess::validate_move`; a failed `assert` gives `none`. -/
def chess.validate_move (s : chess) (src dst : position) (piece : piece_type) : Option result :=
  if position_out_of_bounds src then none
  else if position_out_of_bounds dst then none
  else
    let distance_file := dst.file - src.file
    let distance_rank := dst.rank - src.rank
    if distance_rank = 0 ∧ distance_file = 0 then some result.bad_move
    else
      match piece with
      | piece_type.pawn => some (s.pawn_move src dst distance_file distance_rank)
      | piece_type.rook => s.rook_move src distance_file distance_rank
      | piece_type.knight => some (knight_move distance_file distance_rank)
      | piece_type.bishop => s.bishop_move src distance_file distance_rank
      | piece_type.queen => s.queen_move src distance_file distance_rank
      | piece_type.king => s.king_move src dst distance_file distance_rank

/-- The nested loops of `chess::in_check` over the cells still to visit. -/
def chess.in_check_cells (s : chess) (king_position : position) : List (Int × Int) → Option Bool
  | [] => some false
  | (i, j) :: rest =>
    if (s._square i j).is_empty = false ∧ (s._square i j).owner ≠ s._current_player then
      match s.validate_move ⟨j + 1, i + 1⟩ king_position (s.at_ ⟨j + 1, i + 1⟩).piece with
      | none => none
      | some r => if r = result.ok then some true else s.in_check_cells king_position rest
    else s.in_check_cells king_position rest

/-- The function `chess::in_check`. -/
def chess.in_check (s : chess) (king_position : position) : Option Bool :=
  s.in_check_cells king_position all_cells

/-- The function `chess::empty_path` as a member function: squares are read with
`at` and, when `castling` is set, tested with `in_check`. -/
def chess.empty_path (s : chess) (src : position) (file_distance rank_distance : Int)
    (castling : Bool) : Option result :=
  empty_path_with s.at_ s.in_check src file_distance rank_distance castling

/-- Inner loop of `chess::find_king` on row `i`: the first column holding a king
of the side to move (where the loop hits `break`). -/
def chess.find_king_row (s : chess) (i : Int) : List Int → Option position
  | [] => none
  | j :: rest =>
    if (s._square i j).is_empty = false ∧ (s._square i j).owner = s._current_player
        ∧ (s._square i j).piece = piece_type.king then some ⟨j + 1, i + 1⟩
    else s.find_king_row i rest

/-- Outer loop of `chess::find_king`: `break` only leaves the inner loop, so a
later row overwrites `king_position`. -/
def chess.find_king_rows (s : chess) (king_position : position) : List Int → position
  | [] => king_position
  | i :: rest =>
    match s.find_king_row i idx8 with
    | some p => s.find_king_rows p rest
    | none => s.find_king_rows king_position rest

/-- The function `chess::find_king`; `position king_position{}` is `(0, 0)`. -/
def chess.find_king (s : chess) : position :=
  s.find_king_rows ⟨0, 0⟩ idx8

/-- Read through the reference `chess::king_moved()`. -/
def chess.king_moved (s : chess) : Bool :=
  if s._current_player = player.white then s._w_king_moved else s._b_king_moved

/-- The assignment `king_moved() = true`. -/
def chess.set_king_moved (s : chess) : chess :=
  if s._current_player = player.white then { s with _w_king_moved := true }
  else { s with _b_king_moved := true }

/-- Read through the reference `chess::rook_moved(file)`. -/
def chess.rook_moved (s : chess) (file : Int) : Bool :=
  if s._current_player = player.white then
    if file > 5 then s._w_rook_2_moved else s._w_rook_1_moved
  else if file > 5 then s._b_rook_2_moved else s._b_rook_1_moved

/-- The assignment `rook_moved(file) = true`. -/
def chess.set_rook_moved (s : chess) (file : Int) : chess :=
  if s._current_player = player.white then
    if file > 5 then { s with _w_rook_2_moved := true } else { s with _w_rook_1_moved := true }
  else if file > 5 then { s with _b_rook_2_moved := true } else { s with _b_rook_1_moved := true }

/-- The function `chess::update_movement_records`. -/
def chess.update_movement_records (s : chess) (src dst : position) : chess :=
  let s1 := if (s.at_ dst).piece = piece_type.king then s.set_king_moved else s
  let s2 := if (s1.at_ dst).piece = piece_type.rook then s1.set_rook_moved src.file else s1
  if (s2.at_ src).piece = piece_type.pawn ∧ (src.rank - dst.rank).natAbs = 2 then
    { s2 with pawn_double_moved := ⟨dst.file, dst.rank⟩ }
  else { s2 with pawn_double_moved := ⟨0, 0⟩ }

/-- The function `chess::switch_players`. -/
def chess.switch_players (s : chess) : chess :=
  if s._current_player = player.white then { s with _current_player := player.black }
  else { s with _current_player := player.white }

/-- The function `chess::apply_move`. -/
def chess.apply_move (s : chess) (src dst : position) (replace : occupant) : chess :=
  (s.set_at dst (s.at_ src)).set_at src replace

/-- The function `chess::en_passant`.  The reference parameter `captured` is a
local of `play` that is not read after the call, so only the state is returned. -/
def chess.en_passant (s : chess) (src dst : position) (started_in_check : Bool) :
    Option (result × chess) :=
  let capture_ep : position := ⟨src.file - (src.file - dst.file), src.rank⟩
  if capture_ep.file ≠ s.pawn_double_moved.file ∨ capture_ep.rank ≠ s.pawn_double_moved.rank then
    some (result.lapsed, s)
  else
    let captured := s.at_ capture_ep
    let s1 := s.set_at capture_ep empty_square
    let s2 := s1.apply_move src dst empty_square
    match s2.in_check s2.find_king with
    | none => none
    | some true =>
      let s3 := s2.set_at capture_ep captured
      let s4 := s3.apply_move dst src empty_square
      if started_in_check then some (result.in_check, s4) else some (result.would_check, s4)
    | some false =>
      let s3 := s2.update_movement_records src dst
      some (result.capture, s3.switch_players)

/-- The function `chess::castling`. -/
def chess.castling (s : chess) (src dst : position) (started_in_check : Bool) :
    Option (result × chess) :=
  if s.rook_moved dst.file || s.king_moved then some (result.has_moved, s)
  else if started_in_check then some (result.in_check, s)
  else
    let rook_position := get_rook dst
    let new_file : Int := if rook_position.file = 1 then 4 else 6
    let new_rook_position : position := ⟨new_file, rook_position.rank⟩
    match s.empty_path src (rook_position.file - src.file) 0 true with
    | none => none
    | some path =>
      if path ≠ result.ok then some (path, s)
      else
        let s1 := s.apply_move src dst empty_square
        let s2 := s1.apply_move rook_position new_rook_position empty_square
        let s3 := s2.update_movement_records src dst
        some (result.ok, s3.switch_players)

/-- The function `chess::play`. -/
def chess.play (s : chess) (src dst : position) (promote : piece_type) :
    Option (result × chess) :=
  if (s.at_ src).is_empty then some (result.no_piece, s)
  else if (s.at_ src).owner ≠ s._current_player then some (result.bad_piece, s)
  else
    match s.validate_move src dst (s.at_ src).piece with
    | none => none
    | some move_validity =>
      if move_validity ≠ result.ok then some (move_validity, s)
      else if (s.at_ dst).is_empty = false ∧ (s.at_ dst).owner = (s.at_ src).owner then
        some (result.blocked, s)
      else
        let captured := s.at_ dst
        match s.in_check s.find_king with
        | none => none
        | some started_in_check =>
          if (s.at_ src).piece = piece_type.pawn
              ∧ (src.file - dst.file ≠ 0 ∧ (s.at_ dst).is_empty) then
            s.en_passant src dst started_in_check
          else if (s.at_ src).piece = piece_type.king
              ∧ (src.file = 5 ∧ (dst.file = 7 ∨ dst.file = 3)) then
            s.castling src dst started_in_check
          else
            let s1 := s.apply_move src dst empty_square
            match s1.in_check s1.find_king with
            | none => none
            | some true =>
              let s2 := s1.apply_move dst src captured
              if started_in_check then some (result.in_check, s2)
              else some (result.would_check, s2)
            | some false =>
              if (s1.at_ dst).piece = piece_type.pawn ∧ (dst.rank = 1 ∨ dst.rank = 8) then
                if promote = piece_type.king ∨ promote = piece_type.pawn then
                  some (result.bad_promote, s1.apply_move dst src captured)
                else
                  let s2 := s1.set_at dst { s1.at_ dst with piece := promote }
                  let s3 := s2.update_movement_records src dst
                  some (if captured.is_empty then result.ok else result.capture, s3.switch_players)
              else
                let s3 := s1.update_movement_records src dst
                some (if captured.is_empty then result.ok else result.capture, s3.switch_players)

/-- A sequence of `play` calls; the result codes are collected in order. -/
def chess.run (s : chess) : List move → Option (List result × chess)
  | [] => some ([], s)
  | m :: rest =>
    match s.play m.src m.dst m.promote with
    | none => none
    | some (r, s1) =>
      match chess.run s1 rest with
      | none => none
      | some (rs, s2) => some (r :: rs, s2)

/-- Shorthand for a `play` call with the default `promote = pawn`. -/
def mv (f1 r1 f2 r2 : Int) : move := ⟨⟨f1, r1⟩, ⟨f2, r2⟩, piece_type.pawn⟩

/-- The player `switch_players` hands the turn to. -/
def opponent (p : player) : player := if p = player.white then player.black else player.white

/-- The square of the pawn taken by `en_passant`. -/
def capture_square (src dst : position) : position := ⟨src.file - (src.file - dst.file), src.rank⟩

/-- The board on which `en_passant` tests the king: the pawn is taken and the move applied. -/
def chess.ep_board (s : chess) (src dst : position) : chess :=
  (s.set_at (capture_square src dst) empty_square).apply_move src dst empty_square

/-- The state `en_passant` leaves when it returns `capture`. -/
def chess.ep_done (s : chess) (src dst : position) : chess :=
  ((s.ep_board src dst).update_movement_records src dst).switch_players

/-- The state `castling` leaves when it returns `ok`. -/
def chess.castle_done (s : chess) (src dst : position) : chess :=
  ((((s.apply_move src dst empty_square).apply_move (get_rook dst)
    ⟨if (get_rook dst).file = 1 then 4 else 6, (get_rook dst).rank⟩ empty_square).update_movement_records
    src dst).switch_players)

/-- The board on which `play` tests the king on the ordinary path. -/
def chess.moved (s : chess) (src dst : position) : chess := s.apply_move src dst empty_square

/-- The state `play` leaves on the ordinary path without promotion. -/
def chess.move_done (s : chess) (src dst : position) : chess :=
  ((s.moved src dst).update_movement_records src dst).switch_players

/-- The state `play` leaves on the ordinary path with promotion. -/
def chess.promote_done (s : chess) (src dst : position) (promote : piece_type) : chess :=
  ((((s.moved src dst).set_at dst { (s.moved src dst).at_ dst with piece := promote }).update_movement_records
    src dst).switch_players)

/-- The routing test of `play` for the en passant protocol. -/
def chess.is_ep (s : chess) (src dst : position) : Prop :=
  (s.at_ src).piece = piece_type.pawn ∧ (src.file - dst.file ≠ 0 ∧ (s.at_ dst).is_empty = true)

/-- The routing test of `play` for the castling protocol. -/
def chess.is_castle (s : chess) (src dst : position) : Prop :=
  (s.at_ src).piece = piece_type.king ∧ (src.file = 5 ∧ (dst.file = 7 ∨ dst.file = 3))

/-- The state `en_passant` restores when the king turns out to be attacked. -/
def chess.ep_revert (s : chess) (src dst : position) : chess :=
  ((s.ep_board src dst).set_at (capture_square src dst) (s.at_ (capture_square src dst))).apply_move
    dst src empty_square

/-- Every cell flagged empty carries the contents written by `empty_square`. -/
def chess.canonical (s : chess) : Prop :=
  ∀ p : position, (s.at_ p).is_empty = true → s.at_ p = empty_square

/-- The states reachable from the constructed position by in-bounds `play` calls. -/
inductive Reachable : chess → Prop where
  | init : Reachable chess.new
  | step (s s' : chess) (src dst : position) (promote : piece_type) (r : result) :
      Reachable s → position_out_of_bounds src = false → position_out_of_bounds dst = false →
      s.play src dst promote = some (r, s') → Reachable s'

/-- A board given by a list of occupied squares; every other cell is `empty_square`. -/
def board_of (l : List (position × occupant)) (i j : Int) : occupant :=
  match l.find? (fun x => decide (x.1.rank - 1 = i) && decide (x.1.file - 1 = j)) with
  | some x => x.2
  | none => empty_square

/-- A state with the given side to move and pieces, no flag set and no memo. -/
def state_of (side : player) (l : List (position × occupant)) : chess :=
  { _current_player := side
    _square := board_of l
    pawn_double_moved := ⟨0, 0⟩
    _b_king_moved := false
    _b_rook_1_moved := false
    _b_rook_2_moved := false
    _w_king_moved := false
    _w_rook_1_moved := false
    _w_rook_2_moved := false }

/-- White: king e1, pawn a7.  Black: king e8.  White to move. -/
def promotion_position : chess :=
  state_of player.white
    [(⟨5, 1⟩, ⟨false, player.white, piece_type.king⟩),
     (⟨1, 7⟩, ⟨false, player.white, piece_type.pawn⟩),
     (⟨5, 8⟩, ⟨false, player.black, piece_type.king⟩)]

/-- The constructed position after 1. e2-e4 e7-e5 2. Qd1-h5: the black pawn on f7
shields its king from the queen. -/
def pinned_position : chess :=
  ((chess.new.move_done ⟨5, 2⟩ ⟨5, 4⟩).move_done ⟨5, 7⟩ ⟨5, 5⟩).move_done ⟨4, 1⟩ ⟨8, 5⟩

/-- The Check Oracle seen by the side that just moved: `in_check` on that side's
king square with the turn handed back to it, so that the attackers are the pieces
it does not own.  `before` is the state the move was played in, `after` the state
it produced. -/
def mover_king_attacked (before after : chess) : position × Option Bool :=
  let view : chess := { after with _current_player := before._current_player }
  (view.find_king, view.in_check view.find_king)

/-- White gives up the h-pawn, develops knight and bishop; a black pawn walks
g7-g5xh4-h3-h2.  White play: h2-h4, Ng1-f3, e2-e3, Bf1-e2. -/
def pawn_on_h2_game : List move :=
  [mv 8 2 8 4, mv 7 7 7 5, mv 7 1 6 3, mv 7 5 8 4, mv 5 2 5 3, mv 8 4 8 3, mv 6 1 5 2, mv 8 3 8 2]

/-- After 1. e2-e4 d7-d5 2. Bf1-e2 d5-d4 white plays the bishop e2-c4, two ranks up,
next to the black pawn on d4. -/
def bishop_two_ranks_game : List move :=
  [mv 5 2 5 4, mv 4 7 4 5, mv 6 1 5 2, mv 4 5 4 4, mv 5 2 3 4]

/-- The king flag `king_moved()` selects for side `p`. -/
def chess.king_flag (s : chess) (p : player) : Bool :=
  if p = player.white then s._w_king_moved else s._b_king_moved

/-- The rook flag `rook_moved(file)` selects for side `p`. -/
def chess.rook_flag (s : chess) (p : player) (file : Int) : Bool :=
  if p = player.white then
    if file > 5 then s._w_rook_2_moved else s._w_rook_1_moved
  else if file > 5 then s._b_rook_2_moved else s._b_rook_1_moved

/-- White: king e1, rook h1.  Black: king e8.  White to move, nothing has moved. -/
def castling_position : chess :=
  state_of player.white
    [(⟨5, 1⟩, ⟨false, player.white, piece_type.king⟩),
     (⟨8, 1⟩, ⟨false, player.white, piece_type.rook⟩),
     (⟨5, 8⟩, ⟨false, player.black, piece_type.king⟩)]

/-- From `castling_position`: the white king went e1-e2 and came back while the
black king went e8-e7 and came back.  White to move. -/
def returned_king_position : chess :=
  ((((castling_position.move_done ⟨5, 1⟩ ⟨5, 2⟩).move_done ⟨5, 8⟩ ⟨5, 7⟩).move_done
    ⟨5, 2⟩ ⟨5, 1⟩).move_done ⟨5, 7⟩ ⟨5, 8⟩)

/-- White: king e1, pawn e5.  Black: king e8, pawn f7.  Black to move. -/
def en_passant_position : chess :=
  state_of player.black
    [(⟨5, 1⟩, ⟨false, player.white, piece_type.king⟩),
     (⟨5, 5⟩, ⟨false, player.white, piece_type.pawn⟩),
     (⟨5, 8⟩, ⟨false, player.black, piece_type.king⟩),
     (⟨6, 7⟩, ⟨false, player.black, piece_type.pawn⟩)]

/-- From `en_passant_position` after f7-f5: the white pawn on e5 may capture en passant. -/
def en_passant_window : chess := en_passant_position.move_done ⟨6, 7⟩ ⟨6, 5⟩

/-- From `en_passant_window`: the kings stepped e1-e2 and e8-e7 instead. -/
def en_passant_closed : chess :=
  (en_passant_window.move_done ⟨5, 1⟩ ⟨5, 2⟩).move_done ⟨5, 8⟩ ⟨5, 7⟩

/-- As in `pawn_on_h2_game`, with b2-b4, b4-b5 for white and e7-e6, a7-a5 for black
added; then white castles into the pawn on h2 and the pawn takes the king on g1,
promoting to a queen.  The black pawn on a5 double-stepped beside the white pawn on
b5 and each side has made one more move since. -/
def king_taken_game : List move :=
  [mv 8 2 8 4, mv 7 7 7 5, mv 7 1 6 3, mv 7 5 8 4, mv 5 2 5 3, mv 8 4 8 3, mv 6 1 5 2, mv 8 3 8 2,
   mv 2 2 2 4, mv 5 7 5 6, mv 2 4 2 5, mv 1 7 1 5, mv 5 1 7 1,
   ⟨⟨8, 2⟩, ⟨7, 1⟩, piece_type.queen⟩]

/-- Square `q` holds a king of side `p`. -/
def chess.is_king (s : chess) (p : player) (q : position) : Prop :=
  (s.at_ q).is_empty = false ∧ (s.at_ q).owner = p ∧ (s.at_ q).piece = piece_type.king

/-- No two different squares hold a king of side `p`. -/
def chess.at_most_one_king (s : chess) (p : player) : Prop :=
  ∀ a b : position, s.is_king p a → s.is_king p b → a = b

/-- The number of cells of the 8×8 board that hold a king of side `p`. -/
def chess.king_count (s : chess) (p : player) : Nat :=
  (all_cells.filter (fun c => !(s._square c.1 c.2).is_empty
    && decide ((s._square c.1 c.2).owner = p)
    && decide ((s._square c.1 c.2).piece = piece_type.king))).length

/-- The direction of a distance: `1`, `-1` or `0`. -/
def unit_step (d : Int) : Int := if d > 0 then 1 else if d < 0 then -1 else 0

/-- Reference rule, following the specification: the squares strictly between `a`
and `b` on the line from `a` to `b`, nearest to `a` first. -/
def between_squares (a b : position) : List position :=
  (List.range (max (b.file - a.file).natAbs (b.rank - a.rank).natAbs - 1)).map
    (fun (i : Nat) => ⟨a.file + ((i : Int) + 1) * unit_step (b.file - a.file),
      a.rank + ((i : Int) + 1) * unit_step (b.rank - a.rank)⟩)

/-- Reference rule, following the specification: the deltas a rook (purely
horizontal or vertical), a bishop (equal magnitude on both axes) and a queen
(either) may move by. -/
def sliding_geometry (kind : piece_type) (fd rd : Int) : Bool :=
  match kind with
  | piece_type.rook => decide (fd = 0 ∨ rd = 0)
  | piece_type.bishop => decide (fd.natAbs = rd.natAbs)
  | piece_type.queen => decide ((fd = 0 ∨ rd = 0) ∨ fd.natAbs = rd.natAbs)
  | _ => false

/-- Reference rule, following the specification: `bad_move` when the delta does
not fit the piece, otherwise `blocked` when a square strictly between is occupied
and `ok` when all of them are empty. -/
def sliding_rule_spec (s : chess) (a b : position) (kind : piece_type) : result :=
  if sliding_geometry kind (b.file - a.file) (b.rank - a.rank) = false then result.bad_move
  else if (between_squares a b).all (fun q => (s.at_ q).is_empty) then result.ok
  else result.blocked

/-- White: king e1.  Black: a single pawn on d5 and nothing else.  White to move. -/
def lone_pawn_position : chess :=
  state_of player.white
    [(⟨5, 1⟩, ⟨false, player.white, piece_type.king⟩),
     (⟨4, 5⟩, ⟨false, player.black, piece_type.pawn⟩)]

/-- After 1. d2-d4 Ng8-f6 2. Bc1-f4 Nf6-e4 3. Qd1-d3 Ne4-d2: c1 and d1 are empty, the
white knight still stands on b1 and the black knight on d2 is a knight's move away
from b1. -/
def knight_on_d2_game : List move :=
  [mv 4 2 4 4, mv 7 8 6 6, mv 3 1 6 4, mv 6 6 5 4, mv 4 1 4 3, mv 5 4 4 2]

/-- White plays a2-a4, Ra1-a3, Ra3-h3, Rh3-g3, e2-e3, Bf1-e2, Ng1-f3 while a black
knight goes b8-c6 and back.  Neither the white king nor the rook on h1 is touched. -/
def rook_wander_game : List move :=
  [mv 1 2 1 4, mv 2 8 3 6, mv 1 1 1 3, mv 3 6 2 8, mv 1 3 8 3, mv 2 8 3 6, mv 8 3 7 3,
   mv 3 6 2 8, mv 5 2 5 3, mv 2 8 3 6, mv 6 1 5 2, mv 3 6 2 8, mv 7 1 6 3, mv 2 8 3 6]

/-- After 1. g2-g4 h7-h5 2. h2-h3 h5xg4 3. h3xg4 Rh8xh1 a black rook stands on h1;
then 4. e2-e3 a7-a6 5. Bf1-e2 a6-a5 empties f1. -/
def rook_on_corner_game : List move :=
  [mv 7 2 7 4, mv 8 7 8 5, mv 8 2 8 3, mv 8 5 7 4, mv 8 3 7 4, mv 8 8 8 1, mv 5 2 5 3,
   mv 1 7 1 6, mv 6 1 5 2, mv 1 6 1 5]

/-! ## Lemmas on the accessors and the helper functions -/

@[simp]
theorem set_at_current (s : chess) (p : position) (o : occupant) :
    (s.set_at p o)._current_player = s._current_player := rfl

@[simp]
theorem apply_move_current (s : chess) (a b : position) (o : occupant) :
    (s.apply_move a b o)._current_player = s._current_player := rfl

@[simp]
theorem set_king_moved_current (s : chess) :
    s.set_king_moved._current_player = s._current_player := by
  unfold chess.set_king_moved; split <;> rfl

@[simp]
theorem set_rook_moved_current (s : chess) (f : Int) :
    (s.set_rook_moved f)._current_player = s._current_player := by
  unfold chess.set_rook_moved; split <;> split <;> rfl

@[simp]
theorem update_movement_records_current (s : chess) (a b : position) :
    (s.update_movement_records a b)._current_player = s._current_player := by
  unfold chess.update_movement_records
  simp only []
  split <;> split <;> split <;> simp

theorem switch_players_current (s : chess) :
    s.switch_players._current_player = opponent s._current_player := by
  unfold chess.switch_players opponent; split <;> simp [*]

theorem empty_path_loop_result (sq : position → occupant) (chk : position → Option Bool)
    (fuel : Nat) (src : position) (fd rd : Int) (c : Bool) (r : result)
    (h : empty_path_loop sq chk fuel src fd rd c = some r) :
    r = result.ok ∨ r = result.blocked ∨ r = result.would_check := by
  induction fuel generalizing fd rd with
  | zero => simp [empty_path_loop] at h
  | succ n ih =>
    unfold empty_path_loop at h
    simp only [] at h
    split at h
    · simp at h
    · simp at h; simp [← h]
    · split at h
      · exact ih _ _ h
      · split at h <;> simp at h <;> simp [← h]

theorem empty_path_loop_plain (sq : position → occupant) (chk : position → Option Bool)
    (fuel : Nat) (src : position) (fd rd : Int) (r : result)
    (h : empty_path_loop sq chk fuel src fd rd false = some r) :
    r = result.ok ∨ r = result.blocked := by
  induction fuel generalizing fd rd with
  | zero => simp [empty_path_loop] at h
  | succ n ih =>
    unfold empty_path_loop at h
    simp only [] at h
    split at h
    · simp at h
    · rename_i heq; simp at heq
    · split at h
      · exact ih _ _ h
      · split at h <;> simp at h <;> simp [← h]

theorem validate_move_result (s : chess) (a b : position) (p : piece_type) (r : result)
    (h : s.validate_move a b p = some r) :
    r = result.ok ∨ r = result.bad_move ∨ r = result.blocked := by
  have hp : ∀ fd rd r, empty_path_with s.at_ (fun _ => some false) a fd rd false = some r →
      r = result.ok ∨ r = result.bad_move ∨ r = result.blocked := by
    intro fd rd r h
    rcases empty_path_loop_plain _ _ _ _ _ _ _ h with h | h <;> simp [h]
  unfold chess.validate_move at h
  split at h; · simp at h
  split at h; · simp at h
  simp only [] at h
  split at h; · simp at h; simp [← h]
  split at h
  · simp only [Option.some.injEq] at h
    subst h
    unfold chess.pawn_move
    simp only []
    repeat' split
    all_goals simp
  · unfold chess.rook_move at h
    split at h
    · simp at h; simp [← h]
    · exact hp _ _ _ h
  · simp only [Option.some.injEq] at h
    subst h
    unfold knight_move
    split <;> simp
  · unfold chess.bishop_move at h
    split at h
    · simp at h; simp [← h]
    · exact hp _ _ _ h
  · unfold chess.queen_move at h
    split at h
    · simp at h; simp [← h]
    · exact hp _ _ _ h
  · unfold chess.king_move at h
    split at h
    · simp at h; simp [← h]
    · split at h
      · split at h
        · simp at h; simp [← h]
        · exact hp _ _ _ h
      · simp at h; simp [← h]

theorem en_passant_ok (s s' : chess) (src dst : position) (b : Bool) (r : result)
    (h : s.en_passant src dst b = some (r, s')) (hr : r = result.ok ∨ r = result.capture) :
    (capture_square src dst).file = s.pawn_double_moved.file
    ∧ (capture_square src dst).rank = s.pawn_double_moved.rank
    ∧ (s.ep_board src dst).in_check (s.ep_board src dst).find_king = some false
    ∧ r = result.capture ∧ s' = s.ep_done src dst := by
  unfold chess.en_passant at h
  simp only [] at h
  split at h
  · simp at h; rcases hr with hr | hr <;> simp [← h.1] at hr
  · rename_i hm
    split at h
    · simp at h
    · split at h <;> simp at h <;> rcases hr with hr | hr <;> simp [← h.1] at hr
    · rename_i hc
      simp only [Option.some.injEq, Prod.mk.injEq] at h
      push_neg at hm
      exact ⟨hm.1, hm.2, hc, h.1.symm, h.2.symm⟩

theorem castling_ok (s s' : chess) (src dst : position) (b : Bool) (r : result)
    (h : s.castling src dst b = some (r, s')) (hr : r = result.ok ∨ r = result.capture) :
    s.rook_moved dst.file = false ∧ s.king_moved = false ∧ b = false
    ∧ s.empty_path src ((get_rook dst).file - src.file) 0 true = some result.ok
    ∧ r = result.ok ∧ s' = s.castle_done src dst := by
  unfold chess.castling at h
  split at h
  · simp at h; rcases hr with hr | hr <;> simp [← h.1] at hr
  · rename_i hf
    split at h
    · simp at h; rcases hr with hr | hr <;> simp [← h.1] at hr
    · rename_i hb
      simp only [] at h
      split at h
      · simp at h
      · rename_i path hpath
        split at h
        · rename_i hne
          simp only [Option.some.injEq, Prod.mk.injEq] at h
          have hres := empty_path_loop_result _ _ _ _ _ _ _ _ hpath
          obtain ⟨h1, _⟩ := h
          subst h1
          rcases hr with hr | hr
          · exact absurd hr hne
          · rcases hres with t | t | t <;> rw [t] at hr <;> cases hr
        · rename_i hne
          simp only [Option.some.injEq, Prod.mk.injEq] at h
          simp only [ne_eq, not_not] at hne
          subst hne
          simp only [Bool.or_eq_true, not_or, Bool.not_eq_true] at hf
          simp only [Bool.not_eq_true] at hb
          exact ⟨hf.1, hf.2, hb, hpath, h.1.symm, h.2.symm⟩

theorem play_ok (s s' : chess) (src dst : position) (promote : piece_type) (r : result)
    (h : s.play src dst promote = some (r, s')) (hr : r = result.ok ∨ r = result.capture) :
    (s.at_ src).is_empty = false ∧ (s.at_ src).owner = s._current_player
    ∧ s.validate_move src dst (s.at_ src).piece = some result.ok
    ∧ ¬ ((s.at_ dst).is_empty = false ∧ (s.at_ dst).owner = (s.at_ src).owner)
    ∧ ∃ b, s.in_check s.find_king = some b
      ∧ ((s.is_ep src dst ∧ s.en_passant src dst b = some (r, s'))
        ∨ (¬ s.is_ep src dst ∧ s.is_castle src dst ∧ s.castling src dst b = some (r, s'))
        ∨ (¬ s.is_ep src dst ∧ ¬ s.is_castle src dst
            ∧ (s.moved src dst).in_check (s.moved src dst).find_king = some false
            ∧ r = (if (s.at_ dst).is_empty then result.ok else result.capture)
            ∧ ((((s.moved src dst).at_ dst).piece = piece_type.pawn ∧ (dst.rank = 1 ∨ dst.rank = 8))
                ∧ ¬ (promote = piece_type.king ∨ promote = piece_type.pawn)
                ∧ s' = s.promote_done src dst promote
              ∨ ¬ (((s.moved src dst).at_ dst).piece = piece_type.pawn ∧ (dst.rank = 1 ∨ dst.rank = 8))
                ∧ s' = s.move_done src dst))) := by
  unfold chess.play at h
  split at h
  · simp at h; rcases hr with hr | hr <;> simp [← h.1] at hr
  rename_i h1
  split at h
  · simp at h; rcases hr with hr | hr <;> simp [← h.1] at hr
  rename_i h2
  split at h
  · simp at h
  rename_i v hv
  split at h
  · rename_i hne
    simp only [Option.some.injEq, Prod.mk.injEq] at h
    have hres := validate_move_result _ _ _ _ _ hv
    obtain ⟨h1, _⟩ := h
    subst h1
    rcases hr with hr | hr
    · exact absurd hr hne
    · rcases hres with t | t | t <;> rw [t] at hr <;> cases hr
  rename_i hne
  simp only [ne_eq, not_not] at hne
  subst hne
  split at h
  · simp at h; rcases hr with hr | hr <;> simp [← h.1] at hr
  rename_i h3
  simp only [] at h
  split at h
  · simp at h
  rename_i b hb
  simp only [Bool.not_eq_true] at h1
  simp only [ne_eq, not_not] at h2
  refine ⟨h1, h2, hv, h3, b, hb, ?_⟩
  split at h
  · rename_i hep
    exact Or.inl ⟨hep, h⟩
  rename_i hep
  split at h
  · rename_i hca
    exact Or.inr (Or.inl ⟨hep, hca, h⟩)
  rename_i hca
  refine Or.inr (Or.inr ⟨hep, hca, ?_⟩)
  split at h
  · simp at h
  · split at h <;> simp at h <;> rcases hr with hr | hr <;> simp [← h.1] at hr
  rename_i hsafe
  refine ⟨hsafe, ?_⟩
  split at h
  · rename_i hpr
    split at h
    · simp at h; rcases hr with hr | hr <;> simp [← h.1] at hr
    · rename_i hpp
      simp only [Option.some.injEq, Prod.mk.injEq] at h
      exact ⟨h.1.symm, Or.inl ⟨hpr, hpp, h.2.symm⟩⟩
  · rename_i hpr
    simp only [Option.some.injEq, Prod.mk.injEq] at h
    exact ⟨h.1.symm, Or.inr ⟨hpr, h.2.symm⟩⟩

theorem position_eq_iff (p q : position) : p = q ↔ p.file = q.file ∧ p.rank = q.rank := by
  cases p; cases q; simp

theorem at_set_at (s : chess) (p q : position) (o : occupant) :
    (s.set_at p o).at_ q = if q = p then o else s.at_ q := by
  unfold chess.set_at chess.at_
  simp only [position_eq_iff]
  by_cases h : q.rank = p.rank <;> by_cases h' : q.file = p.file <;> simp [h, h']

theorem at_set_at_same (s : chess) (p : position) (o : occupant) :
    (s.set_at p o).at_ p = o := by
  simp [at_set_at]

theorem at_set_at_ne (s : chess) (p q : position) (o : occupant) (h : q ≠ p) :
    (s.set_at p o).at_ q = s.at_ q := by
  simp [at_set_at, h]

theorem at_apply_move (s : chess) (a b q : position) (o : occupant) :
    (s.apply_move a b o).at_ q = if q = a then o else if q = b then s.at_ a else s.at_ q := by
  unfold chess.apply_move
  rw [at_set_at, at_set_at]

@[simp]
theorem set_king_moved_square (s : chess) : s.set_king_moved._square = s._square := by
  unfold chess.set_king_moved; split <;> rfl

@[simp]
theorem set_rook_moved_square (s : chess) (f : Int) : (s.set_rook_moved f)._square = s._square := by
  unfold chess.set_rook_moved; split <;> split <;> rfl

@[simp]
theorem update_movement_records_square (s : chess) (a b : position) :
    (s.update_movement_records a b)._square = s._square := by
  unfold chess.update_movement_records
  simp only []
  split <;> split <;> split <;> simp

@[simp]
theorem switch_players_square (s : chess) : s.switch_players._square = s._square := by
  unfold chess.switch_players; split <;> rfl

theorem at_congr (s t : chess) (h : s._square = t._square) (q : position) : s.at_ q = t.at_ q := by
  unfold chess.at_; rw [h]

@[simp]
theorem at_update_movement_records (s : chess) (a b q : position) :
    (s.update_movement_records a b).at_ q = s.at_ q :=
  at_congr _ _ (update_movement_records_square s a b) q

@[simp]
theorem at_switch_players (s : chess) (q : position) : s.switch_players.at_ q = s.at_ q :=
  at_congr _ _ (switch_players_square s) q

/-- An accepted `validate_move` has in-bounds squares that differ. -/
theorem validate_move_some (s : chess) (a b : position) (p : piece_type) (r : result)
    (h : s.validate_move a b p = some r) :
    position_out_of_bounds a = false ∧ position_out_of_bounds b = false := by
  unfold chess.validate_move at h
  split at h; · simp at h
  split at h; · simp at h
  simp_all

theorem validate_move_ok_ne (s : chess) (a b : position) (p : piece_type)
    (h : s.validate_move a b p = some result.ok) : a ≠ b := by
  intro hab
  unfold chess.validate_move at h
  split at h; · simp at h
  split at h; · simp at h
  simp only [] at h
  rw [if_pos ⟨by rw [hab]; simp, by rw [hab]; simp⟩] at h
  simp at h

/-- What an accepted pawn move looks like. -/
theorem pawn_move_ok (s : chess) (a b : position)
    (h : s.pawn_move a b (b.file - a.file) (b.rank - a.rank) = result.ok) :
    ¬ ((b.rank - a.rank > 0 ∧ (s.at_ a).owner = player.black)
      ∨ (b.rank - a.rank < 0 ∧ (s.at_ a).owner = player.white))
    ∧ ((b.file = a.file ∧ ((b.rank - a.rank = 2 ∧ a.rank = 2) ∨ (b.rank - a.rank = -2 ∧ a.rank = 7))
          ∧ (s.at_ b).is_empty = true
          ∧ (s.at_ ⟨b.file, b.rank - Int.tdiv (b.rank - a.rank) 2⟩).is_empty = true)
      ∨ (b.file = a.file ∧ (b.rank - a.rank).natAbs = 1 ∧ (s.at_ b).is_empty = true)
      ∨ ((b.file - a.file).natAbs = 1 ∧ (b.rank - a.rank).natAbs = 1
          ∧ (((s.at_ ⟨a.file + (b.file - a.file), a.rank⟩).is_empty = false
              ∧ (s.at_ ⟨a.file + (b.file - a.file), a.rank⟩).owner ≠ (s.at_ a).owner
              ∧ (b.rank = 3 ∨ b.rank = 6))
            ∨ ((s.at_ b).is_empty = false ∧ (s.at_ a).owner ≠ (s.at_ b).owner)))) := by
  unfold chess.pawn_move at h
  split at h; · simp at h
  rename_i hdir
  refine ⟨hdir, ?_⟩
  split at h
  · rename_i h2
    split at h
    · rename_i h3
      left
      refine ⟨by omega, h2.2, h3.1, h3.2⟩
    · simp at h
  · split at h
    · rename_i h1
      split at h
      · rename_i h0
        split at h
        · rename_i he
          right; left
          exact ⟨by omega, h1, he⟩
        · simp at h
      · split at h
        · rename_i hf
          simp only [] at h
          right; right
          refine ⟨hf, h1, ?_⟩
          split at h
          · rename_i hc
            left
            exact ⟨by simpa using hc.1.1, hc.1.2, hc.2⟩
          · split at h
            · rename_i hc
              right
              exact ⟨by simpa using hc.1, hc.2⟩
            · simp at h
        · simp at h
    · simp at h

theorem validate_pawn (s : chess) (a b : position) (r : result)
    (h : s.validate_move a b piece_type.pawn = some r) :
    r = s.pawn_move a b (b.file - a.file) (b.rank - a.rank) := by
  unfold chess.validate_move at h
  split at h; · simp at h
  split at h; · simp at h
  simp only [] at h
  split at h
  · rename_i h0
    simp only [Option.some.injEq] at h
    subst h
    unfold chess.pawn_move
    rw [if_neg (by omega), if_neg (by omega), if_neg (by omega)]
  · simpa using h.symm

/-- The en passant route is never taken onto rank 1 or 8: the validator accepts a
diagonal step onto an empty square only on rank 3 or 6. -/
theorem is_ep_rank (s : chess) (src dst : position) (hep : s.is_ep src dst)
    (hv : s.validate_move src dst (s.at_ src).piece = some result.ok) :
    (dst.file - src.file).natAbs = 1 ∧ (dst.rank - src.rank).natAbs = 1
    ∧ (s.at_ ⟨src.file + (dst.file - src.file), src.rank⟩).is_empty = false
    ∧ (s.at_ ⟨src.file + (dst.file - src.file), src.rank⟩).owner ≠ (s.at_ src).owner
    ∧ (dst.rank = 3 ∨ dst.rank = 6) := by
  obtain ⟨hp, hf, he⟩ := hep
  rw [hp] at hv
  have hpm := (validate_pawn s src dst _ hv).symm
  obtain ⟨_, h | h | h⟩ := pawn_move_ok s src dst hpm
  · omega
  · omega
  · obtain ⟨h1, h2, h3 | h3⟩ := h
    · exact ⟨h1, h2, h3⟩
    · rw [he] at h3; simp at h3

theorem at_moved_dst (s : chess) (src dst : position) (h : src ≠ dst) :
    (s.moved src dst).at_ dst = s.at_ src := by
  unfold chess.moved
  rw [at_apply_move, if_neg (Ne.symm h), if_pos rfl]

theorem at_moved_src (s : chess) (src dst : position) :
    (s.moved src dst).at_ src = empty_square := by
  unfold chess.moved
  rw [at_apply_move, if_pos rfl]

/-! ## Turn alternation and promotion -/

/-- An accepted `play` hands the turn to the opponent. -/
theorem play_ok_current (s s' : chess) (src dst : position) (promote : piece_type) (r : result)
    (h : s.play src dst promote = some (r, s')) (hr : r = result.ok ∨ r = result.capture) :
    s'._current_player = opponent s._current_player := by
  obtain ⟨_, _, _, _, b, _, hcase⟩ := play_ok s s' src dst promote r h hr
  rcases hcase with ⟨_, he⟩ | ⟨_, _, hc⟩ | ⟨_, _, _, _, hp | hp⟩
  · obtain ⟨_, _, _, _, hs⟩ := en_passant_ok s s' src dst b r he hr
    rw [hs, chess.ep_done, switch_players_current]
    simp [chess.ep_board]
  · obtain ⟨_, _, _, _, _, hs⟩ := castling_ok s s' src dst b r hc hr
    rw [hs, chess.castle_done, switch_players_current]
    simp
  · rw [hp.2.2, chess.promote_done, switch_players_current]
    simp [chess.moved]
  · rw [hp.2, chess.move_done, switch_players_current]
    simp [chess.moved]

theorem opponent_ne (p : player) : opponent p ≠ p := by
  cases p <;> simp [opponent]

/-- C3 (turn alternation): whenever `play` on in-bounds squares returns `ok` or
`capture`, through the ordinary, the en passant or the castling path, the side to
move afterwards is the opposite of the side to move before. -/
theorem turn_alternation (s s' : chess) (src dst : position) (promote : piece_type) (r : result)
    (hsrc : position_out_of_bounds src = false) (hdst : position_out_of_bounds dst = false)
    (h : s.play src dst promote = some (r, s')) (hr : r = result.ok ∨ r = result.capture) :
    s'._current_player = opponent s._current_player
    ∧ s'._current_player ≠ s._current_player := by
  have hs := play_ok_current s s' src dst promote r h hr
  exact ⟨hs, by rw [hs]; exact opponent_ne _⟩

theorem turn_alternation_witness :
    (chess.new.move_done ⟨5, 2⟩ ⟨5, 4⟩)._current_player = opponent chess.new._current_player
    ∧ (chess.new.move_done ⟨5, 2⟩ ⟨5, 4⟩)._current_player ≠ chess.new._current_player :=
  turn_alternation chess.new (chess.new.move_done ⟨5, 2⟩ ⟨5, 4⟩) ⟨5, 2⟩ ⟨5, 4⟩
    piece_type.pawn result.ok (by decide) (by decide) (by rfl) (Or.inl rfl)

/-- C10 (promotion result): when `play` moves a pawn onto rank 8 or rank 1 with
`promote` one of rook, knight, bishop, queen and returns `ok` or `capture`, the
destination is afterwards non-empty, owned by the mover and of kind `promote`,
and the origin is empty. -/
theorem promotion_result (s s' : chess) (src dst : position) (promote : piece_type) (r : result)
    (hsrc : position_out_of_bounds src = false) (hdst : position_out_of_bounds dst = false)
    (hpawn : (s.at_ src).piece = piece_type.pawn)
    (hrank : dst.rank = 8 ∨ dst.rank = 1)
    (hprom : promote = piece_type.rook ∨ promote = piece_type.knight
      ∨ promote = piece_type.bishop ∨ promote = piece_type.queen)
    (h : s.play src dst promote = some (r, s')) (hr : r = result.ok ∨ r = result.capture) :
    (s'.at_ dst).is_empty = false ∧ (s'.at_ dst).owner = s._current_player
    ∧ (s'.at_ dst).piece = promote ∧ (s'.at_ src).is_empty = true := by
  obtain ⟨hne, hown, hv, _, b, _, hcase⟩ := play_ok s s' src dst promote r h hr
  have hsd : src ≠ dst := validate_move_ok_ne s src dst _ hv
  rcases hcase with ⟨hep, _⟩ | ⟨_, hc, _⟩ | ⟨_, _, _, _, hp | hp⟩
  · have := (is_ep_rank s src dst hep hv).2.2.2.2
    omega
  · rw [hc.1] at hpawn; cases hpawn
  · rw [hp.2.2, chess.promote_done]
    simp only [at_switch_players, at_update_movement_records]
    rw [at_set_at_same, at_set_at_ne _ _ _ _ hsd, at_moved_dst s src dst hsd, at_moved_src]
    exact ⟨hne, hown, rfl, rfl⟩
  · exfalso
    apply hp.1
    rw [at_moved_dst s src dst hsd]
    exact ⟨hpawn, by omega⟩

theorem square_ext (s t : chess) (h : ∀ p, t.at_ p = s.at_ p) : t._square = s._square := by
  funext i j
  have := h ⟨j + 1, i + 1⟩
  simpa [chess.at_] using this

theorem chess_eq (s t : chess) (hsq : ∀ p, t.at_ p = s.at_ p)
    (h1 : t._current_player = s._current_player)
    (h2 : t.pawn_double_moved = s.pawn_double_moved)
    (h3 : t._b_king_moved = s._b_king_moved) (h4 : t._b_rook_1_moved = s._b_rook_1_moved)
    (h5 : t._b_rook_2_moved = s._b_rook_2_moved) (h6 : t._w_king_moved = s._w_king_moved)
    (h7 : t._w_rook_1_moved = s._w_rook_1_moved) (h8 : t._w_rook_2_moved = s._w_rook_2_moved) :
    t = s := by
  have hq := square_ext s t hsq
  cases s; cases t
  simp only [chess.mk.injEq]
  exact ⟨h1, hq, h2, h3, h4, h5, h6, h7, h8⟩

/-- Undoing an ordinary move with `apply_move(to, from, captured)` restores the state. -/
theorem moved_revert (s : chess) (src dst : position) (h : src ≠ dst) :
    (s.moved src dst).apply_move dst src (s.at_ dst) = s := by
  apply chess_eq <;> try rfl
  intro q
  rw [at_apply_move, at_moved_dst s src dst h]
  by_cases h1 : q = dst
  · rw [if_pos h1, h1]
  · rw [if_neg h1]
    by_cases h2 : q = src
    · rw [if_pos h2, h2]
    · rw [if_neg h2]
      unfold chess.moved
      rw [at_apply_move, if_neg h2, if_neg h1]

/-- The ordinary path of `play` once the guards and the routing are decided. -/
theorem play_ordinary (s : chess) (src dst : position) (promote : piece_type) (b : Bool)
    (h1 : (s.at_ src).is_empty = false) (h2 : (s.at_ src).owner = s._current_player)
    (hv : s.validate_move src dst (s.at_ src).piece = some result.ok)
    (h3 : ¬ ((s.at_ dst).is_empty = false ∧ (s.at_ dst).owner = (s.at_ src).owner))
    (hb : s.in_check s.find_king = some b)
    (hep : ¬ s.is_ep src dst) (hc : ¬ s.is_castle src dst)
    (hsafe : (s.moved src dst).in_check (s.moved src dst).find_king = some false) :
    s.play src dst promote =
      if ((s.moved src dst).at_ dst).piece = piece_type.pawn ∧ (dst.rank = 1 ∨ dst.rank = 8) then
        if promote = piece_type.king ∨ promote = piece_type.pawn then
          some (result.bad_promote, (s.moved src dst).apply_move dst src (s.at_ dst))
        else
          some (if (s.at_ dst).is_empty then result.ok else result.capture,
            s.promote_done src dst promote)
      else
        some (if (s.at_ dst).is_empty then result.ok else result.capture, s.move_done src dst) := by
  unfold chess.is_ep at hep
  unfold chess.is_castle at hc
  unfold chess.moved at hsafe
  unfold chess.play
  rw [if_neg (by simp [h1]), if_neg (by simp [h2]), hv]
  simp only []
  rw [if_neg (by simp), if_neg h3, hb]
  simp only []
  rw [if_neg hep, if_neg hc, hsafe]
  rfl

/-- C9 (promotion domain): if a pawn move onto rank 8 or rank 1 is accepted with
`promote = queen`, then the same call with `promote = pawn` (the default) or
`promote = king` returns `bad_promote` and leaves the whole state as it was: the
pawn is still a pawn on its origin, the destination holds what it held, and the
side to move, the flags and the memo are unchanged. -/
theorem promotion_domain (s s1 : chess) (src dst : position) (r : result) (promote : piece_type)
    (hsrc : position_out_of_bounds src = false) (hdst : position_out_of_bounds dst = false)
    (hpawn : (s.at_ src).piece = piece_type.pawn)
    (hrank : dst.rank = 8 ∨ dst.rank = 1)
    (hq : s.play src dst piece_type.queen = some (r, s1))
    (hr : r = result.ok ∨ r = result.capture)
    (hbad : promote = piece_type.pawn ∨ promote = piece_type.king) :
    s.play src dst promote = some (result.bad_promote, s) := by
  obtain ⟨hne, hown, hv, h3, b, hb, hcase⟩ := play_ok s s1 src dst _ r hq hr
  have hsd : src ≠ dst := validate_move_ok_ne s src dst _ hv
  rcases hcase with ⟨hep, _⟩ | ⟨_, hc, _⟩ | ⟨hep, hc, hsafe, _, _⟩
  · have := (is_ep_rank s src dst hep hv).2.2.2.2
    omega
  · rw [hc.1] at hpawn; cases hpawn
  · rw [play_ordinary s src dst promote b hne hown hv h3 hb hep hc hsafe]
    rw [if_pos ⟨by rw [at_moved_dst s src dst hsd]; exact hpawn, by omega⟩,
      if_pos (by tauto), moved_revert s src dst hsd]

theorem promotion_result_witness :
    ((promotion_position.promote_done ⟨1, 7⟩ ⟨1, 8⟩ piece_type.queen).at_ ⟨1, 8⟩).is_empty = false
    ∧ ((promotion_position.promote_done ⟨1, 7⟩ ⟨1, 8⟩ piece_type.queen).at_ ⟨1, 8⟩).owner
        = promotion_position._current_player
    ∧ ((promotion_position.promote_done ⟨1, 7⟩ ⟨1, 8⟩ piece_type.queen).at_ ⟨1, 8⟩).piece
        = piece_type.queen
    ∧ ((promotion_position.promote_done ⟨1, 7⟩ ⟨1, 8⟩ piece_type.queen).at_ ⟨1, 7⟩).is_empty = true :=
  promotion_result promotion_position _ ⟨1, 7⟩ ⟨1, 8⟩ piece_type.queen result.ok
    (by decide) (by decide) (by decide) (by decide) (by decide) (by rfl) (Or.inl rfl)

theorem promotion_domain_witness :
    promotion_position.play ⟨1, 7⟩ ⟨1, 8⟩ piece_type.pawn
      = some (result.bad_promote, promotion_position) :=
  promotion_domain promotion_position (promotion_position.promote_done ⟨1, 7⟩ ⟨1, 8⟩ piece_type.queen)
    ⟨1, 7⟩ ⟨1, 8⟩ result.ok piece_type.pawn
    (by decide) (by decide) (by decide) (by decide) (by rfl) (Or.inl rfl) (Or.inl rfl)

/-! ## Rejected calls and the invariant on empty cells -/

theorem en_passant_reject (s s' : chess) (src dst : position) (b : Bool) (r : result)
    (h : s.en_passant src dst b = some (r, s')) (hr : r ≠ result.capture) :
    s' = s ∨ s' = s.ep_revert src dst := by
  unfold chess.en_passant at h
  simp only [] at h
  split at h
  · simp only [Option.some.injEq, Prod.mk.injEq] at h
    exact Or.inl h.2.symm
  · split at h
    · simp at h
    · right
      split at h <;> simp only [Option.some.injEq, Prod.mk.injEq] at h <;> exact h.2.symm
    · simp only [Option.some.injEq, Prod.mk.injEq] at h
      exact absurd h.1.symm hr

theorem castling_reject (s s' : chess) (src dst : position) (b : Bool) (r : result)
    (h : s.castling src dst b = some (r, s')) (hr : r ≠ result.ok) : s' = s := by
  unfold chess.castling at h
  split at h
  · simp only [Option.some.injEq, Prod.mk.injEq] at h; exact h.2.symm
  · split at h
    · simp only [Option.some.injEq, Prod.mk.injEq] at h; exact h.2.symm
    · simp only [] at h
      split at h
      · simp at h
      · split at h
        · simp only [Option.some.injEq, Prod.mk.injEq] at h; exact h.2.symm
        · simp only [Option.some.injEq, Prod.mk.injEq] at h
          exact absurd h.1.symm hr

/-- Where a rejected `play` leaves the state: untouched, or after one of the two
revert sequences. -/
theorem play_reject (s s' : chess) (src dst : position) (promote : piece_type) (r : result)
    (h : s.play src dst promote = some (r, s'))
    (hr1 : r ≠ result.ok) (hr2 : r ≠ result.capture) :
    s' = s
    ∨ (src ≠ dst ∧ s' = (s.moved src dst).apply_move dst src (s.at_ dst))
    ∨ (s.is_ep src dst ∧ s.validate_move src dst (s.at_ src).piece = some result.ok
        ∧ s' = s.ep_revert src dst) := by
  unfold chess.play at h
  split at h
  · simp only [Option.some.injEq, Prod.mk.injEq] at h; exact Or.inl h.2.symm
  split at h
  · simp only [Option.some.injEq, Prod.mk.injEq] at h; exact Or.inl h.2.symm
  split at h
  · simp at h
  rename_i v hv
  split at h
  · simp only [Option.some.injEq, Prod.mk.injEq] at h; exact Or.inl h.2.symm
  rename_i hne
  simp only [ne_eq, not_not] at hne
  subst hne
  have hsd : src ≠ dst := validate_move_ok_ne s src dst _ hv
  split at h
  · simp only [Option.some.injEq, Prod.mk.injEq] at h; exact Or.inl h.2.symm
  simp only [] at h
  split at h
  · simp at h
  rename_i b hb
  split at h
  · rename_i hep
    rcases en_passant_reject s s' src dst b r h hr2 with h' | h'
    · exact Or.inl h'
    · exact Or.inr (Or.inr ⟨hep, hv, h'⟩)
  split at h
  · exact Or.inl (castling_reject s s' src dst b r h hr1)
  split at h
  · simp at h
  · right; left
    refine ⟨hsd, ?_⟩
    split at h <;> simp only [Option.some.injEq, Prod.mk.injEq] at h <;> exact h.2.symm
  · split at h
    · split at h
      · simp only [Option.some.injEq, Prod.mk.injEq] at h
        exact Or.inr (Or.inl ⟨hsd, h.2.symm⟩)
      · simp only [Option.some.injEq, Prod.mk.injEq] at h
        exfalso
        have := h.1
        split at this
        · exact hr1 this.symm
        · exact hr2 this.symm
    · simp only [Option.some.injEq, Prod.mk.injEq] at h
      exfalso
      have := h.1
      split at this
      · exact hr1 this.symm
      · exact hr2 this.symm

/-- Undoing an en passant capture restores the state when the destination held
the contents of `empty_square`. -/
theorem ep_revert_eq (s : chess) (src dst : position)
    (hempty : s.at_ dst = empty_square)
    (hf : src.file ≠ dst.file) (hr : src.rank ≠ dst.rank) :
    s.ep_revert src dst = s := by
  have hsd : src ≠ dst := by
    intro h; exact hf (by rw [h])
  have hcs : capture_square src dst ≠ src := by
    intro h
    have := congrArg position.file h
    simp only [capture_square] at this
    omega
  have hcd : capture_square src dst ≠ dst := by
    intro h
    have := congrArg position.rank h
    simp only [capture_square] at this
    omega
  apply chess_eq <;> try rfl
  intro q
  unfold chess.ep_revert chess.ep_board
  rw [at_apply_move]
  by_cases h1 : q = dst
  · rw [if_pos h1, h1, hempty]
  · rw [if_neg h1]
    by_cases h2 : q = src
    · rw [if_pos h2, h2, at_set_at_ne _ _ _ _ (Ne.symm hcd), at_apply_move, if_neg (Ne.symm hsd),
        if_pos rfl, at_set_at_ne _ _ _ _ (Ne.symm hcs)]
    · rw [if_neg h2, at_set_at]
      by_cases h3 : q = capture_square src dst
      · rw [if_pos h3, h3]
      · rw [if_neg h3, at_apply_move, if_neg h2, if_neg h1, at_set_at_ne _ _ _ _ h3]

/-- On a canonical board a rejected `play` leaves the state as it was. -/
theorem play_reject_eq (s s' : chess) (src dst : position) (promote : piece_type) (r : result)
    (hcan : s.canonical)
    (h : s.play src dst promote = some (r, s'))
    (hr1 : r ≠ result.ok) (hr2 : r ≠ result.capture) : s' = s := by
  rcases play_reject s s' src dst promote r h hr1 hr2 with h' | ⟨hsd, h'⟩ | ⟨hep, hv, h'⟩
  · exact h'
  · rw [h', moved_revert s src dst hsd]
  · rw [h']
    obtain ⟨h1, h2, _⟩ := is_ep_rank s src dst hep hv
    exact ep_revert_eq s src dst (hcan dst hep.2.2) (by omega) (by omega)

theorem canonical_of_square (s t : chess) (h : t._square = s._square) (hc : s.canonical) :
    t.canonical := by
  intro p hp
  rw [at_congr t s h] at hp ⊢
  exact hc p hp

theorem canonical_set_at (s : chess) (p : position) (o : occupant) (hc : s.canonical)
    (ho : o.is_empty = true → o = empty_square) : (s.set_at p o).canonical := by
  intro q hq
  rw [at_set_at] at hq ⊢
  split at hq
  · rename_i h; rw [if_pos h]; exact ho hq
  · rename_i h; rw [if_neg h]; exact hc q hq

theorem canonical_apply_move (s : chess) (a b : position) (o : occupant) (hc : s.canonical)
    (ho : o.is_empty = true → o = empty_square) : (s.apply_move a b o).canonical := by
  unfold chess.apply_move
  exact canonical_set_at _ _ _ (canonical_set_at _ _ _ hc (hc a)) ho

theorem canonical_new : chess.new.canonical := by
  intro p hp
  unfold chess.at_ chess.new at hp ⊢
  simp only [setBoard] at hp ⊢
  split at hp
  · split at hp; · simp at hp
    split at hp; · simp at hp
    split at hp; · simp at hp
    split at hp; · simp at hp
    split at hp
    · rename_i h1 h2 h3 h4 h5 h6
      rw [if_pos h1, if_neg h2, if_neg h3, if_neg h4, if_neg h5, if_pos h6]
      rfl
    · simp [occupant_zero] at hp
  · simp [occupant_zero] at hp

/-- Every accepted or rejected `play` keeps the board canonical. -/
theorem play_canonical (s s' : chess) (src dst : position) (promote : piece_type) (r : result)
    (hcan : s.canonical) (h : s.play src dst promote = some (r, s')) : s'.canonical := by
  by_cases hr : r = result.ok ∨ r = result.capture
  · obtain ⟨hne, _, hv, _, b, _, hcase⟩ := play_ok s s' src dst promote r h hr
    have hsd : src ≠ dst := validate_move_ok_ne s src dst _ hv
    have he : empty_square.is_empty = true → empty_square = empty_square := fun _ => rfl
    rcases hcase with ⟨_, he'⟩ | ⟨_, _, hc⟩ | ⟨_, _, _, _, hp | hp⟩
    · obtain ⟨_, _, _, _, hs⟩ := en_passant_ok s s' src dst b r he' hr
      rw [hs]
      refine canonical_of_square (s.ep_board src dst) _ (by simp [chess.ep_done]) ?_
      exact canonical_apply_move _ _ _ _ (canonical_set_at _ _ _ hcan he) he
    · obtain ⟨_, _, _, _, _, hs⟩ := castling_ok s s' src dst b r hc hr
      rw [hs]
      refine canonical_of_square ((s.apply_move src dst empty_square).apply_move (get_rook dst)
        ⟨if (get_rook dst).file = 1 then 4 else 6, (get_rook dst).rank⟩ empty_square) _
        (by simp [chess.castle_done]) ?_
      exact canonical_apply_move _ _ _ _ (canonical_apply_move _ _ _ _ hcan he) he
    · rw [hp.2.2]
      refine canonical_of_square ((s.moved src dst).set_at dst
        { (s.moved src dst).at_ dst with piece := promote }) _ (by simp [chess.promote_done]) ?_
      refine canonical_set_at _ _ _ (canonical_apply_move _ _ _ _ hcan he) ?_
      intro hemp
      rw [at_moved_dst s src dst hsd] at hemp
      simp only [] at hemp
      rw [hne] at hemp
      cases hemp
    · rw [hp.2]
      refine canonical_of_square (s.moved src dst) _ (by simp [chess.move_done]) ?_
      exact canonical_apply_move _ _ _ _ hcan he
  · have hr' := not_or.mp hr
    rw [play_reject_eq s s' src dst promote r hcan h hr'.1 hr'.2]
    exact hcan

theorem reachable_canonical (s : chess) (h : Reachable s) : s.canonical := by
  induction h with
  | init => exact canonical_new
  | step s s' src dst promote r _ _ _ hp ih => exact play_canonical s s' src dst promote r ih hp

/-- C1 (rejection is atomic): in every state reachable from the constructed
position, an in-bounds `play` call that returns a code other than `ok` or
`capture` leaves the whole state as it was: every board cell (emptiness, owner and
piece), the side to move, the six castling flags and the double-step memo. -/
theorem rejection_atomic (s s' : chess) (src dst : position) (promote : piece_type) (r : result)
    (hreach : Reachable s)
    (hsrc : position_out_of_bounds src = false) (hdst : position_out_of_bounds dst = false)
    (h : s.play src dst promote = some (r, s'))
    (hr1 : r ≠ result.ok) (hr2 : r ≠ result.capture) :
    s' = s ∧ (∀ p : position, s'.at_ p = s.at_ p) := by
  have hs := play_reject_eq s s' src dst promote r (reachable_canonical s hreach) h hr1 hr2
  exact ⟨hs, fun p => by rw [hs]⟩

/-! ## Evaluations on concrete games -/

theorem reachable_pinned_position : Reachable pinned_position :=
  Reachable.step _ _ ⟨4, 1⟩ ⟨8, 5⟩ piece_type.pawn result.ok
    (Reachable.step _ _ ⟨5, 7⟩ ⟨5, 5⟩ piece_type.pawn result.ok
      (Reachable.step _ _ ⟨5, 2⟩ ⟨5, 4⟩ piece_type.pawn result.ok Reachable.init
        (by decide) (by decide) (by rfl))
      (by decide) (by decide) (by rfl))
    (by decide) (by decide) (by rfl)

theorem rejection_atomic_witness :
    (pinned_position.moved ⟨6, 7⟩ ⟨6, 6⟩).apply_move ⟨6, 6⟩ ⟨6, 7⟩ (pinned_position.at_ ⟨6, 6⟩)
        = pinned_position
    ∧ (∀ p : position,
        ((pinned_position.moved ⟨6, 7⟩ ⟨6, 6⟩).apply_move ⟨6, 6⟩ ⟨6, 7⟩
          (pinned_position.at_ ⟨6, 6⟩)).at_ p = pinned_position.at_ p) :=
  rejection_atomic pinned_position _ ⟨6, 7⟩ ⟨6, 6⟩ piece_type.pawn result.would_check
    reachable_pinned_position (by decide) (by decide) (by rfl) (by decide) (by decide)

/-- C2 (check safety), evaluated at the failing input: after `pawn_on_h2_game`
white castles e1-g1, `play` returns `ok`, and the Check Oracle from white's point
of view reports the white king on g1 as attacked (by the pawn on h2). -/
theorem castling_into_check :
    (chess.new.run pawn_on_h2_game).bind (fun p =>
      (p.2.play ⟨5, 1⟩ ⟨7, 1⟩ piece_type.pawn).map (fun q =>
        (p.1, (p.2.at_ ⟨8, 2⟩), q.1, mover_king_attacked p.2 q.2)))
    = some ([result.ok, result.ok, result.ok, result.capture, result.ok, result.ok, result.ok,
        result.ok], ⟨false, player.black, piece_type.pawn⟩, result.ok, ⟨7, 1⟩, some true) := by
  decide

/-- C8 (en passant only against a pawn that just double-stepped), evaluated at the
failing input: after `bishop_two_ranks_game` the memo names c4, where a white
bishop stands; black plays d4-c3 onto the empty square, `play` returns `capture`
and the bishop is gone. -/
theorem en_passant_takes_bishop :
    (chess.new.run bishop_two_ranks_game).bind (fun p =>
      (p.2.play ⟨4, 4⟩ ⟨3, 3⟩ piece_type.pawn).map (fun q =>
        (p.1, p.2.pawn_double_moved, p.2.at_ ⟨3, 4⟩, p.2.at_ ⟨3, 3⟩, q.1, q.2.at_ ⟨3, 4⟩,
          q.2.at_ ⟨3, 3⟩)))
    = some ([result.ok, result.ok, result.ok, result.ok, result.ok], ⟨3, 4⟩,
        ⟨false, player.white, piece_type.bishop⟩, empty_square, result.capture, empty_square,
        ⟨false, player.black, piece_type.pawn⟩) := by
  rfl

/-! ## Termination of the path walk, the Check Oracle and `find_king` -/

theorem step_distance_natAbs (d : Int) : (step_distance d).natAbs = d.natAbs - 1 := by
  unfold step_distance
  simp only []
  split <;> split <;> omega

theorem step_distance_zero : step_distance 0 = 0 := by decide

/-- With `castling = false` the loop of `empty_path` ends whenever the starting
square is occupied and the bound covers both distances. -/
theorem empty_path_loop_total (sq : position → occupant) (chk : position → Option Bool)
    (src : position) (hsrc : (sq src).is_empty = false) (fuel : Nat) (fd rd : Int)
    (hfuel : fd.natAbs + rd.natAbs + 1 ≤ fuel) :
    ∃ r, empty_path_loop sq chk fuel src fd rd false = some r := by
  induction fuel generalizing fd rd with
  | zero => omega
  | succ n ih =>
    unfold empty_path_loop
    simp only [Bool.false_eq_true, if_false]
    split
    · rename_i hemp
      apply ih
      have h1 := step_distance_natAbs fd
      have h2 := step_distance_natAbs rd
      by_cases hz : fd = 0 ∧ rd = 0
      · exfalso
        obtain ⟨hf, hr⟩ := hz
        subst hf; subst hr
        simp only [step_distance_zero, add_zero] at hemp
        rw [hsrc] at hemp
        cases hemp
      · omega
    · split <;> exact ⟨_, rfl⟩

theorem validate_move_total (s : chess) (a b : position) (p : piece_type)
    (ha : position_out_of_bounds a = false) (hb : position_out_of_bounds b = false)
    (hne : (s.at_ a).is_empty = false) : ∃ r, s.validate_move a b p = some r := by
  have hp : ∀ fd rd, ∃ r,
      empty_path_with s.at_ (fun _ => some false) a fd rd false = some r :=
    fun fd rd => empty_path_loop_total _ _ a hne _ fd rd (le_refl _)
  unfold chess.validate_move
  rw [if_neg (by simp [ha]), if_neg (by simp [hb])]
  simp only []
  split
  · exact ⟨_, rfl⟩
  · cases p
    · exact ⟨_, rfl⟩
    · simp only [chess.rook_move]; split
      · exact ⟨_, rfl⟩
      · exact hp _ _
    · exact ⟨_, rfl⟩
    · simp only [chess.bishop_move]; split
      · exact ⟨_, rfl⟩
      · exact hp _ _
    · simp only [chess.queen_move]; split
      · exact ⟨_, rfl⟩
      · exact hp _ _
    · simp only [chess.king_move]; split
      · exact ⟨_, rfl⟩
      · split
        · split
          · exact ⟨_, rfl⟩
          · exact hp _ _
        · exact ⟨_, rfl⟩

theorem mem_idx8 (x : Int) : x ∈ idx8 ↔ 0 ≤ x ∧ x < 8 := by
  simp only [idx8, List.mem_cons, List.mem_singleton, List.not_mem_nil, or_false]
  omega

theorem mem_all_cells (c : Int × Int) :
    c ∈ all_cells ↔ (0 ≤ c.1 ∧ c.1 < 8) ∧ (0 ≤ c.2 ∧ c.2 < 8) := by
  obtain ⟨i, j⟩ := c
  simp only [all_cells, List.mem_flatMap, List.mem_map, Prod.mk.injEq, ← mem_idx8]
  constructor
  · rintro ⟨a, ha, b, hb, rfl, rfl⟩; exact ⟨ha, hb⟩
  · rintro ⟨ha, hb⟩; exact ⟨i, ha, j, hb, rfl, rfl⟩

theorem cell_in_bounds (i j : Int) (hi : 0 ≤ i ∧ i < 8) (hj : 0 ≤ j ∧ j < 8) :
    position_out_of_bounds ⟨j + 1, i + 1⟩ = false := by
  simp only [position_out_of_bounds, Bool.or_eq_false_iff, decide_eq_false_iff_not]
  omega

theorem at_cell (s : chess) (i j : Int) : s.at_ ⟨j + 1, i + 1⟩ = s._square i j := by
  simp [chess.at_]

theorem in_check_cells_total (s : chess) (p : position) (hp : position_out_of_bounds p = false)
    (l : List (Int × Int)) (hl : ∀ c ∈ l, (0 ≤ c.1 ∧ c.1 < 8) ∧ (0 ≤ c.2 ∧ c.2 < 8)) :
    ∃ b, s.in_check_cells p l = some b := by
  induction l with
  | nil => exact ⟨false, rfl⟩
  | cons c rest ih =>
    obtain ⟨i, j⟩ := c
    have hrest := ih (fun c hc => hl c (List.mem_cons_of_mem _ hc))
    have hc := hl (i, j) (List.mem_cons_self _ _)
    unfold chess.in_check_cells
    split
    · rename_i hocc
      have hne : (s.at_ ⟨j + 1, i + 1⟩).is_empty = false := by rw [at_cell]; exact hocc.1
      obtain ⟨r, hr⟩ := validate_move_total s ⟨j + 1, i + 1⟩ p (s.at_ ⟨j + 1, i + 1⟩).piece
        (cell_in_bounds i j hc.1 hc.2) hp hne
      rw [hr]
      simp only []
      split
      · exact ⟨true, rfl⟩
      · exact hrest
    · exact hrest

/-- The Check Oracle returns for every in-bounds square. -/
theorem in_check_total (s : chess) (p : position) (hp : position_out_of_bounds p = false) :
    ∃ b, s.in_check p = some b :=
  in_check_cells_total s p hp all_cells (fun c hc => (mem_all_cells c).mp hc)

theorem find_king_row_some (s : chess) (i : Int) (l : List Int) (p : position)
    (h : s.find_king_row i l = some p) :
    ∃ j ∈ l, p = ⟨j + 1, i + 1⟩ ∧ (s._square i j).is_empty = false
      ∧ (s._square i j).owner = s._current_player ∧ (s._square i j).piece = piece_type.king := by
  induction l with
  | nil => simp [chess.find_king_row] at h
  | cons j rest ih =>
    unfold chess.find_king_row at h
    split at h
    · rename_i hc
      simp only [Option.some.injEq] at h
      exact ⟨j, List.mem_cons_self _ _, h.symm, hc⟩
    · obtain ⟨j', hj', h'⟩ := ih h
      exact ⟨j', List.mem_cons_of_mem _ hj', h'⟩

theorem find_king_row_ne_none (s : chess) (i : Int) (l : List Int) (j : Int) (hj : j ∈ l)
    (hc : (s._square i j).is_empty = false ∧ (s._square i j).owner = s._current_player
      ∧ (s._square i j).piece = piece_type.king) :
    ∃ p, s.find_king_row i l = some p := by
  induction l with
  | nil => simp at hj
  | cons j' rest ih =>
    unfold chess.find_king_row
    split
    · exact ⟨_, rfl⟩
    · rename_i hn
      rcases List.mem_cons.mp hj with h | h
      · subst h; exact absurd hc hn
      · exact ih h

theorem find_king_rows_spec (s : chess) (l : List Int) (acc : position) :
    (∃ i ∈ l, s.find_king_row i idx8 = some (s.find_king_rows acc l))
    ∨ ((∀ i ∈ l, s.find_king_row i idx8 = none) ∧ s.find_king_rows acc l = acc) := by
  induction l generalizing acc with
  | nil => right; exact ⟨by simp, rfl⟩
  | cons i rest ih =>
    unfold chess.find_king_rows
    split
    · rename_i p hp
      rcases ih p with ⟨i', hi', h⟩ | ⟨_, h⟩
      · left; exact ⟨i', List.mem_cons_of_mem _ hi', h⟩
      · left; exact ⟨i, List.mem_cons_self _ _, by rw [h]; exact hp⟩
    · rename_i hp
      rcases ih acc with ⟨i', hi', h⟩ | ⟨hall, h⟩
      · left; exact ⟨i', List.mem_cons_of_mem _ hi', h⟩
      · right
        refine ⟨?_, h⟩
        intro i' hi'
        rcases List.mem_cons.mp hi' with h' | h'
        · rw [h']; exact hp
        · exact hall i' h'

/-- When the side to move has a king on an in-bounds square, `find_king` returns
an in-bounds square holding a king of that side. -/
theorem find_king_spec (s : chess) (p : position) (hp : position_out_of_bounds p = false)
    (hk : (s.at_ p).is_empty = false ∧ (s.at_ p).owner = s._current_player
      ∧ (s.at_ p).piece = piece_type.king) :
    ∃ i j, (i, j) ∈ all_cells ∧ s.find_king = ⟨j + 1, i + 1⟩
      ∧ (s._square i j).is_empty = false
      ∧ (s._square i j).owner = s._current_player ∧ (s._square i j).piece = piece_type.king := by
  have hb : (0 ≤ p.rank - 1 ∧ p.rank - 1 < 8) ∧ (0 ≤ p.file - 1 ∧ p.file - 1 < 8) := by
    simp only [position_out_of_bounds, Bool.or_eq_false_iff, decide_eq_false_iff_not] at hp
    omega
  rcases find_king_rows_spec s idx8 ⟨0, 0⟩ with ⟨i, hi, h⟩ | ⟨hall, _⟩
  · obtain ⟨j, hj, hpos, hc⟩ := find_king_row_some s i idx8 _ h
    exact ⟨i, j, (mem_all_cells (i, j)).mpr ⟨(mem_idx8 i).mp hi, (mem_idx8 j).mp hj⟩, hpos, hc⟩
  · exfalso
    obtain ⟨q, hq⟩ := find_king_row_ne_none s (p.rank - 1) idx8 (p.file - 1)
      ((mem_idx8 _).mpr hb.2) hk
    rw [hall (p.rank - 1) ((mem_idx8 _).mpr hb.1)] at hq
    cases hq

theorem find_king_in_bounds (s : chess) (p : position) (hp : position_out_of_bounds p = false)
    (hk : (s.at_ p).is_empty = false ∧ (s.at_ p).owner = s._current_player
      ∧ (s.at_ p).piece = piece_type.king) :
    position_out_of_bounds s.find_king = false := by
  obtain ⟨i, j, hm, hf, _⟩ := find_king_spec s p hp hk
  rw [hf]
  have := (mem_all_cells (i, j)).mp hm
  exact cell_in_bounds i j this.1 this.2

/-! ## Castling -/

/-- The en passant route of `play` once the guards are decided. -/
theorem play_ep (s : chess) (src dst : position) (promote : piece_type) (b : Bool)
    (h1 : (s.at_ src).is_empty = false) (h2 : (s.at_ src).owner = s._current_player)
    (hv : s.validate_move src dst (s.at_ src).piece = some result.ok)
    (h3 : ¬ ((s.at_ dst).is_empty = false ∧ (s.at_ dst).owner = (s.at_ src).owner))
    (hb : s.in_check s.find_king = some b) (hep : s.is_ep src dst) :
    s.play src dst promote = s.en_passant src dst b := by
  unfold chess.is_ep at hep
  unfold chess.play
  rw [if_neg (by simp [h1]), if_neg (by simp [h2]), hv]
  simp only []
  rw [if_neg (by simp), if_neg h3, hb]
  simp only []
  rw [if_pos hep]

/-- The castling route of `play` once the guards are decided. -/
theorem play_castle (s : chess) (src dst : position) (promote : piece_type) (b : Bool)
    (h1 : (s.at_ src).is_empty = false) (h2 : (s.at_ src).owner = s._current_player)
    (hv : s.validate_move src dst (s.at_ src).piece = some result.ok)
    (h3 : ¬ ((s.at_ dst).is_empty = false ∧ (s.at_ dst).owner = (s.at_ src).owner))
    (hb : s.in_check s.find_king = some b) (hep : ¬ s.is_ep src dst) (hc : s.is_castle src dst) :
    s.play src dst promote = s.castling src dst b := by
  unfold chess.is_ep at hep
  unfold chess.is_castle at hc
  unfold chess.play
  rw [if_neg (by simp [h1]), if_neg (by simp [h2]), hv]
  simp only []
  rw [if_neg (by simp), if_neg h3, hb]
  simp only []
  rw [if_neg hep, if_pos hc]

theorem in_bounds_iff (p : position) :
    position_out_of_bounds p = false ↔ (1 ≤ p.file ∧ p.file ≤ 8) ∧ (1 ≤ p.rank ∧ p.rank ≤ 8) := by
  simp only [position_out_of_bounds, Bool.or_eq_false_iff, decide_eq_false_iff_not]
  omega

/-- The validator accepts the castling shape towards the king side. -/
theorem validate_castle_king_side (s : chess) (r : Int) (hr : 1 ≤ r ∧ r ≤ 8)
    (hk : (s.at_ ⟨5, r⟩).is_empty = false) (hrook : (s.at_ ⟨8, r⟩).piece = piece_type.rook)
    (h6 : (s.at_ ⟨6, r⟩).is_empty = true) :
    s.validate_move ⟨5, r⟩ ⟨7, r⟩ piece_type.king = some result.ok := by
  unfold chess.validate_move
  rw [if_neg (by rw [Bool.not_eq_true, in_bounds_iff]; simp; omega),
    if_neg (by rw [Bool.not_eq_true, in_bounds_iff]; simp; omega)]
  simp [chess.king_move, get_rook, hrook, empty_path_with, empty_path_loop, step_distance, h6, hk]

/-- The validator accepts the castling shape towards the queen side. -/
theorem validate_castle_queen_side (s : chess) (r : Int) (hr : 1 ≤ r ∧ r ≤ 8)
    (hk : (s.at_ ⟨5, r⟩).is_empty = false) (hrook : (s.at_ ⟨1, r⟩).piece = piece_type.rook)
    (h4 : (s.at_ ⟨4, r⟩).is_empty = true) :
    s.validate_move ⟨5, r⟩ ⟨3, r⟩ piece_type.king = some result.ok := by
  unfold chess.validate_move
  rw [if_neg (by rw [Bool.not_eq_true, in_bounds_iff]; simp; omega),
    if_neg (by rw [Bool.not_eq_true, in_bounds_iff]; simp; omega)]
  simp [chess.king_move, get_rook, hrook, empty_path_with, empty_path_loop, step_distance, h4, hk]

/-- The castling walk towards the king side: g, f, then the king's own square. -/
theorem castle_path_king_side (s : chess) (r : Int)
    (hk : (s.at_ ⟨5, r⟩).is_empty = false) (hs5 : s.in_check ⟨5, r⟩ = some false)
    (h6 : (s.at_ ⟨6, r⟩).is_empty = true) (hs6 : s.in_check ⟨6, r⟩ = some false)
    (h7 : (s.at_ ⟨7, r⟩).is_empty = true) (hs7 : s.in_check ⟨7, r⟩ = some false) :
    s.empty_path ⟨5, r⟩ ((get_rook ⟨7, r⟩).file - 5) 0 true = some result.ok := by
  simp [chess.empty_path, get_rook, empty_path_with, empty_path_loop, step_distance,
    hk, hs5, h6, hs6, h7, hs7]

/-- The castling walk towards the queen side: b, c, d, then the king's own square. -/
theorem castle_path_queen_side (s : chess) (r : Int)
    (hk : (s.at_ ⟨5, r⟩).is_empty = false) (hs5 : s.in_check ⟨5, r⟩ = some false)
    (h4 : (s.at_ ⟨4, r⟩).is_empty = true) (hs4 : s.in_check ⟨4, r⟩ = some false)
    (h3 : (s.at_ ⟨3, r⟩).is_empty = true) (hs3 : s.in_check ⟨3, r⟩ = some false)
    (h2 : (s.at_ ⟨2, r⟩).is_empty = true) (hs2 : s.in_check ⟨2, r⟩ = some false) :
    s.empty_path ⟨5, r⟩ ((get_rook ⟨3, r⟩).file - 5) 0 true = some result.ok := by
  simp [chess.empty_path, get_rook, empty_path_with, empty_path_loop, step_distance,
    hk, hs5, h4, hs4, h3, hs3, h2, hs2]

/-- When the only king of the side to move stands on `(5, r)`, that is the square
`find_king` returns. -/
theorem find_king_unique (s : chess) (r : Int) (hr : 1 ≤ r ∧ r ≤ 8)
    (hking : s.at_ ⟨5, r⟩ = ⟨false, s._current_player, piece_type.king⟩)
    (huniq : ∀ c ∈ all_cells, (s._square c.1 c.2).is_empty = false →
      (s._square c.1 c.2).owner = s._current_player →
      (s._square c.1 c.2).piece = piece_type.king → c = (r - 1, 4)) :
    s.find_king = ⟨5, r⟩ := by
  obtain ⟨i, j, hm, hf, h1, h2, h3⟩ := find_king_spec s ⟨5, r⟩
    (by rw [in_bounds_iff]; simp; omega) (by rw [hking]; simp)
  have := huniq (i, j) hm h1 h2 h3
  simp only [Prod.mk.injEq] at this
  rw [hf, this.1, this.2]
  simp

theorem castle_done_at (s : chess) (src dst q : position) :
    (s.castle_done src dst).at_ q =
      if q = get_rook dst then empty_square
      else if q = ⟨if (get_rook dst).file = 1 then 4 else 6, (get_rook dst).rank⟩ then
        (if get_rook dst = src then empty_square
          else if get_rook dst = dst then s.at_ src else s.at_ (get_rook dst))
      else if q = src then empty_square
      else if q = dst then s.at_ src
      else s.at_ q := by
  unfold chess.castle_done
  rw [at_switch_players, at_update_movement_records, at_apply_move, at_apply_move, at_apply_move]

/-- C4 (castling succeeds as specified): the side to move has its only king on
`(5, r)` and a rook of its own on the corner `(8, r)` (for `d = 7`) or `(1, r)` (for
`d = 3`); neither `king_moved()` nor `rook_moved(d)` is set; every square strictly
between king and rook is empty; the Check Oracle reports neither the king's square
nor a square strictly between as attacked.  Then `play` from `(5, r)` to `(d, r)`
returns `ok`; afterwards the king stands on `(d, r)`, the rook on `(6, r)` resp.
`(4, r)`, the two original squares are empty and no other cell changed. -/
theorem castling_succeeds (s : chess) (r d : Int) (promote : piece_type)
    (hr : 1 ≤ r ∧ r ≤ 8) (hd : d = 7 ∨ d = 3)
    (hking : s.at_ ⟨5, r⟩ = ⟨false, s._current_player, piece_type.king⟩)
    (huniq : ∀ c ∈ all_cells, (s._square c.1 c.2).is_empty = false →
      (s._square c.1 c.2).owner = s._current_player →
      (s._square c.1 c.2).piece = piece_type.king → c = (r - 1, 4))
    (hrook : s.at_ (get_rook ⟨d, r⟩) = ⟨false, s._current_player, piece_type.rook⟩)
    (hkflag : s.king_moved = false) (hrflag : s.rook_moved d = false)
    (hbetween : ∀ f : Int,
      (5 < f ∧ f < (get_rook ⟨d, r⟩).file) ∨ ((get_rook ⟨d, r⟩).file < f ∧ f < 5) →
      (s.at_ ⟨f, r⟩).is_empty = true ∧ s.in_check ⟨f, r⟩ = some false)
    (hsafe : s.in_check ⟨5, r⟩ = some false) :
    s.play ⟨5, r⟩ ⟨d, r⟩ promote = some (result.ok, s.castle_done ⟨5, r⟩ ⟨d, r⟩)
    ∧ (s.castle_done ⟨5, r⟩ ⟨d, r⟩).at_ ⟨d, r⟩ = ⟨false, s._current_player, piece_type.king⟩
    ∧ (s.castle_done ⟨5, r⟩ ⟨d, r⟩).at_ ⟨if d = 7 then 6 else 4, r⟩
        = ⟨false, s._current_player, piece_type.rook⟩
    ∧ ((s.castle_done ⟨5, r⟩ ⟨d, r⟩).at_ ⟨5, r⟩).is_empty = true
    ∧ ((s.castle_done ⟨5, r⟩ ⟨d, r⟩).at_ (get_rook ⟨d, r⟩)).is_empty = true
    ∧ (∀ p : position, p ≠ ⟨5, r⟩ → p ≠ ⟨d, r⟩ → p ≠ get_rook ⟨d, r⟩ →
        p ≠ ⟨if d = 7 then 6 else 4, r⟩ →
        (s.castle_done ⟨5, r⟩ ⟨d, r⟩).at_ p = s.at_ p) := by
  have hfk := find_king_unique s r hr hking huniq
  have hk : (s.at_ ⟨5, r⟩).is_empty = false := by rw [hking]
  have hown : (s.at_ ⟨5, r⟩).owner = s._current_player := by rw [hking]
  have hpiece : (s.at_ ⟨5, r⟩).piece = piece_type.king := by rw [hking]
  have hb : s.in_check s.find_king = some false := by rw [hfk]; exact hsafe
  have hep : ¬ s.is_ep ⟨5, r⟩ ⟨d, r⟩ := by
    intro h; rw [h.1] at hpiece; cases hpiece
  have hc : s.is_castle ⟨5, r⟩ ⟨d, r⟩ := ⟨hpiece, rfl, hd⟩
  rcases hd with rfl | rfl
  · have hg : get_rook ⟨7, r⟩ = ⟨8, r⟩ := by simp [get_rook]
    rw [hg] at hrook hbetween
    obtain ⟨h6, hs6⟩ := hbetween 6 (by simp)
    obtain ⟨h7, hs7⟩ := hbetween 7 (by simp)
    have hv : s.validate_move ⟨5, r⟩ ⟨7, r⟩ (s.at_ ⟨5, r⟩).piece = some result.ok := by
      rw [hpiece]
      exact validate_castle_king_side s r hr hk (by rw [hrook]) h6
    have h3 : ¬ ((s.at_ ⟨7, r⟩).is_empty = false ∧ (s.at_ ⟨7, r⟩).owner = (s.at_ ⟨5, r⟩).owner) := by
      rw [h7]; simp
    have hpath := castle_path_king_side s r hk hsafe h6 hs6 h7 hs7
    refine ⟨?_, ?_, ?_, ?_, ?_, ?_⟩
    · rw [play_castle s _ _ promote false hk hown hv h3 hb hep hc]
      unfold chess.castling
      simp only []
      rw [hrflag, hkflag, hpath]
      simp [chess.castle_done]
    · rw [castle_done_at, hg]; simp [hking]
    · rw [castle_done_at, hg]; simp [hrook]
    · rw [castle_done_at, hg]; simp [empty_square]
    · rw [castle_done_at, hg]; simp [empty_square]
    · intro p h1 h2 h3' h4
      rw [hg] at h3'
      rw [castle_done_at, hg]
      simp only [if_true, if_false] at h4
      simp [h1, h2, h3', h4]
  · have hg : get_rook ⟨3, r⟩ = ⟨1, r⟩ := by simp [get_rook]
    rw [hg] at hrook hbetween
    obtain ⟨h4, hs4⟩ := hbetween 4 (by simp)
    obtain ⟨h3f, hs3⟩ := hbetween 3 (by simp)
    obtain ⟨h2, hs2⟩ := hbetween 2 (by simp)
    have hv : s.validate_move ⟨5, r⟩ ⟨3, r⟩ (s.at_ ⟨5, r⟩).piece = some result.ok := by
      rw [hpiece]
      exact validate_castle_queen_side s r hr hk (by rw [hrook]) h4
    have h3 : ¬ ((s.at_ ⟨3, r⟩).is_empty = false ∧ (s.at_ ⟨3, r⟩).owner = (s.at_ ⟨5, r⟩).owner) := by
      rw [h3f]; simp
    have hpath := castle_path_queen_side s r hk hsafe h4 hs4 h3f hs3 h2 hs2
    refine ⟨?_, ?_, ?_, ?_, ?_, ?_⟩
    · rw [play_castle s _ _ promote false hk hown hv h3 hb hep hc]
      unfold chess.castling
      simp only []
      rw [hrflag, hkflag, hpath]
      simp [chess.castle_done]
    · rw [castle_done_at, hg]; simp [hking]
    · rw [castle_done_at, hg]; simp [hrook]
    · rw [castle_done_at, hg]; simp [empty_square]
    · rw [castle_done_at, hg]; simp [empty_square]
    · intro p h1 h2' h3' h4'
      rw [hg] at h3'
      rw [castle_done_at, hg]
      simp only [show ¬ ((3 : Int) = 7) by decide, if_false] at h4'
      simp [h1, h2', h3', h4']

theorem castling_position_between (f : Int)
    (h : (5 < f ∧ f < (get_rook ⟨7, 1⟩).file) ∨ ((get_rook ⟨7, 1⟩).file < f ∧ f < 5)) :
    (castling_position.at_ ⟨f, 1⟩).is_empty = true
    ∧ castling_position.in_check ⟨f, 1⟩ = some false := by
  have hg : (get_rook ⟨7, 1⟩).file = 8 := by decide
  rw [hg] at h
  have hf : f = 6 ∨ f = 7 := by omega
  rcases hf with rfl | rfl
  · exact ⟨by decide, by decide⟩
  · exact ⟨by decide, by decide⟩

theorem castling_succeeds_witness :
    castling_position.play ⟨5, 1⟩ ⟨7, 1⟩ piece_type.pawn
      = some (result.ok, castling_position.castle_done ⟨5, 1⟩ ⟨7, 1⟩)
    ∧ (castling_position.castle_done ⟨5, 1⟩ ⟨7, 1⟩).at_ ⟨7, 1⟩
        = ⟨false, castling_position._current_player, piece_type.king⟩
    ∧ (castling_position.castle_done ⟨5, 1⟩ ⟨7, 1⟩).at_ ⟨if (7 : Int) = 7 then 6 else 4, 1⟩
        = ⟨false, castling_position._current_player, piece_type.rook⟩
    ∧ ((castling_position.castle_done ⟨5, 1⟩ ⟨7, 1⟩).at_ ⟨5, 1⟩).is_empty = true
    ∧ ((castling_position.castle_done ⟨5, 1⟩ ⟨7, 1⟩).at_ (get_rook ⟨7, 1⟩)).is_empty = true
    ∧ (∀ p : position, p ≠ ⟨5, 1⟩ → p ≠ ⟨7, 1⟩ → p ≠ get_rook ⟨7, 1⟩ →
        p ≠ ⟨if (7 : Int) = 7 then 6 else 4, 1⟩ →
        (castling_position.castle_done ⟨5, 1⟩ ⟨7, 1⟩).at_ p = castling_position.at_ p) :=
  castling_succeeds castling_position 1 7 piece_type.pawn (by decide) (Or.inl rfl) (by decide)
    (by decide) (by decide) (by decide) (by decide) castling_position_between (by decide)

/-! ## The castling flags -/

theorem king_moved_eq (s : chess) : s.king_moved = s.king_flag s._current_player := rfl

theorem rook_moved_eq (s : chess) (f : Int) : s.rook_moved f = s.rook_flag s._current_player f :=
  rfl

/-- A property kept by each of the three assignments of `update_movement_records`
is kept by the function. -/
theorem update_movement_records_induct (P : chess → Prop) (s : chess) (a b : position)
    (hk : ∀ t : chess, P t → P t.set_king_moved)
    (hr : ∀ (t : chess) (f : Int), P t → P (t.set_rook_moved f))
    (hm : ∀ (t : chess) (x : position), P t → P { t with pawn_double_moved := x })
    (h : P s) : P (s.update_movement_records a b) := by
  unfold chess.update_movement_records
  simp only []
  split_ifs
  all_goals first
    | exact hm _ _ (hr _ _ (hk _ h))
    | exact hm _ _ (hr _ _ h)
    | exact hm _ _ (hk _ h)
    | exact hm _ _ h

theorem set_king_moved_king_mono (s : chess) (p : player) (h : s.king_flag p = true) :
    s.set_king_moved.king_flag p = true := by
  unfold chess.set_king_moved
  unfold chess.king_flag at h ⊢
  split_ifs at h ⊢ <;> simp_all

theorem set_rook_moved_king_flag (s : chess) (f : Int) (p : player) :
    (s.set_rook_moved f).king_flag p = s.king_flag p := by
  unfold chess.set_rook_moved chess.king_flag
  split_ifs <;> rfl

theorem set_king_moved_rook_flag (s : chess) (f : Int) (p : player) :
    s.set_king_moved.rook_flag p f = s.rook_flag p f := by
  unfold chess.set_king_moved chess.rook_flag
  split_ifs <;> rfl

theorem set_rook_moved_rook_mono (s : chess) (f g : Int) (p : player)
    (h : s.rook_flag p g = true) : (s.set_rook_moved f).rook_flag p g = true := by
  unfold chess.set_rook_moved
  unfold chess.rook_flag at h ⊢
  split_ifs at h ⊢ <;> simp_all

theorem update_movement_records_king_mono (s : chess) (a b : position) (p : player)
    (h : s.king_flag p = true) : (s.update_movement_records a b).king_flag p = true :=
  update_movement_records_induct (fun t => t.king_flag p = true) s a b
    (fun t ht => set_king_moved_king_mono t p ht)
    (fun t f ht => (set_rook_moved_king_flag t f p).trans ht)
    (fun _ _ ht => ht) h

theorem update_movement_records_rook_mono (s : chess) (a b : position) (p : player) (f : Int)
    (h : s.rook_flag p f = true) : (s.update_movement_records a b).rook_flag p f = true :=
  update_movement_records_induct (fun t => t.rook_flag p f = true) s a b
    (fun t ht => (set_king_moved_rook_flag t f p).trans ht)
    (fun t g ht => set_rook_moved_rook_mono t g f p ht)
    (fun _ _ ht => ht) h

theorem switch_players_king_flag (s : chess) (p : player) :
    s.switch_players.king_flag p = s.king_flag p := by
  unfold chess.switch_players chess.king_flag
  split_ifs <;> rfl

theorem switch_players_rook_flag (s : chess) (p : player) (f : Int) :
    s.switch_players.rook_flag p f = s.rook_flag p f := by
  unfold chess.switch_players chess.rook_flag
  split_ifs <;> rfl

theorem set_king_moved_sets (s : chess) : s.set_king_moved.king_flag s._current_player = true := by
  unfold chess.set_king_moved chess.king_flag
  split_ifs <;> simp_all

theorem set_rook_moved_sets (s : chess) (f : Int) :
    (s.set_rook_moved f).rook_flag s._current_player f = true := by
  unfold chess.set_rook_moved chess.rook_flag
  split_ifs <;> simp_all

theorem update_movement_records_sets_king (s : chess) (a b : position)
    (h : (s.at_ b).piece = piece_type.king) :
    (s.update_movement_records a b).king_flag s._current_player = true := by
  unfold chess.update_movement_records
  simp only []
  rw [if_pos h]
  have h1 := set_king_moved_sets s
  have h2 : (s.set_king_moved.set_rook_moved a.file).king_flag s._current_player = true :=
    (set_rook_moved_king_flag _ _ _).trans h1
  split_ifs
  all_goals first
    | exact h2
    | exact h1

theorem update_movement_records_sets_rook (s : chess) (a b : position)
    (h : (s.at_ b).piece = piece_type.rook) :
    (s.update_movement_records a b).rook_flag s._current_player a.file = true := by
  have hnk : ¬ (s.at_ b).piece = piece_type.king := by rw [h]; decide
  unfold chess.update_movement_records
  simp only [if_neg hnk, if_pos h]
  have h1 := set_rook_moved_sets s a.file
  split_ifs
  all_goals exact h1

/-- A `play` call never clears a king flag. -/
theorem play_king_flag_mono (s s' : chess) (src dst : position) (promote : piece_type)
    (r : result) (p : player) (h : s.play src dst promote = some (r, s'))
    (hf : s.king_flag p = true) : s'.king_flag p = true := by
  by_cases hr : r = result.ok ∨ r = result.capture
  · obtain ⟨_, _, _, _, b, _, hcase⟩ := play_ok s s' src dst promote r h hr
    rcases hcase with ⟨_, he⟩ | ⟨_, _, hc⟩ | ⟨_, _, _, _, hp | hp⟩
    · obtain ⟨_, _, _, _, hs⟩ := en_passant_ok s s' src dst b r he hr
      rw [hs, chess.ep_done, switch_players_king_flag]
      exact update_movement_records_king_mono _ _ _ _ hf
    · obtain ⟨_, _, _, _, _, hs⟩ := castling_ok s s' src dst b r hc hr
      rw [hs, chess.castle_done, switch_players_king_flag]
      exact update_movement_records_king_mono _ _ _ _ hf
    · rw [hp.2.2, chess.promote_done, switch_players_king_flag]
      exact update_movement_records_king_mono _ _ _ _ hf
    · rw [hp.2, chess.move_done, switch_players_king_flag]
      exact update_movement_records_king_mono _ _ _ _ hf
  · have hr' := not_or.mp hr
    rcases play_reject s s' src dst promote r h hr'.1 hr'.2 with h' | ⟨_, h'⟩ | ⟨_, _, h'⟩
    · rw [h']; exact hf
    · rw [h']; exact hf
    · rw [h']; exact hf

/-- A `play` call never clears a rook flag. -/
theorem play_rook_flag_mono (s s' : chess) (src dst : position) (promote : piece_type)
    (r : result) (p : player) (f : Int) (h : s.play src dst promote = some (r, s'))
    (hf : s.rook_flag p f = true) : s'.rook_flag p f = true := by
  by_cases hr : r = result.ok ∨ r = result.capture
  · obtain ⟨_, _, _, _, b, _, hcase⟩ := play_ok s s' src dst promote r h hr
    rcases hcase with ⟨_, he⟩ | ⟨_, _, hc⟩ | ⟨_, _, _, _, hp | hp⟩
    · obtain ⟨_, _, _, _, hs⟩ := en_passant_ok s s' src dst b r he hr
      rw [hs, chess.ep_done, switch_players_rook_flag]
      exact update_movement_records_rook_mono _ _ _ _ _ hf
    · obtain ⟨_, _, _, _, _, hs⟩ := castling_ok s s' src dst b r hc hr
      rw [hs, chess.castle_done, switch_players_rook_flag]
      exact update_movement_records_rook_mono _ _ _ _ _ hf
    · rw [hp.2.2, chess.promote_done, switch_players_rook_flag]
      exact update_movement_records_rook_mono _ _ _ _ _ hf
    · rw [hp.2, chess.move_done, switch_players_rook_flag]
      exact update_movement_records_rook_mono _ _ _ _ _ hf
  · have hr' := not_or.mp hr
    rcases play_reject s s' src dst promote r h hr'.1 hr'.2 with h' | ⟨_, h'⟩ | ⟨_, _, h'⟩
    · rw [h']; exact hf
    · rw [h']; exact hf
    · rw [h']; exact hf

theorem run_flags_mono (ms : List move) (s s' : chess) (rs : List result) (p : player)
    (h : s.run ms = some (rs, s')) :
    (s.king_flag p = true → s'.king_flag p = true)
    ∧ (∀ f, s.rook_flag p f = true → s'.rook_flag p f = true) := by
  induction ms generalizing s rs with
  | nil =>
    simp only [chess.run, Option.some.injEq, Prod.mk.injEq] at h
    rw [← h.2]
    exact ⟨id, fun _ => id⟩
  | cons m rest ih =>
    unfold chess.run at h
    split at h
    · simp at h
    · rename_i r s1 hp
      split at h
      · simp at h
      · rename_i rs2 s2 hrun
        simp only [Option.some.injEq, Prod.mk.injEq] at h
        obtain ⟨_, h2⟩ := h
        subst h2
        obtain ⟨ihk, ihr⟩ := ih s1 rs2 hrun
        exact ⟨fun hf => ihk (play_king_flag_mono s s1 _ _ _ r p hp hf),
          fun f hf => ihr f (play_rook_flag_mono s s1 _ _ _ r p f hp hf)⟩

/-- An accepted king move sets the mover's king flag. -/
theorem play_sets_king_flag (s s' : chess) (src dst : position) (promote : piece_type)
    (r : result) (h : s.play src dst promote = some (r, s'))
    (hr : r = result.ok ∨ r = result.capture) (hk : (s.at_ src).piece = piece_type.king) :
    s'.king_flag s._current_player = true := by
  obtain ⟨_, _, hv, _, b, _, hcase⟩ := play_ok s s' src dst promote r h hr
  have hsd : src ≠ dst := validate_move_ok_ne s src dst _ hv
  rcases hcase with ⟨hep, _⟩ | ⟨_, hca, hc⟩ | ⟨_, _, _, _, hp | hp⟩
  · rw [hep.1] at hk; cases hk
  · obtain ⟨_, _, _, _, _, hs⟩ := castling_ok s s' src dst b r hc hr
    rw [hs, chess.castle_done, switch_players_king_flag]
    refine update_movement_records_sets_king
      ((s.apply_move src dst empty_square).apply_move (get_rook dst)
        ⟨if (get_rook dst).file = 1 then 4 else 6, (get_rook dst).rank⟩ empty_square) src dst ?_
    have hd := hca.2.2
    have h1 : dst ≠ get_rook dst := by
      intro hh
      have := congrArg position.file hh
      unfold get_rook at this
      split at this <;> simp only [] at this <;> omega
    have h2 : dst ≠ ⟨if (get_rook dst).file = 1 then 4 else 6, (get_rook dst).rank⟩ := by
      intro hh
      have := congrArg position.file hh
      simp only [] at this
      split at this <;> omega
    rw [at_apply_move, if_neg h1, if_neg h2, at_apply_move, if_neg (Ne.symm hsd), if_pos rfl]
    exact hk
  · exfalso
    have := hp.1.1
    rw [at_moved_dst s src dst hsd, hk] at this
    cases this
  · rw [hp.2, chess.move_done, switch_players_king_flag]
    refine update_movement_records_sets_king (s.moved src dst) src dst ?_
    rw [at_moved_dst s src dst hsd]
    exact hk

/-- An accepted rook move sets the mover's rook flag selected by the file it left. -/
theorem play_sets_rook_flag (s s' : chess) (src dst : position) (promote : piece_type)
    (r : result) (h : s.play src dst promote = some (r, s'))
    (hr : r = result.ok ∨ r = result.capture) (hk : (s.at_ src).piece = piece_type.rook) :
    s'.rook_flag s._current_player src.file = true := by
  obtain ⟨_, _, hv, _, b, _, hcase⟩ := play_ok s s' src dst promote r h hr
  have hsd : src ≠ dst := validate_move_ok_ne s src dst _ hv
  rcases hcase with ⟨hep, _⟩ | ⟨_, hca, hc⟩ | ⟨_, _, _, _, hp | hp⟩
  · rw [hep.1] at hk; cases hk
  · rw [hca.1] at hk; cases hk
  · exfalso
    have := hp.1.1
    rw [at_moved_dst s src dst hsd, hk] at this
    cases this
  · rw [hp.2, chess.move_done, switch_players_rook_flag]
    refine update_movement_records_sets_rook (s.moved src dst) src dst ?_
    rw [at_moved_dst s src dst hsd]
    exact hk

/-- C5 (castling after a move of king or rook): an earlier accepted `play` call
moved the king of the side now to move, or a rook of that side away from the corner
towards which the king now tries to castle; any calls may have followed, so the
piece may be back on its square.  A castling attempt (king on `(5, r)` played two
files along the rank) that passes `validate_move` and does not land on a piece of
its own side returns `has_moved`. -/
theorem castling_has_moved (s1 s2 s : chess) (m : move) (r1 : result) (ms : List move)
    (rs : List result) (r d : Int) (promote : piece_type)
    (hplay : s1.play m.src m.dst m.promote = some (r1, s2))
    (hr1 : r1 = result.ok ∨ r1 = result.capture)
    (hpiece : (s1.at_ m.src).piece = piece_type.king
      ∨ ((s1.at_ m.src).piece = piece_type.rook ∧ m.src = get_rook ⟨d, r⟩))
    (hrun : s2.run ms = some (rs, s))
    (hside : s._current_player = s1._current_player)
    (hd : d = 7 ∨ d = 3)
    (hking : (s.at_ ⟨5, r⟩).is_empty = false ∧ (s.at_ ⟨5, r⟩).owner = s._current_player
      ∧ (s.at_ ⟨5, r⟩).piece = piece_type.king)
    (hv : s.validate_move ⟨5, r⟩ ⟨d, r⟩ piece_type.king = some result.ok)
    (hdst : ¬ ((s.at_ ⟨d, r⟩).is_empty = false ∧ (s.at_ ⟨d, r⟩).owner = s._current_player)) :
    s.play ⟨5, r⟩ ⟨d, r⟩ promote = some (result.has_moved, s) := by
  obtain ⟨hmk, hmr⟩ := run_flags_mono ms s2 s rs s1._current_player hrun
  have hin := (validate_move_some s _ _ _ _ hv).1
  obtain ⟨b, hb⟩ := in_check_total s s.find_king (find_king_in_bounds s ⟨5, r⟩ hin hking)
  have hep : ¬ s.is_ep ⟨5, r⟩ ⟨d, r⟩ := by
    intro h
    have hp := h.1
    rw [hking.2.2] at hp
    cases hp
  have hc : s.is_castle ⟨5, r⟩ ⟨d, r⟩ := ⟨hking.2.2, rfl, hd⟩
  have hv' : s.validate_move ⟨5, r⟩ ⟨d, r⟩ (s.at_ ⟨5, r⟩).piece = some result.ok := by
    rw [hking.2.2]; exact hv
  have hdst' : ¬ ((s.at_ ⟨d, r⟩).is_empty = false
      ∧ (s.at_ ⟨d, r⟩).owner = (s.at_ ⟨5, r⟩).owner) := by
    rw [hking.2.1]; exact hdst
  rw [play_castle s ⟨5, r⟩ ⟨d, r⟩ promote b hking.1 hking.2.1 hv' hdst' hb hep hc]
  have hflag : (s.rook_moved d || s.king_moved) = true := by
    rw [king_moved_eq, rook_moved_eq, hside]
    rcases hpiece with hk | ⟨hrk, hsrc⟩
    · rw [hmk (play_sets_king_flag s1 s2 _ _ _ r1 hplay hr1 hk)]
      simp
    · have := hmr _ (play_sets_rook_flag s1 s2 _ _ _ r1 hplay hr1 hrk)
      have hfile : (s.rook_flag s1._current_player d) = s.rook_flag s1._current_player m.src.file := by
        rw [hsrc]
        rcases hd with rfl | rfl <;> simp [chess.rook_flag, get_rook]
      rw [hfile, this]
      simp
  unfold chess.castling
  rw [if_pos hflag]

theorem castling_has_moved_witness :
    returned_king_position.play ⟨5, 1⟩ ⟨7, 1⟩ piece_type.pawn
      = some (result.has_moved, returned_king_position) :=
  castling_has_moved castling_position (castling_position.move_done ⟨5, 1⟩ ⟨5, 2⟩)
    returned_king_position (mv 5 1 5 2) result.ok [mv 5 8 5 7, mv 5 2 5 1, mv 5 7 5 8]
    [result.ok, result.ok, result.ok] 1 7 piece_type.pawn
    (by rfl) (Or.inl rfl) (Or.inl (by decide)) (by rfl) (by rfl) (Or.inl rfl) (by decide)
    (by decide) (by decide)

/-! ## En passant -/

@[simp]
theorem at_set_king_moved (s : chess) (q : position) : s.set_king_moved.at_ q = s.at_ q :=
  at_congr _ _ (set_king_moved_square s) q

@[simp]
theorem at_set_rook_moved (s : chess) (f : Int) (q : position) :
    (s.set_rook_moved f).at_ q = s.at_ q :=
  at_congr _ _ (set_rook_moved_square s f) q

/-- The memo written by `update_movement_records`. -/
theorem update_movement_records_memo (s : chess) (a b : position) :
    (s.update_movement_records a b).pawn_double_moved =
      if (s.at_ a).piece = piece_type.pawn ∧ (a.rank - b.rank).natAbs = 2 then ⟨b.file, b.rank⟩
      else ⟨0, 0⟩ := by
  unfold chess.update_movement_records
  simp only []
  split_ifs <;> simp_all

theorem switch_players_memo (s : chess) :
    s.switch_players.pawn_double_moved = s.pawn_double_moved := by
  unfold chess.switch_players
  split_ifs <;> rfl

/-- After an accepted `play` the memo is either the `(0,0)` sentinel or the
destination of that move. -/
theorem play_ok_memo (s s' : chess) (src dst : position) (promote : piece_type) (r : result)
    (h : s.play src dst promote = some (r, s')) (hr : r = result.ok ∨ r = result.capture) :
    s'.pawn_double_moved = ⟨0, 0⟩ ∨ s'.pawn_double_moved = dst := by
  have key : ∀ t : chess, (t.update_movement_records src dst).switch_players.pawn_double_moved
      = ⟨0, 0⟩ ∨ (t.update_movement_records src dst).switch_players.pawn_double_moved = dst := by
    intro t
    rw [switch_players_memo, update_movement_records_memo]
    split_ifs
    · right; rfl
    · left; rfl
  obtain ⟨_, _, _, _, b, _, hcase⟩ := play_ok s s' src dst promote r h hr
  rcases hcase with ⟨_, he⟩ | ⟨_, _, hc⟩ | ⟨_, _, _, _, hp | hp⟩
  · obtain ⟨_, _, _, _, hs⟩ := en_passant_ok s s' src dst b r he hr
    rw [hs]; exact key _
  · obtain ⟨_, _, _, _, _, hs⟩ := castling_ok s s' src dst b r hc hr
    rw [hs]; exact key _
  · rw [hp.2.2]; exact key _
  · rw [hp.2]; exact key _

/-- The validator accepts a diagonal pawn step onto rank 3 or 6 beside an
opponent piece. -/
theorem validate_ep (s : chess) (a b : position)
    (ha : position_out_of_bounds a = false) (hb : position_out_of_bounds b = false)
    (hfd : (b.file - a.file).natAbs = 1) (hrd : (b.rank - a.rank).natAbs = 1)
    (hdir : ¬ ((b.rank - a.rank > 0 ∧ (s.at_ a).owner = player.black)
      ∨ (b.rank - a.rank < 0 ∧ (s.at_ a).owner = player.white)))
    (hcap : (s.at_ ⟨a.file + (b.file - a.file), a.rank⟩).is_empty = false
      ∧ (s.at_ ⟨a.file + (b.file - a.file), a.rank⟩).owner ≠ (s.at_ a).owner)
    (hrank : b.rank = 3 ∨ b.rank = 6) :
    s.validate_move a b piece_type.pawn = some result.ok := by
  unfold chess.validate_move
  rw [if_neg (by simp [ha]), if_neg (by simp [hb])]
  simp only []
  rw [if_neg (by omega)]
  simp only [chess.pawn_move]
  rw [if_neg hdir, if_neg (by omega), if_pos hrd, if_neg (by omega), if_pos hfd,
    if_pos ⟨⟨by rw [Bool.not_eq_true]; exact hcap.1, hcap.2⟩, hrank⟩]

/-- What an accepted pawn double step is and leaves behind. -/
theorem double_step_state (s0 s : chess) (src0 : position) (f k : Int) (p0 : piece_type)
    (r0 : result)
    (hD : s0.play src0 ⟨f, k⟩ p0 = some (r0, s)) (hr0 : r0 = result.ok ∨ r0 = result.capture)
    (hDpawn : (s0.at_ src0).piece = piece_type.pawn) (hDfile : src0.file = f)
    (hDstep : (k - src0.rank).natAbs = 2) :
    s = s0.move_done src0 ⟨f, k⟩
    ∧ (s0.at_ src0).is_empty = false ∧ (s0.at_ src0).owner = s0._current_player
    ∧ ((src0.rank = 2 ∧ k = 4 ∧ s0._current_player = player.white)
      ∨ (src0.rank = 7 ∧ k = 5 ∧ s0._current_player = player.black)) := by
  obtain ⟨hne, hown, hv, _, b, _, hcase⟩ := play_ok s0 s src0 ⟨f, k⟩ p0 r0 hD hr0
  have hsd : src0 ≠ ⟨f, k⟩ := validate_move_ok_ne s0 _ _ _ hv
  have hgeo : (src0.rank = 2 ∧ k = 4 ∧ s0._current_player = player.white)
      ∨ (src0.rank = 7 ∧ k = 5 ∧ s0._current_player = player.black) := by
    rw [hDpawn] at hv
    have hpm := (validate_pawn s0 src0 ⟨f, k⟩ _ hv).symm
    obtain ⟨hdir, h | h | h⟩ := pawn_move_ok s0 src0 ⟨f, k⟩ hpm
    · simp only [] at h hdir
      rw [hown] at hdir
      rcases h.2.1 with ⟨h1, h2⟩ | ⟨h1, h2⟩
      · left
        refine ⟨h2, by omega, ?_⟩
        cases hc : s0._current_player
        · rfl
        · exfalso; exact hdir (Or.inl ⟨by omega, hc⟩)
      · right
        refine ⟨h2, by omega, ?_⟩
        cases hc : s0._current_player
        · exfalso; exact hdir (Or.inr ⟨by omega, hc⟩)
        · rfl
    · simp only [] at h; omega
    · simp only [] at h; omega
  refine ⟨?_, hne, hown, hgeo⟩
  rcases hcase with ⟨hep, _⟩ | ⟨_, hca, _⟩ | ⟨_, _, _, _, hp | hp⟩
  · exfalso
    have := hep.2.1
    simp only [] at this
    omega
  · rw [hca.1] at hDpawn; cases hDpawn
  · exfalso
    have := hp.1.2
    simp only [] at this
    omega
  · exact hp.2

theorem move_done_current (s : chess) (a b : position) :
    (s.move_done a b)._current_player = opponent s._current_player := by
  rw [chess.move_done, switch_players_current]
  simp [chess.moved]

theorem move_done_at (s : chess) (a b q : position) :
    (s.move_done a b).at_ q = (s.moved a b).at_ q := by
  rw [chess.move_done, at_switch_players, at_update_movement_records]

theorem capture_square_eq (f k e q : Int) : capture_square ⟨f + e, k⟩ ⟨f, q⟩ = ⟨f, k⟩ := by
  simp [capture_square]

/-- The en passant attempt beside a pawn that double-stepped passes the guards
of `play` and is routed to `en_passant`. -/
theorem ep_attempt_route (s : chess) (f k e q : Int) (promote : piece_type)
    (he : e = 1 ∨ e = -1)
    (hgeo : (k = 4 ∧ q = 3 ∧ s._current_player = player.black)
      ∨ (k = 5 ∧ q = 6 ∧ s._current_player = player.white))
    (hin : position_out_of_bounds ⟨f + e, k⟩ = false)
    (hfin : position_out_of_bounds ⟨f, k⟩ = false)
    (hpawn : (s.at_ ⟨f + e, k⟩).is_empty = false
      ∧ (s.at_ ⟨f + e, k⟩).owner = s._current_player
      ∧ (s.at_ ⟨f + e, k⟩).piece = piece_type.pawn)
    (hopp : (s.at_ ⟨f, k⟩).is_empty = false ∧ (s.at_ ⟨f, k⟩).owner ≠ s._current_player)
    (hskip : (s.at_ ⟨f, q⟩).is_empty = true)
    (hking : position_out_of_bounds s.find_king = false) :
    ∃ b, s.play ⟨f + e, k⟩ ⟨f, q⟩ promote = s.en_passant ⟨f + e, k⟩ ⟨f, q⟩ b := by
  obtain ⟨b, hb⟩ := in_check_total s s.find_king hking
  refine ⟨b, ?_⟩
  have hqin : position_out_of_bounds ⟨f, q⟩ = false := by
    rw [in_bounds_iff] at hfin ⊢
    simp only [] at hfin ⊢
    omega
  have hfile : f + (f - (f + e)) = f - e := by omega
  have hcell : (⟨f + e + (f - (f + e)), k⟩ : position) = ⟨f, k⟩ := by
    rw [position_eq_iff]; simp
  have hv : s.validate_move ⟨f + e, k⟩ ⟨f, q⟩ (s.at_ ⟨f + e, k⟩).piece = some result.ok := by
    rw [hpawn.2.2]
    apply validate_ep s ⟨f + e, k⟩ ⟨f, q⟩ hin hqin
    · simp only []; omega
    · simp only []; omega
    · simp only []
      rw [hpawn.2.1]
      rcases hgeo with ⟨h1, h2, h3⟩ | ⟨h1, h2, h3⟩
      · rw [h3]; simp; omega
      · rw [h3]; simp; omega
    · simp only []
      rw [hcell, hpawn.2.1]
      exact hopp
    · simp only []; omega
  have h3 : ¬ ((s.at_ ⟨f, q⟩).is_empty = false
      ∧ (s.at_ ⟨f, q⟩).owner = (s.at_ ⟨f + e, k⟩).owner) := by
    rw [hskip]; simp
  have hep : s.is_ep ⟨f + e, k⟩ ⟨f, q⟩ := by
    refine ⟨hpawn.2.2, ?_, hskip⟩
    simp only []; omega
  exact play_ep s _ _ promote b hpawn.1 hpawn.2.1 hv h3 hb hep

theorem ep_board_at (s : chess) (src dst q : position) :
    (s.ep_board src dst).at_ q =
      if q = src then empty_square
      else if q = dst then (if src = capture_square src dst then empty_square else s.at_ src)
      else if q = capture_square src dst then empty_square
      else s.at_ q := by
  unfold chess.ep_board
  rw [at_apply_move, at_set_at, at_set_at]

/-- When the Check Oracle answers `false` it has run the validator on every
piece of the other side. -/
theorem in_check_cells_false_all (s : chess) (p : position) (l : List (Int × Int))
    (h : s.in_check_cells p l = some false) :
    ∀ c ∈ l, (s._square c.1 c.2).is_empty = false →
      (s._square c.1 c.2).owner ≠ s._current_player →
      ∃ r, s.validate_move ⟨c.2 + 1, c.1 + 1⟩ p (s.at_ ⟨c.2 + 1, c.1 + 1⟩).piece = some r := by
  induction l with
  | nil => intro c hc; simp at hc
  | cons c0 rest ih =>
    obtain ⟨i, j⟩ := c0
    unfold chess.in_check_cells at h
    intro c hc h1 h2
    split at h
    · split at h
      · simp at h
      · rename_i r hr
        split at h
        · simp at h
        · rcases List.mem_cons.mp hc with hc' | hc'
          · subst hc'; exact ⟨r, hr⟩
          · exact ih h c hc' h1 h2
    · rename_i hn
      rcases List.mem_cons.mp hc with hc' | hc'
      · subst hc'; exact absurd ⟨h1, h2⟩ hn
      · exact ih h c hc' h1 h2

/-- When the Check Oracle answers `false` and the other side has a piece on the
board, the tested square is inside the board. -/
theorem in_check_false_in_bounds (s : chess) (p q : position)
    (h : s.in_check p = some false) (hq : position_out_of_bounds q = false)
    (hocc : (s.at_ q).is_empty = false) (hown : (s.at_ q).owner ≠ s._current_player) :
    position_out_of_bounds p = false := by
  have hb := (in_bounds_iff q).mp hq
  have hm : (q.rank - 1, q.file - 1) ∈ all_cells := by
    rw [mem_all_cells]; simp only []; omega
  obtain ⟨r, hr⟩ := in_check_cells_false_all s p all_cells h _ hm hocc hown
  exact (validate_move_some s _ _ _ _ hr).2

/-- An in-bounds answer of `find_king` is a square holding a king of the side to move. -/
theorem find_king_holds_king (s : chess) (h : position_out_of_bounds s.find_king = false) :
    (s.at_ s.find_king).is_empty = false ∧ (s.at_ s.find_king).owner = s._current_player
    ∧ (s.at_ s.find_king).piece = piece_type.king := by
  rcases find_king_rows_spec s idx8 ⟨0, 0⟩ with ⟨i, _, hrow⟩ | ⟨_, hacc⟩
  · obtain ⟨j, _, hpos, hc⟩ := find_king_row_some s i idx8 _ hrow
    have hfk : s.find_king = ⟨j + 1, i + 1⟩ := hpos
    rw [hfk, at_cell]
    exact hc
  · exfalso
    have hfk : s.find_king = ⟨0, 0⟩ := hacc
    rw [hfk] at h
    revert h
    decide

/-- The board on which an accepted pawn double step was tested passed the Check Oracle. -/
theorem double_step_safe (s0 s : chess) (src0 : position) (f k : Int) (p0 : piece_type)
    (r0 : result)
    (hD : s0.play src0 ⟨f, k⟩ p0 = some (r0, s)) (hr0 : r0 = result.ok ∨ r0 = result.capture)
    (hDpawn : (s0.at_ src0).piece = piece_type.pawn) (hDfile : src0.file = f) :
    (s0.moved src0 ⟨f, k⟩).in_check (s0.moved src0 ⟨f, k⟩).find_king = some false := by
  obtain ⟨_, _, _, _, b, _, hcase⟩ := play_ok s0 s src0 ⟨f, k⟩ p0 r0 hD hr0
  rcases hcase with ⟨hep, _⟩ | ⟨_, hca, _⟩ | ⟨_, _, hsafe, _⟩
  · exfalso
    have := hep.2.1
    simp only [] at this
    omega
  · rw [hca.1] at hDpawn; cases hDpawn
  · exact hsafe

/-- After an accepted pawn double step to `(f, k)`, if the en passant capture from
`(f + e, k)` onto `(f, q)` leaves a board on which the Check Oracle answers `false`
for the capturing side, that side has a king on the board. -/
theorem ep_mover_has_king (s0 s : chess) (src0 : position) (f k e q : Int) (p0 : piece_type)
    (r0 : result)
    (hD : s0.play src0 ⟨f, k⟩ p0 = some (r0, s)) (hr0 : r0 = result.ok ∨ r0 = result.capture)
    (hDpawn : (s0.at_ src0).piece = piece_type.pawn) (hDfile : src0.file = f)
    (hDstep : (k - src0.rank).natAbs = 2)
    (he : e = 1 ∨ e = -1) (hqk : q ≠ k)
    (hin : position_out_of_bounds ⟨f + e, k⟩ = false)
    (hpawn : (s.at_ ⟨f + e, k⟩).is_empty = false
      ∧ (s.at_ ⟨f + e, k⟩).owner = s._current_player
      ∧ (s.at_ ⟨f + e, k⟩).piece = piece_type.pawn)
    (hskip : (s.at_ ⟨f, q⟩).is_empty = true)
    (hsafe : (s.ep_board ⟨f + e, k⟩ ⟨f, q⟩).in_check
      (s.ep_board ⟨f + e, k⟩ ⟨f, q⟩).find_king = some false) :
    position_out_of_bounds s.find_king = false := by
  obtain ⟨hs, hne0, hown0, _⟩ :=
    double_step_state s0 s src0 f k p0 r0 hD hr0 hDpawn hDfile hDstep
  have hsafe0 := double_step_safe s0 s src0 f k p0 r0 hD hr0 hDpawn hDfile
  have hsd : src0 ≠ ⟨f, k⟩ := by
    intro h
    have := congrArg position.rank h
    simp only [] at this
    omega
  have hcur : s._current_player = opponent s0._current_player := by
    rw [hs]; exact move_done_current _ _ _
  have hat : ∀ x, s.at_ x = (s0.moved src0 ⟨f, k⟩).at_ x := by
    intro x; rw [hs]; exact move_done_at _ _ _ _
  have hcs := capture_square_eq f k e q
  have hne1 : (⟨f, k⟩ : position) ≠ ⟨f + e, k⟩ := by
    rw [Ne, position_eq_iff]; simp only []; omega
  have hne3 : (⟨f, q⟩ : position) ≠ ⟨f + e, k⟩ := by
    rw [Ne, position_eq_iff]; simp only []; omega
  -- the side that double-stepped has a king on the board it was tested on
  have hK0 : position_out_of_bounds (s0.moved src0 ⟨f, k⟩).find_king = false := by
    refine in_check_false_in_bounds _ _ ⟨f + e, k⟩ hsafe0 hin ?_ ?_
    · rw [← hat]; exact hpawn.1
    · rw [← hat, hpawn.2.1, hcur]
      exact opponent_ne _
  obtain ⟨hk1, hk2, hk3⟩ := find_king_holds_king _ hK0
  generalize (s0.moved src0 ⟨f, k⟩).find_king = K at hK0 hk1 hk2 hk3
  rw [← hat] at hk1 hk2 hk3
  have hk2' : (s.at_ K).owner = s0._current_player := hk2
  have hpk : (s.at_ ⟨f, k⟩).piece = piece_type.pawn := by
    rw [hat, at_moved_dst s0 src0 ⟨f, k⟩ hsd]; exact hDpawn
  -- that king is still there after the capture
  have hKe : (s.ep_board ⟨f + e, k⟩ ⟨f, q⟩).at_ K = s.at_ K := by
    rw [ep_board_at, hcs]
    have h1 : K ≠ ⟨f + e, k⟩ := by
      intro h; rw [h, hpawn.2.1, hcur] at hk2'; exact opponent_ne _ hk2'
    have h2 : K ≠ ⟨f, q⟩ := by
      intro h; rw [h, hskip] at hk1; cases hk1
    have h3 : K ≠ ⟨f, k⟩ := by
      intro h; rw [h, hpk] at hk3; cases hk3
    rw [if_neg h1, if_neg h2, if_neg h3]
  have hX0 : position_out_of_bounds (s.ep_board ⟨f + e, k⟩ ⟨f, q⟩).find_king = false := by
    refine in_check_false_in_bounds _ _ K hsafe hK0 ?_ ?_
    · rw [hKe]; exact hk1
    · rw [hKe, hk2']
      show s0._current_player ≠ s._current_player
      rw [hcur]; exact (opponent_ne _).symm
  obtain ⟨hx1, hx2, hx3⟩ := find_king_holds_king _ hX0
  generalize (s.ep_board ⟨f + e, k⟩ ⟨f, q⟩).find_king = X at hX0 hx1 hx2 hx3
  have hx2' : ((s.ep_board ⟨f + e, k⟩ ⟨f, q⟩).at_ X).owner = s._current_player := hx2
  rw [ep_board_at, hcs] at hx1 hx2' hx3
  have h1 : X ≠ ⟨f + e, k⟩ := by
    intro h; rw [if_pos h] at hx1; cases hx1
  rw [if_neg h1] at hx1 hx2' hx3
  have h2 : X ≠ ⟨f, q⟩ := by
    intro h
    rw [if_pos h, if_neg (Ne.symm hne1), hpawn.2.2] at hx3
    cases hx3
  rw [if_neg h2] at hx1 hx2' hx3
  have h3 : X ≠ ⟨f, k⟩ := by
    intro h; rw [if_pos h] at hx1; cases hx1
  rw [if_neg h3] at hx1 hx2' hx3
  exact find_king_in_bounds s X hX0 ⟨hx1, hx2', hx3⟩

/-- C6 (en passant capture in its window): the opponent's immediately preceding
accepted move was a pawn double step landing on `(f, k)`, and the side to move has
a pawn beside it on `(f + e, k)`, `e = 1` or `e = -1`.  Playing that pawn onto the
empty square the opponent pawn skipped over returns `capture`, leaves `(f, k)`
empty, puts the capturing pawn on the skipped square and empties its origin,
provided the Check Oracle, run for the mover's king on the resulting board, does
not report it attacked. -/
theorem en_passant_succeeds (s0 s : chess) (src0 : position) (f k e : Int)
    (p0 promote : piece_type) (r0 : result)
    (hD : s0.play src0 ⟨f, k⟩ p0 = some (r0, s)) (hr0 : r0 = result.ok ∨ r0 = result.capture)
    (hDpawn : (s0.at_ src0).piece = piece_type.pawn) (hDfile : src0.file = f)
    (hDstep : (k - src0.rank).natAbs = 2)
    (he : e = 1 ∨ e = -1)
    (hin : position_out_of_bounds ⟨f + e, k⟩ = false)
    (hpawn : (s.at_ ⟨f + e, k⟩).is_empty = false
      ∧ (s.at_ ⟨f + e, k⟩).owner = s._current_player
      ∧ (s.at_ ⟨f + e, k⟩).piece = piece_type.pawn)
    (hskip : (s.at_ ⟨f, (src0.rank + k) / 2⟩).is_empty = true)
    (hsafe : (s.ep_board ⟨f + e, k⟩ ⟨f, (src0.rank + k) / 2⟩).in_check
      (s.ep_board ⟨f + e, k⟩ ⟨f, (src0.rank + k) / 2⟩).find_king = some false) :
    s.play ⟨f + e, k⟩ ⟨f, (src0.rank + k) / 2⟩ promote
      = some (result.capture, s.ep_done ⟨f + e, k⟩ ⟨f, (src0.rank + k) / 2⟩)
    ∧ ((s.ep_done ⟨f + e, k⟩ ⟨f, (src0.rank + k) / 2⟩).at_ ⟨f, k⟩).is_empty = true
    ∧ (s.ep_done ⟨f + e, k⟩ ⟨f, (src0.rank + k) / 2⟩).at_ ⟨f, (src0.rank + k) / 2⟩
        = s.at_ ⟨f + e, k⟩
    ∧ ((s.ep_done ⟨f + e, k⟩ ⟨f, (src0.rank + k) / 2⟩).at_ ⟨f + e, k⟩).is_empty = true := by
  obtain ⟨hs, hne0, hown0, hgeo0⟩ := double_step_state s0 s src0 f k p0 r0 hD hr0 hDpawn hDfile hDstep
  have hfin : position_out_of_bounds ⟨f, k⟩ = false :=
    (validate_move_some s0 _ _ _ _ (play_ok s0 s src0 ⟨f, k⟩ p0 r0 hD hr0).2.2.1).2
  have hsd : src0 ≠ ⟨f, k⟩ := by
    intro h
    have := congrArg position.rank h
    simp only [] at this
    omega
  have hcur : s._current_player = opponent s0._current_player := by
    rw [hs]; exact move_done_current _ _ _
  have hopp : (s.at_ ⟨f, k⟩).is_empty = false ∧ (s.at_ ⟨f, k⟩).owner ≠ s._current_player := by
    rw [hcur, hs, move_done_at, at_moved_dst s0 src0 ⟨f, k⟩ hsd, hown0]
    exact ⟨hne0, (opponent_ne _).symm⟩
  have hmemo : s.pawn_double_moved = ⟨f, k⟩ := by
    rw [hs, chess.move_done, switch_players_memo, update_movement_records_memo,
      if_pos ⟨by rw [at_moved_src]; rfl, by simp only []; omega⟩]
  have hqk : (src0.rank + k) / 2 ≠ k := by
    rcases hgeo0 with ⟨h1, h2, _⟩ | ⟨h1, h2, _⟩ <;> omega
  have hking := ep_mover_has_king s0 s src0 f k e ((src0.rank + k) / 2) p0 r0 hD hr0 hDpawn
    hDfile hDstep he hqk hin hpawn hskip hsafe
  generalize hq : (src0.rank + k) / 2 = q at *
  have hgeo : (k = 4 ∧ q = 3 ∧ s._current_player = player.black)
      ∨ (k = 5 ∧ q = 6 ∧ s._current_player = player.white) := by
    rw [hcur]
    rcases hgeo0 with ⟨h1, h2, h3⟩ | ⟨h1, h2, h3⟩
    · left; exact ⟨h2, by omega, by rw [h3]; rfl⟩
    · right; exact ⟨h2, by omega, by rw [h3]; rfl⟩
  obtain ⟨b, hroute⟩ := ep_attempt_route s f k e q promote he hgeo hin hfin hpawn hopp hskip hking
  have hcs := capture_square_eq f k e q
  have hne1 : (⟨f, k⟩ : position) ≠ ⟨f + e, k⟩ := by
    rw [Ne, position_eq_iff]; simp only []; omega
  have hne2 : (⟨f, k⟩ : position) ≠ ⟨f, q⟩ := by
    rw [Ne, position_eq_iff]; simp only []; omega
  have hne3 : (⟨f, q⟩ : position) ≠ ⟨f + e, k⟩ := by
    rw [Ne, position_eq_iff]; simp only []; omega
  refine ⟨?_, ?_, ?_, ?_⟩
  · rw [hroute]
    unfold chess.en_passant
    simp only []
    have hcs' : (⟨f + e - (f + e - f), k⟩ : position) = ⟨f, k⟩ := hcs
    rw [if_neg (by rw [hmemo]; simp)]
    unfold chess.ep_board capture_square at hsafe
    simp only [] at hsafe
    rw [hsafe]
    rfl
  · rw [chess.ep_done, at_switch_players, at_update_movement_records, ep_board_at, hcs,
      if_neg hne1, if_neg hne2, if_pos rfl]
    rfl
  · rw [chess.ep_done, at_switch_players, at_update_movement_records, ep_board_at, hcs,
      if_neg hne3, if_pos rfl, if_neg (Ne.symm hne1)]
  · rw [chess.ep_done, at_switch_players, at_update_movement_records, ep_board_at, if_pos rfl]
    rfl

theorem en_passant_succeeds_witness :
    en_passant_window.play ⟨6 + -1, 5⟩ ⟨6, (7 + 5) / 2⟩ piece_type.pawn
      = some (result.capture, en_passant_window.ep_done ⟨6 + -1, 5⟩ ⟨6, (7 + 5) / 2⟩)
    ∧ ((en_passant_window.ep_done ⟨6 + -1, 5⟩ ⟨6, (7 + 5) / 2⟩).at_ ⟨6, 5⟩).is_empty = true
    ∧ (en_passant_window.ep_done ⟨6 + -1, 5⟩ ⟨6, (7 + 5) / 2⟩).at_ ⟨6, (7 + 5) / 2⟩
        = en_passant_window.at_ ⟨6 + -1, 5⟩
    ∧ ((en_passant_window.ep_done ⟨6 + -1, 5⟩ ⟨6, (7 + 5) / 2⟩).at_ ⟨6 + -1, 5⟩).is_empty = true :=
  en_passant_succeeds en_passant_position en_passant_window ⟨6, 7⟩ 6 5 (-1)
    piece_type.pawn piece_type.pawn result.ok
    (by rfl) (Or.inl rfl) (by decide) (by rfl) (by decide) (Or.inr rfl) (by decide) (by decide)
    (by decide) (by decide)

/-- En passant lapses after one move when the side to move has a king: a pawn
double-stepped to `(f, k)`; play went on and the side that double-stepped has just made a further
accepted move; its pawn stood on `(f, k)` before that move and stands there after
it.  The side now to move has a pawn beside it on `(f + e, k)`, the skipped square
is empty, and the side to move still has a king on the board.  Then the en passant
capture returns `lapsed` and the state is as before. -/
theorem en_passant_lapsed (sa sb s0 s : chess) (srcD : position) (f k e : Int)
    (pD promote : piece_type) (rD r0 : result) (ms : List move) (rs : List result) (m : move)
    (hD : sa.play srcD ⟨f, k⟩ pD = some (rD, sb)) (hrD : rD = result.ok ∨ rD = result.capture)
    (hDpawn : (sa.at_ srcD).piece = piece_type.pawn) (hDfile : srcD.file = f)
    (hDstep : (k - srcD.rank).natAbs = 2)
    (hrun : sb.run ms = some (rs, s0))
    (hside : s0._current_player = sa._current_player)
    (hlast : s0.play m.src m.dst m.promote = some (r0, s))
    (hr0 : r0 = result.ok ∨ r0 = result.capture)
    (hstay0 : (s0.at_ ⟨f, k⟩).is_empty = false ∧ (s0.at_ ⟨f, k⟩).owner = sa._current_player)
    (hstay : (s.at_ ⟨f, k⟩).is_empty = false ∧ (s.at_ ⟨f, k⟩).owner = sa._current_player)
    (he : e = 1 ∨ e = -1)
    (hin : position_out_of_bounds ⟨f + e, k⟩ = false)
    (hpawn : (s.at_ ⟨f + e, k⟩).is_empty = false
      ∧ (s.at_ ⟨f + e, k⟩).owner = s._current_player
      ∧ (s.at_ ⟨f + e, k⟩).piece = piece_type.pawn)
    (hskip : (s.at_ ⟨f, (srcD.rank + k) / 2⟩).is_empty = true)
    (hking : position_out_of_bounds s.find_king = false) :
    s.play ⟨f + e, k⟩ ⟨f, (srcD.rank + k) / 2⟩ promote = some (result.lapsed, s) := by
  obtain ⟨_, _, _, hgeo0⟩ := double_step_state sa sb srcD f k pD rD hD hrD hDpawn hDfile hDstep
  have hfin : position_out_of_bounds ⟨f, k⟩ = false :=
    (validate_move_some sa _ _ _ _ (play_ok sa sb srcD ⟨f, k⟩ pD rD hD hrD).2.2.1).2
  have hcur : s._current_player = opponent sa._current_player := by
    rw [← hside]
    exact play_ok_current s0 s m.src m.dst m.promote r0 hlast hr0
  have hopp : (s.at_ ⟨f, k⟩).is_empty = false ∧ (s.at_ ⟨f, k⟩).owner ≠ s._current_player := by
    rw [hcur, hstay.2]
    exact ⟨hstay.1, (opponent_ne _).symm⟩
  have hmemo : s.pawn_double_moved ≠ ⟨f, k⟩ := by
    intro hm
    obtain ⟨_, hown, _, h3, _⟩ := play_ok s0 s m.src m.dst m.promote r0 hlast hr0
    rcases play_ok_memo s0 s m.src m.dst m.promote r0 hlast hr0 with h | h
    · rw [h, position_eq_iff] at hm
      simp only [] at hm
      rcases hgeo0 with ⟨_, h2, _⟩ | ⟨_, h2, _⟩ <;> omega
    · rw [hm] at h
      apply h3
      rw [← h, hown, hside]
      exact hstay0
  generalize hq : (srcD.rank + k) / 2 = q at *
  have hgeo : (k = 4 ∧ q = 3 ∧ s._current_player = player.black)
      ∨ (k = 5 ∧ q = 6 ∧ s._current_player = player.white) := by
    rw [hcur]
    rcases hgeo0 with ⟨h1, h2, h3⟩ | ⟨h1, h2, h3⟩
    · left; exact ⟨h2, by omega, by rw [h3]; rfl⟩
    · right; exact ⟨h2, by omega, by rw [h3]; rfl⟩
  obtain ⟨b, hroute⟩ := ep_attempt_route s f k e q promote he hgeo hin hfin hpawn hopp hskip hking
  rw [hroute]
  unfold chess.en_passant
  simp only []
  rw [if_pos]
  by_contra hcon
  apply hmemo
  rw [not_or, not_not, not_not] at hcon
  rw [position_eq_iff]
  simp only []
  constructor
  · rw [← hcon.1]; omega
  · rw [← hcon.2]

theorem en_passant_lapsed_witness :
    en_passant_closed.play ⟨6 + -1, 5⟩ ⟨6, (7 + 5) / 2⟩ piece_type.pawn
      = some (result.lapsed, en_passant_closed) :=
  en_passant_lapsed en_passant_position en_passant_window
    (en_passant_window.move_done ⟨5, 1⟩ ⟨5, 2⟩) en_passant_closed ⟨6, 7⟩ 6 5 (-1)
    piece_type.pawn piece_type.pawn result.ok result.ok [mv 5 1 5 2] [result.ok] (mv 5 8 5 7)
    (by rfl) (Or.inl rfl) (by decide) (by rfl) (by decide) (by rfl) (by rfl) (by rfl)
    (Or.inl rfl) (by decide) (by decide) (Or.inr rfl) (by decide) (by decide) (by decide)
    (by decide)

/-- C7 (en passant lapses after one move), evaluated at the failing input:
`king_taken_game` is accepted move by move; the black pawn double-stepped a7-a5
beside the white pawn on b5, then white castled and black took the king on g1.  The
two pawns are still in place and a6 is empty, but the en passant attempt b5-a6 does
not return `lapsed`: `find_king` answers with its `(0,0)` sentinel and `play` stops
in the failed `assert` of `validate_move`, reached through `in_check(find_king())`. -/
theorem en_passant_without_king :
    (chess.new.run king_taken_game).bind (fun p =>
      some (p.1, p.2.at_ ⟨1, 5⟩, p.2.at_ ⟨2, 5⟩, (p.2.at_ ⟨1, 6⟩).is_empty, p.2.find_king,
        (p.2.play ⟨2, 5⟩ ⟨1, 6⟩ piece_type.pawn).map Prod.fst))
    = some ([result.ok, result.ok, result.ok, result.capture, result.ok, result.ok, result.ok,
        result.ok, result.ok, result.ok, result.ok, result.ok, result.ok, result.capture],
        ⟨false, player.black, piece_type.pawn⟩, ⟨false, player.white, piece_type.pawn⟩, true,
        ⟨0, 0⟩, none) := by
  rfl

/-! ## The opening scenario and the promote argument -/

/-- C14 (opening scenario): the constructor gives the standard layout with white
to move: on files 1..8 rank 1 holds white rook, knight, bishop, queen, king,
bishop, knight, rook, rank 2 white pawns, ranks 3 to 6 are empty, rank 7 holds
black pawns and rank 8 the black back rank.  On it
`play` e2-e4 returns `ok`, then d7-d5 returns `ok`, then e4-d5 returns `capture`,
after which d5 holds a white pawn and e4 is empty. -/
theorem opening_scenario :
    chess.new._current_player = player.white
    ∧ [1, 2, 3, 4, 5, 6, 7, 8].map (fun f => chess.new.at_ ⟨f, 1⟩)
        = [piece_type.rook, piece_type.knight, piece_type.bishop, piece_type.queen,
            piece_type.king, piece_type.bishop, piece_type.knight, piece_type.rook].map
          (fun k => ⟨false, player.white, k⟩)
    ∧ [1, 2, 3, 4, 5, 6, 7, 8].map (fun f => chess.new.at_ ⟨f, 8⟩)
        = [piece_type.rook, piece_type.knight, piece_type.bishop, piece_type.queen,
            piece_type.king, piece_type.bishop, piece_type.knight, piece_type.rook].map
          (fun k => ⟨false, player.black, k⟩)
    ∧ (∀ f ∈ [1, 2, 3, 4, 5, 6, 7, 8],
        chess.new.at_ ⟨f, 2⟩ = ⟨false, player.white, piece_type.pawn⟩
        ∧ chess.new.at_ ⟨f, 7⟩ = ⟨false, player.black, piece_type.pawn⟩
        ∧ ∀ r ∈ [3, 4, 5, 6], (chess.new.at_ ⟨f, r⟩).is_empty = true)
    ∧ (chess.new.run [mv 5 2 5 4, mv 4 7 4 5, mv 5 4 4 5]).map
        (fun p => (p.1, p.2.at_ ⟨4, 5⟩, (p.2.at_ ⟨5, 4⟩).is_empty))
      = some ([result.ok, result.ok, result.capture],
          ⟨false, player.white, piece_type.pawn⟩, true) := by
  refine ⟨rfl, by decide, by decide, by decide, by decide⟩

/-- C13 (the promote argument is ignored for non-promoting moves): when the piece
on `src` is not a pawn, or `dst` is on neither rank 1 nor rank 8, `play` gives the
same result code and the same resulting state for any two values of `promote`. -/
theorem promote_ignored (s : chess) (src dst : position) (p1 p2 : piece_type)
    (hsrc : position_out_of_bounds src = false) (hdst : position_out_of_bounds dst = false)
    (h : (s.at_ src).piece ≠ piece_type.pawn ∨ (dst.rank ≠ 1 ∧ dst.rank ≠ 8)) :
    s.play src dst p1 = s.play src dst p2 := by
  by_cases hv : s.validate_move src dst (s.at_ src).piece = some result.ok
  · have hsd : src ≠ dst := validate_move_ok_ne s src dst _ hv
    have hcond : ¬ (((s.apply_move src dst empty_square).at_ dst).piece = piece_type.pawn
        ∧ (dst.rank = 1 ∨ dst.rank = 8)) := by
      have := at_moved_dst s src dst hsd
      unfold chess.moved at this
      rw [this]
      rintro ⟨h1, h2⟩
      rcases h with h | h
      · exact h h1
      · omega
    unfold chess.play
    simp only [hv, if_neg hcond]
  · unfold chess.play
    split
    · rfl
    · split
      · rfl
      · split
        · rfl
        · rename_i v hv'
          have hne : v ≠ result.ok := by
            intro hh; rw [hh] at hv'; exact hv hv'
          simp only [if_pos hne]

theorem promote_ignored_witness :
    chess.new.play ⟨7, 1⟩ ⟨6, 3⟩ piece_type.pawn = chess.new.play ⟨7, 1⟩ ⟨6, 3⟩ piece_type.king :=
  promote_ignored chess.new ⟨7, 1⟩ ⟨6, 3⟩ piece_type.pawn piece_type.king
    (by decide) (by decide) (Or.inl (by decide))

/-! ## The Check Oracle in terms of squares -/

/-- The Check Oracle answers `true` exactly when the validator accepts the step
of some piece of the other side onto the tested square. -/
theorem in_check_cells_true_iff (s : chess) (p : position)
    (hp : position_out_of_bounds p = false) (l : List (Int × Int))
    (hl : ∀ c ∈ l, (0 ≤ c.1 ∧ c.1 < 8) ∧ (0 ≤ c.2 ∧ c.2 < 8)) :
    s.in_check_cells p l = some true ↔
      ∃ c ∈ l, ((s._square c.1 c.2).is_empty = false
        ∧ (s._square c.1 c.2).owner ≠ s._current_player)
        ∧ s.validate_move ⟨c.2 + 1, c.1 + 1⟩ p (s.at_ ⟨c.2 + 1, c.1 + 1⟩).piece
            = some result.ok := by
  induction l with
  | nil => simp [chess.in_check_cells]
  | cons c rest ih =>
    obtain ⟨i, j⟩ := c
    have hrest := ih (fun c hc => hl c (List.mem_cons_of_mem _ hc))
    have hc := hl (i, j) (List.mem_cons_self _ _)
    unfold chess.in_check_cells
    split
    · rename_i hocc
      have hne : (s.at_ ⟨j + 1, i + 1⟩).is_empty = false := by rw [at_cell]; exact hocc.1
      obtain ⟨r, hr⟩ := validate_move_total s ⟨j + 1, i + 1⟩ p (s.at_ ⟨j + 1, i + 1⟩).piece
        (cell_in_bounds i j hc.1 hc.2) hp hne
      rw [hr]
      simp only []
      split
      · rename_i hok
        subst hok
        simp only [true_iff]
        exact ⟨(i, j), List.mem_cons_self _ _, hocc, hr⟩
      · rename_i hnok
        rw [hrest]
        constructor
        · rintro ⟨c, hc', h1, h2⟩
          exact ⟨c, List.mem_cons_of_mem _ hc', h1, h2⟩
        · rintro ⟨c, hc', h1, h2⟩
          rcases List.mem_cons.mp hc' with h | h
          · subst h
            simp only [] at h2
            rw [hr] at h2
            simp only [Option.some.injEq] at h2
            exact absurd h2 hnok
          · exact ⟨c, h, h1, h2⟩
    · rename_i hocc
      rw [hrest]
      constructor
      · rintro ⟨c, hc', h1, h2⟩
        exact ⟨c, List.mem_cons_of_mem _ hc', h1, h2⟩
      · rintro ⟨c, hc', h1, h2⟩
        rcases List.mem_cons.mp hc' with h | h
        · subst h
          exact absurd h1 hocc
        · exact ⟨c, h, h1, h2⟩

/-- The Check Oracle in terms of squares: it answers `true` for an in-bounds square
exactly when some in-bounds square holds a piece of the other side whose step onto
the tested square the validator accepts. -/
theorem in_check_true_iff (s : chess) (p : position) (hp : position_out_of_bounds p = false) :
    s.in_check p = some true ↔
      ∃ q, position_out_of_bounds q = false ∧ (s.at_ q).is_empty = false
        ∧ (s.at_ q).owner ≠ s._current_player
        ∧ s.validate_move q p (s.at_ q).piece = some result.ok := by
  unfold chess.in_check
  rw [in_check_cells_true_iff s p hp all_cells (fun c hc => (mem_all_cells c).mp hc)]
  constructor
  · rintro ⟨c, hc, ⟨h1, h2⟩, h3⟩
    have hb := (mem_all_cells c).mp hc
    refine ⟨⟨c.2 + 1, c.1 + 1⟩, cell_in_bounds _ _ hb.1 hb.2, ?_, ?_, h3⟩
    · rw [at_cell]; exact h1
    · rw [at_cell]; exact h2
  · rintro ⟨q, hq, h1, h2, h3⟩
    have hb := (in_bounds_iff q).mp hq
    refine ⟨(q.rank - 1, q.file - 1), ?_, ⟨h1, h2⟩, ?_⟩
    · rw [mem_all_cells]; simp only []; omega
    · simp only [sub_add_cancel]
      exact h3

theorem in_check_false_iff (s : chess) (p : position) (hp : position_out_of_bounds p = false) :
    s.in_check p = some false ↔
      ¬ ∃ q, position_out_of_bounds q = false ∧ (s.at_ q).is_empty = false
        ∧ (s.at_ q).owner ≠ s._current_player
        ∧ s.validate_move q p (s.at_ q).piece = some result.ok := by
  rw [← in_check_true_iff s p hp]
  obtain ⟨b, hb⟩ := in_check_total s p hp
  rw [hb]
  cases b <;> simp

/-! ## Castling relocates the mover's own rook -/

/-- An accepted castling shape: same rank and a cell of kind rook on the corner. -/
theorem validate_castle_inv (s : chess) (src dst : position)
    (hv : s.validate_move src dst piece_type.king = some result.ok)
    (hf : src.file = 5) (hd : dst.file = 7 ∨ dst.file = 3) :
    dst.rank = src.rank ∧ (s.at_ (get_rook dst)).piece = piece_type.rook := by
  unfold chess.validate_move at hv
  split at hv; · simp at hv
  split at hv; · simp at hv
  simp only [] at hv
  split at hv; · simp at hv
  simp only [chess.king_move] at hv
  rw [if_neg (by omega)] at hv
  split at hv
  · rename_i h
    split at hv
    · simp at hv
    · rename_i hr
      exact ⟨by omega, by simpa using hr⟩
  · simp at hv

/-- When the castling walk returns `ok`, the first square it visits passed the
Check Oracle. -/
theorem empty_path_ok_first (s : chess) (src : position) (fd rd : Int)
    (h : s.empty_path src fd rd true = some result.ok) :
    s.in_check ⟨src.file + step_distance fd, src.rank + step_distance rd⟩ = some false := by
  unfold chess.empty_path empty_path_with empty_path_loop at h
  simp only [if_true] at h
  split at h
  · simp at h
  · simp at h
  · rename_i heq; exact heq

/-- A rook attacks the square next to it on its rank, as far as the validator goes. -/
theorem validate_rook_adjacent (s : chess) (a b : position)
    (ha : position_out_of_bounds a = false) (hb : position_out_of_bounds b = false)
    (hocc : (s.at_ a).is_empty = false)
    (hr : b.rank = a.rank) (hf : b.file = a.file + 1 ∨ b.file = a.file - 1) :
    s.validate_move a b piece_type.rook = some result.ok := by
  unfold chess.validate_move
  rw [if_neg (by simp [ha]), if_neg (by simp [hb])]
  simp only []
  rw [if_neg (by omega)]
  simp only [chess.rook_move]
  rw [if_neg (by omega)]
  have hrd : b.rank - a.rank = 0 := by omega
  have hcell : (⟨a.file + 0, a.rank + 0⟩ : position) = a := by
    rw [position_eq_iff]; simp
  rcases hf with hf | hf
  · have hfd : b.file - a.file = 1 := by omega
    rw [hfd, hrd]
    simp [empty_path_with, empty_path_loop, step_distance, hocc]
  · have hfd : b.file - a.file = -1 := by omega
    rw [hfd, hrd]
    simp [empty_path_with, empty_path_loop, step_distance, hocc]

/-- C20 (castling only relocates the mover's own rook): on a board whose empty
cells carry the contents of `empty_square`, whenever `play` on a king move from
file 5 to file 7 or 3 returns `ok`, the corner square held a rook owned by the side
that castled, and that cell is what stands on file 6 resp. 4 afterwards.  So with an
opponent's rook on the corner the attempt never returns `ok`, although neither
`king_move` nor `castling` compares the rook's owner. -/
theorem castling_moves_own_rook (s s' : chess) (src dst : position) (promote : piece_type)
    (hcan : s.canonical)
    (hsrc : position_out_of_bounds src = false) (hdst : position_out_of_bounds dst = false)
    (hk : (s.at_ src).piece = piece_type.king) (hf : src.file = 5)
    (hd : dst.file = 7 ∨ dst.file = 3)
    (h : s.play src dst promote = some (result.ok, s')) :
    (s.at_ (get_rook dst)).is_empty = false
    ∧ (s.at_ (get_rook dst)).owner = s._current_player
    ∧ (s.at_ (get_rook dst)).piece = piece_type.rook
    ∧ s'.at_ ⟨if (get_rook dst).file = 1 then 4 else 6, (get_rook dst).rank⟩
        = s.at_ (get_rook dst) := by
  obtain ⟨_, _, hv, _, b, _, hcase⟩ := play_ok s s' src dst promote result.ok h (Or.inl rfl)
  rw [hk] at hv
  obtain ⟨hrank, hrook⟩ := validate_castle_inv s src dst hv hf hd
  have hca : s.is_castle src dst := ⟨hk, hf, hd⟩
  rcases hcase with ⟨hep, _⟩ | ⟨_, _, hc⟩ | ⟨_, hnc, _⟩
  · rw [hep.1] at hk; cases hk
  · obtain ⟨_, _, _, hpath, _, hs⟩ := castling_ok s s' src dst b result.ok hc (Or.inl rfl)
    have hocc : (s.at_ (get_rook dst)).is_empty = false := by
      cases he : (s.at_ (get_rook dst)).is_empty
      · rfl
      · rw [hcan _ he] at hrook; cases hrook
    have hfirst := empty_path_ok_first s src _ 0 hpath
    have hbs := (in_bounds_iff src).mp hsrc
    have hown : (s.at_ (get_rook dst)).owner = s._current_player := by
      by_contra hne
      have hatt : s.in_check ⟨src.file + step_distance ((get_rook dst).file - src.file),
          src.rank + step_distance 0⟩ = some true := by
        rw [in_check_true_iff]
        · refine ⟨get_rook dst, ?_, hocc, hne, ?_⟩
          · rw [in_bounds_iff]
            rcases hd with hd | hd <;> simp [get_rook, hd] <;> omega
          · rw [hrook]
            apply validate_rook_adjacent
            · rw [in_bounds_iff]
              rcases hd with hd | hd <;> simp [get_rook, hd] <;> omega
            · rw [in_bounds_iff]
              rcases hd with hd | hd <;> simp [get_rook, hd, hf, step_distance] <;> omega
            · exact hocc
            · rcases hd with hd | hd <;> simp [get_rook, hd, hf, step_distance, hrank]
            · rcases hd with hd | hd <;> simp [get_rook, hd, hf, step_distance]
        · rw [in_bounds_iff]
          rcases hd with hd | hd <;> simp [get_rook, hd, hf, step_distance] <;> omega
      rw [hatt] at hfirst
      cases hfirst
    refine ⟨hocc, hown, hrook, ?_⟩
    rw [hs, castle_done_at]
    have h1 : (⟨if (get_rook dst).file = 1 then 4 else 6, (get_rook dst).rank⟩ : position)
        ≠ get_rook dst := by
      intro hh
      have := congrArg position.file hh
      simp only [] at this
      rcases hd with hd | hd <;> simp [get_rook, hd] at this
    have h2 : get_rook dst ≠ src := by
      intro hh
      have := congrArg position.file hh
      rcases hd with hd | hd <;> simp [get_rook, hd, hf] at this
    have h3 : get_rook dst ≠ dst := by
      intro hh
      have := congrArg position.file hh
      rcases hd with hd | hd <;> simp [get_rook, hd] at this
    rw [if_neg h1, if_pos rfl, if_neg h2, if_neg h3]
  · exact absurd hca hnc

theorem castling_position_canonical : castling_position.canonical := by
  intro p hp
  unfold chess.at_ castling_position state_of board_of at hp ⊢
  simp only [] at hp ⊢
  split
  · rename_i x hx
    rw [hx] at hp
    have hm := List.mem_of_find?_eq_some hx
    simp only [List.mem_cons, List.mem_singleton, List.not_mem_nil, or_false] at hm
    rcases hm with rfl | rfl | rfl <;> simp at hp
  · rfl

theorem castling_moves_own_rook_witness :
    (castling_position.at_ (get_rook ⟨7, 1⟩)).is_empty = false
    ∧ (castling_position.at_ (get_rook ⟨7, 1⟩)).owner = castling_position._current_player
    ∧ (castling_position.at_ (get_rook ⟨7, 1⟩)).piece = piece_type.rook
    ∧ (castling_position.castle_done ⟨5, 1⟩ ⟨7, 1⟩).at_
        ⟨if (get_rook ⟨7, 1⟩).file = 1 then 4 else 6, (get_rook ⟨7, 1⟩).rank⟩
        = castling_position.at_ (get_rook ⟨7, 1⟩) :=
  castling_moves_own_rook castling_position _ ⟨5, 1⟩ ⟨7, 1⟩ piece_type.pawn
    castling_position_canonical (by decide) (by decide) (by decide) rfl (Or.inl rfl) (by rfl)

/-! ## At most one king per side -/

theorem at_most_one_king_embed (s t : chess) (p : player) (g : position → position)
    (hk : ∀ q, t.is_king p q → s.is_king p (g q))
    (hinj : ∀ a b, t.is_king p a → t.is_king p b → g a = g b → a = b)
    (h : s.at_most_one_king p) : t.at_most_one_king p :=
  fun a b ha hb => hinj a b ha hb (h _ _ (hk a ha) (hk b hb))

theorem at_most_one_king_of_square (s t : chess) (p : player) (h : t._square = s._square)
    (hs : s.at_most_one_king p) : t.at_most_one_king p := by
  intro a b ha hb
  unfold chess.is_king at ha hb
  rw [at_congr t s h] at ha hb
  exact hs a b ha hb

theorem at_most_one_king_set_at (s : chess) (p : player) (q : position) (o : occupant)
    (ho : ¬ (o.is_empty = false ∧ o.owner = p ∧ o.piece = piece_type.king))
    (hs : s.at_most_one_king p) : (s.set_at q o).at_most_one_king p := by
  have hsub : ∀ x, (s.set_at q o).is_king p x → s.is_king p x := by
    intro x hx
    unfold chess.is_king at hx ⊢
    rw [at_set_at] at hx
    by_cases h : x = q
    · rw [if_pos h] at hx; exact absurd hx ho
    · rw [if_neg h] at hx; exact hx
  exact at_most_one_king_embed s _ p id hsub (fun a b _ _ h => h) hs

theorem at_most_one_king_apply_move (s : chess) (p : player) (a b : position) (e : occupant)
    (he : ¬ (e.is_empty = false ∧ e.owner = p ∧ e.piece = piece_type.king))
    (hs : s.at_most_one_king p) : (s.apply_move a b e).at_most_one_king p := by
  have hna : ∀ x, (s.apply_move a b e).is_king p x → x ≠ a := by
    intro x hx hxa
    unfold chess.is_king at hx
    rw [at_apply_move, if_pos hxa] at hx
    exact he hx
  refine at_most_one_king_embed s _ p (fun q => if q = b then a else q) ?_ ?_ hs
  · intro x hx
    have hxa := hna x hx
    unfold chess.is_king at hx ⊢
    rw [at_apply_move, if_neg hxa] at hx
    by_cases hxb : x = b
    · rw [if_pos hxb] at hx; simp only [if_pos hxb]; exact hx
    · rw [if_neg hxb] at hx; simp only [if_neg hxb]; exact hx
  · intro x y hx hy hg
    simp only [] at hg
    by_cases hxb : x = b <;> by_cases hyb : y = b
    · rw [hxb, hyb]
    · rw [if_pos hxb, if_neg hyb] at hg
      exact absurd hg.symm (hna y hy)
    · rw [if_neg hxb, if_pos hyb] at hg
      exact absurd hg (hna x hx)
    · rw [if_neg hxb, if_neg hyb] at hg
      exact hg

theorem empty_square_not_king (p : player) :
    ¬ (empty_square.is_empty = false ∧ empty_square.owner = p
      ∧ empty_square.piece = piece_type.king) := by
  simp [empty_square]

theorem back_rank_king (j : Int) (h : back_rank j = piece_type.king) : j = 4 := by
  unfold back_rank at h
  split_ifs at h
  assumption

theorem new_is_king (p : player) (q : position) (h : chess.new.is_king p q) :
    q.file = 5 ∧ ((p = player.white ∧ q.rank = 1) ∨ (p = player.black ∧ q.rank = 8)) := by
  have h' : (setBoard (q.rank - 1) (q.file - 1)).is_empty = false
      ∧ (setBoard (q.rank - 1) (q.file - 1)).owner = p
      ∧ (setBoard (q.rank - 1) (q.file - 1)).piece = piece_type.king := h
  obtain ⟨_, h2, h3⟩ := h'
  unfold setBoard at h2 h3
  split_ifs at h2 h3
  all_goals first
    | (have hj := back_rank_king _ h3
       exact ⟨by omega, Or.inl ⟨h2.symm, by omega⟩⟩)
    | (have hj := back_rank_king _ h3
       exact ⟨by omega, Or.inr ⟨h2.symm, by omega⟩⟩)
    | (exfalso; revert h3; simp [occupant_zero])

theorem at_most_one_king_new (p : player) : chess.new.at_most_one_king p := by
  intro a b ha hb
  obtain ⟨ha1, ha2⟩ := new_is_king p a ha
  obtain ⟨hb1, hb2⟩ := new_is_king p b hb
  rw [position_eq_iff]
  refine ⟨by omega, ?_⟩
  rcases ha2 with ⟨h1, h2⟩ | ⟨h1, h2⟩ <;> rcases hb2 with ⟨h3, h4⟩ | ⟨h3, h4⟩
  · omega
  · rw [h1] at h3; cases h3
  · rw [h1] at h3; cases h3
  · omega

/-- An accepted `play` on a board with at most one king of side `p` leaves at most
one king of side `p`. -/
theorem play_ok_at_most_one_king (s s' : chess) (src dst : position) (promote : piece_type)
    (r : result) (p : player) (h : s.play src dst promote = some (r, s'))
    (hr : r = result.ok ∨ r = result.capture) (hs : s.at_most_one_king p) :
    s'.at_most_one_king p := by
  have he := empty_square_not_king p
  obtain ⟨_, _, _, _, b, _, hcase⟩ := play_ok s s' src dst promote r h hr
  rcases hcase with ⟨_, hep⟩ | ⟨_, _, hc⟩ | ⟨_, _, _, _, hp | hp⟩
  · obtain ⟨_, _, _, _, hs'⟩ := en_passant_ok s s' src dst b r hep hr
    rw [hs']
    refine at_most_one_king_of_square (s.ep_board src dst) _ p (by simp [chess.ep_done]) ?_
    exact at_most_one_king_apply_move _ p _ _ _ he (at_most_one_king_set_at _ p _ _ he hs)
  · obtain ⟨_, _, _, _, _, hs'⟩ := castling_ok s s' src dst b r hc hr
    rw [hs']
    refine at_most_one_king_of_square ((s.apply_move src dst empty_square).apply_move
      (get_rook dst) ⟨if (get_rook dst).file = 1 then 4 else 6, (get_rook dst).rank⟩
      empty_square) _ p (by simp [chess.castle_done]) ?_
    exact at_most_one_king_apply_move _ p _ _ _ he (at_most_one_king_apply_move _ p _ _ _ he hs)
  · rw [hp.2.2]
    refine at_most_one_king_of_square ((s.moved src dst).set_at dst
      { (s.moved src dst).at_ dst with piece := promote }) _ p
      (by simp [chess.promote_done]) ?_
    refine at_most_one_king_set_at _ p _ _ ?_ (at_most_one_king_apply_move _ p _ _ _ he hs)
    rintro ⟨_, _, h3⟩
    exact hp.2.1 (Or.inl h3)
  · rw [hp.2]
    refine at_most_one_king_of_square (s.moved src dst) _ p (by simp [chess.move_done]) ?_
    exact at_most_one_king_apply_move _ p _ _ _ he hs

theorem reachable_at_most_one_king (s : chess) (p : player) (h : Reachable s) :
    s.at_most_one_king p := by
  induction h with
  | init => exact at_most_one_king_new p
  | step s s' src dst promote r hreach _ _ hp ih =>
    by_cases hr : r = result.ok ∨ r = result.capture
    · exact play_ok_at_most_one_king s s' src dst promote r p hp hr ih
    · have hr' := not_or.mp hr
      rw [play_reject_eq s s' src dst promote r (reachable_canonical s hreach) hp hr'.1 hr'.2]
      exact ih

theorem filter_length_le_one {α : Type} (P : α → Bool) (l : List α) (hl : l.Nodup)
    (h : ∀ a ∈ l, ∀ b ∈ l, P a = true → P b = true → a = b) : (l.filter P).length ≤ 1 := by
  induction l with
  | nil => simp
  | cons x xs ih =>
    have hnd := List.nodup_cons.mp hl
    have ih' := ih hnd.2 (fun a ha b hb => h a (List.mem_cons_of_mem _ ha) b
      (List.mem_cons_of_mem _ hb))
    by_cases hx : P x = true
    · have hnil : xs.filter P = [] := by
        rw [List.filter_eq_nil_iff]
        intro y hy hPy
        have := h y (List.mem_cons_of_mem _ hy) x (List.mem_cons_self _ _) hPy hx
        rw [this] at hy
        exact hnd.1 hy
      rw [List.filter_cons_of_pos hx, hnil]
      simp
    · rw [List.filter_cons_of_neg hx]
      exact ih'

theorem all_cells_nodup : all_cells.Nodup := by decide

/-- C19 (king-count invariant): in every state reachable from the constructed
position each side has at most one king on the board, so no accepted move,
promotion, en passant capture or castling creates a second king. -/
theorem king_count_invariant (s : chess) (p : player) (h : Reachable s) :
    s.king_count p ≤ 1 := by
  have hamo := reachable_at_most_one_king s p h
  unfold chess.king_count
  apply filter_length_le_one _ _ all_cells_nodup
  intro a _ b _ ha hb
  simp only [Bool.and_eq_true, Bool.not_eq_true', decide_eq_true_eq] at ha hb
  have := hamo ⟨a.2 + 1, a.1 + 1⟩ ⟨b.2 + 1, b.1 + 1⟩
    (by unfold chess.is_king; rw [at_cell]; exact ⟨ha.1.1, ha.1.2, ha.2⟩)
    (by unfold chess.is_king; rw [at_cell]; exact ⟨hb.1.1, hb.1.2, hb.2⟩)
  rw [position_eq_iff] at this
  simp only [] at this
  exact Prod.ext (by omega) (by omega)

theorem king_count_invariant_witness : pinned_position.king_count player.black ≤ 1 :=
  king_count_invariant pinned_position player.black reachable_pinned_position

/-! ## Sliding pieces against the reference rule -/

theorem step_distance_mul (m : Nat) (dx : Int) (hdx : dx = -1 ∨ dx = 0 ∨ dx = 1) :
    step_distance (((m + 1 : Nat) : Int) * dx) = (m : Int) * dx := by
  unfold step_distance
  rcases hdx with rfl | rfl | rfl
  · simp only [mul_neg, mul_one]
    split_ifs <;> push_cast at * <;> omega
  · simp
  · simp only [mul_one]
    split_ifs <;> push_cast at * <;> omega

/-- The walk of `empty_path` along a line: from distance `n + 1` it visits the
squares at distance `n`, ..., `1` from `src` and then `src` itself. -/
theorem empty_path_loop_line (sq : position → occupant) (chk : position → Option Bool)
    (src : position) (dx dy : Int) (hdx : dx = -1 ∨ dx = 0 ∨ dx = 1)
    (hdy : dy = -1 ∨ dy = 0 ∨ dy = 1) (hne : dx ≠ 0 ∨ dy ≠ 0)
    (hsrc : (sq src).is_empty = false) (n : Nat) :
    ∀ fuel, n + 1 ≤ fuel →
      empty_path_loop sq chk fuel src (((n + 1 : Nat) : Int) * dx) (((n + 1 : Nat) : Int) * dy)
        false
      = some (if ∀ k : Nat, k < n →
            (sq ⟨src.file + ((k : Int) + 1) * dx, src.rank + ((k : Int) + 1) * dy⟩).is_empty = true
          then result.ok else result.blocked) := by
  induction n with
  | zero =>
    intro fuel hfuel
    obtain ⟨f, rfl⟩ : ∃ f, fuel = f + 1 := ⟨fuel - 1, by omega⟩
    unfold empty_path_loop
    simp only [Bool.false_eq_true, if_false]
    rw [step_distance_mul 0 dx hdx, step_distance_mul 0 dy hdy]
    simp only [Nat.cast_zero, zero_mul, add_zero]
    rw [hsrc]
    simp
  | succ m ih =>
    intro fuel hfuel
    obtain ⟨f, rfl⟩ : ∃ f, fuel = f + 1 := ⟨fuel - 1, by omega⟩
    unfold empty_path_loop
    simp only [Bool.false_eq_true, if_false]
    rw [step_distance_mul (m + 1) dx hdx, step_distance_mul (m + 1) dy hdy]
    have hcell : (⟨src.file + ((m + 1 : Nat) : Int) * dx, src.rank + ((m + 1 : Nat) : Int) * dy⟩
        : position) = ⟨src.file + ((m : Int) + 1) * dx, src.rank + ((m : Int) + 1) * dy⟩ := by
      push_cast; rfl
    rw [hcell]
    by_cases hemp : (sq ⟨src.file + ((m : Int) + 1) * dx, src.rank + ((m : Int) + 1) * dy⟩).is_empty
        = true
    · rw [if_pos hemp, ih f (by omega)]
      congr 1
      apply if_congr _ rfl rfl
      constructor
      · intro h k hk
        rcases Nat.lt_succ_iff_lt_or_eq.mp hk with h' | h'
        · exact h k h'
        · rw [h']; exact hemp
      · intro h k hk
        exact h k (by omega)
    · rw [if_neg hemp]
      have hnz : ((m + 1 : Nat) : Int) * dx ≠ 0 ∨ ((m + 1 : Nat) : Int) * dy ≠ 0 := by
        rcases hne with h | h
        · left; exact mul_ne_zero (by push_cast; omega) h
        · right; exact mul_ne_zero (by push_cast; omega) h
      rw [if_pos hnz, if_neg]
      intro h
      exact hemp (h m (by omega))

theorem unit_step_cases (d : Int) : unit_step d = -1 ∨ unit_step d = 0 ∨ unit_step d = 1 := by
  unfold unit_step; split_ifs <;> simp

theorem unit_step_natAbs (d : Int) : (d.natAbs : Int) * unit_step d = d := by
  unfold unit_step; split_ifs <;> omega

theorem between_all_iff (s : chess) (a b : position) :
    (between_squares a b).all (fun q => (s.at_ q).is_empty) = true ↔
      ∀ k : Nat, k < max (b.file - a.file).natAbs (b.rank - a.rank).natAbs - 1 →
        (s.at_ ⟨a.file + ((k : Int) + 1) * unit_step (b.file - a.file),
          a.rank + ((k : Int) + 1) * unit_step (b.rank - a.rank)⟩).is_empty = true := by
  unfold between_squares
  simp only [List.all_eq_true, List.mem_map, List.mem_range]
  constructor
  · intro h k hk
    exact h _ ⟨k, hk, rfl⟩
  · rintro h q ⟨k, hk, rfl⟩
    exact h k hk

/-- On a line (straight or diagonal) from an occupied square, `empty_path` with
`castling = false` returns `ok` when every square strictly between is empty and
`blocked` otherwise. -/
theorem empty_path_line (s : chess) (chk : position → Option Bool) (a b : position)
    (hline : (b.file - a.file = 0 ∨ b.rank - a.rank = 0)
      ∨ (b.file - a.file).natAbs = (b.rank - a.rank).natAbs)
    (hne : b.file - a.file ≠ 0 ∨ b.rank - a.rank ≠ 0)
    (hocc : (s.at_ a).is_empty = false) :
    empty_path_with s.at_ chk a (b.file - a.file) (b.rank - a.rank) false
      = some (if (between_squares a b).all (fun q => (s.at_ q).is_empty) then result.ok
          else result.blocked) := by
  generalize hfd : b.file - a.file = fd at *
  generalize hrd : b.rank - a.rank = rd at *
  obtain ⟨N, hN⟩ : ∃ N : Nat, max fd.natAbs rd.natAbs = N + 1 :=
    ⟨max fd.natAbs rd.natAbs - 1, by omega⟩
  have hfd' : ((N + 1 : Nat) : Int) * unit_step fd = fd := by
    by_cases h0 : fd = 0
    · rw [h0]; simp [unit_step]
    · have : fd.natAbs = N + 1 := by omega
      rw [← this]; exact unit_step_natAbs fd
  have hrd' : ((N + 1 : Nat) : Int) * unit_step rd = rd := by
    by_cases h0 : rd = 0
    · rw [h0]; simp [unit_step]
    · have : rd.natAbs = N + 1 := by omega
      rw [← this]; exact unit_step_natAbs rd
  have hdir : unit_step fd ≠ 0 ∨ unit_step rd ≠ 0 := by
    unfold unit_step
    rcases hne with h | h
    · left; split_ifs <;> omega
    · right; split_ifs <;> omega
  have key := empty_path_loop_line s.at_ chk a (unit_step fd) (unit_step rd)
    (unit_step_cases fd) (unit_step_cases rd) hdir hocc N (fd.natAbs + rd.natAbs + 1) (by omega)
  rw [hfd', hrd'] at key
  unfold empty_path_with
  rw [key]
  congr 1
  apply if_congr _ rfl rfl
  rw [between_all_iff, hfd, hrd, hN]
  simp

theorem between_in_bounds (a b : position)
    (ha : position_out_of_bounds a = false) (hb : position_out_of_bounds b = false)
    (hline : (b.file - a.file = 0 ∨ b.rank - a.rank = 0)
      ∨ (b.file - a.file).natAbs = (b.rank - a.rank).natAbs) :
    ∀ q ∈ between_squares a b, position_out_of_bounds q = false := by
  intro q hq
  unfold between_squares at hq
  simp only [List.mem_map, List.mem_range] at hq
  obtain ⟨k, hk, rfl⟩ := hq
  have hk' := lt_max_iff.mp (Nat.lt_sub_iff_add_lt.mp hk)
  rw [in_bounds_iff] at ha hb ⊢
  simp only []
  have h1 := unit_step_natAbs (b.file - a.file)
  have h2 := unit_step_natAbs (b.rank - a.rank)
  unfold unit_step at h1 h2 ⊢
  split_ifs at h1 h2 ⊢ <;> simp only [mul_one, mul_neg, mul_zero, add_zero] <;> omega

theorem sliding_geometry_line (kind : piece_type) (fd rd : Int)
    (h : sliding_geometry kind fd rd = true) :
    (fd = 0 ∨ rd = 0) ∨ fd.natAbs = rd.natAbs := by
  unfold sliding_geometry at h
  cases kind <;> simp at h
  · exact Or.inl h
  · exact Or.inr h
  · exact h

/-- The validator on a rook, bishop or queen agrees with the reference rule. -/
theorem validate_sliding (s : chess) (a b : position) (kind : piece_type)
    (ha : position_out_of_bounds a = false) (hb : position_out_of_bounds b = false)
    (hne : a ≠ b) (hocc : (s.at_ a).is_empty = false)
    (hkind : kind = piece_type.rook ∨ kind = piece_type.bishop ∨ kind = piece_type.queen) :
    s.validate_move a b kind = some (sliding_rule_spec s a b kind) := by
  have hd : b.file - a.file ≠ 0 ∨ b.rank - a.rank ≠ 0 := by
    by_contra hcon
    apply hne
    rw [position_eq_iff]
    omega
  unfold chess.validate_move sliding_rule_spec
  rw [if_neg (by simp [ha]), if_neg (by simp [hb])]
  simp only []
  rw [if_neg (by omega)]
  rcases hkind with rfl | rfl | rfl
  · simp only [chess.rook_move, sliding_geometry]
    by_cases hg : b.file - a.file = 0 ∨ b.rank - a.rank = 0
    · rw [if_neg (by omega), if_neg (by simp [hg])]
      exact empty_path_line s _ a b (Or.inl hg) hd hocc
    · rw [if_pos (by omega), if_pos (by simp [hg])]
  · simp only [chess.bishop_move, sliding_geometry]
    by_cases hg : (b.file - a.file).natAbs = (b.rank - a.rank).natAbs
    · rw [if_neg (by omega), if_neg (by simp [hg])]
      exact empty_path_line s _ a b (Or.inr hg) hd hocc
    · rw [if_pos hg, if_pos (by simp [hg])]
  · simp only [chess.queen_move, sliding_geometry]
    by_cases hg : (b.file - a.file = 0 ∨ b.rank - a.rank = 0)
        ∨ (b.file - a.file).natAbs = (b.rank - a.rank).natAbs
    · rw [if_neg (by omega), if_neg (by simp [hg])]
      exact empty_path_line s _ a b hg hd hocc
    · rw [if_pos (by omega), if_pos (by simp [hg])]

/-- C15 (sliding-piece validation equals the reference rule): for in-bounds
`a ≠ b` with `a` occupied and `kind` rook, bishop or queen, `validate_move` returns
the result of the reference rule: `bad_move` exactly when the delta does not fit the
piece, otherwise `blocked` exactly when a square strictly between is occupied and
`ok` when all are empty, whatever stands on `b`.  So `empty_path` terminates; the
squares it depends on are in-bounds, and boards that agree on the in-bounds squares
give the same result. -/
theorem sliding_validation (s : chess) (a b : position) (kind : piece_type)
    (ha : position_out_of_bounds a = false) (hb : position_out_of_bounds b = false)
    (hne : a ≠ b) (hocc : (s.at_ a).is_empty = false)
    (hkind : kind = piece_type.rook ∨ kind = piece_type.bishop ∨ kind = piece_type.queen) :
    s.validate_move a b kind = some (sliding_rule_spec s a b kind)
    ∧ (sliding_geometry kind (b.file - a.file) (b.rank - a.rank) = true →
        ∀ q ∈ between_squares a b, position_out_of_bounds q = false)
    ∧ (∀ t : chess, (∀ q, position_out_of_bounds q = false → t.at_ q = s.at_ q) →
        t.validate_move a b kind = s.validate_move a b kind) := by
  refine ⟨validate_sliding s a b kind ha hb hne hocc hkind, ?_, ?_⟩
  · intro hg
    exact between_in_bounds a b ha hb (sliding_geometry_line kind _ _ hg)
  · intro t ht
    rw [validate_sliding s a b kind ha hb hne hocc hkind,
      validate_sliding t a b kind ha hb hne (by rw [ht a ha]; exact hocc) hkind]
    congr 1
    unfold sliding_rule_spec
    by_cases hg : sliding_geometry kind (b.file - a.file) (b.rank - a.rank) = false
    · rw [if_pos hg, if_pos hg]
    · rw [if_neg hg, if_neg hg]
      have hin := between_in_bounds a b ha hb
        (sliding_geometry_line kind _ _ (by simpa using hg))
      have : (between_squares a b).all (fun q => (t.at_ q).is_empty)
          = (between_squares a b).all (fun q => (s.at_ q).is_empty) := by
        rw [Bool.eq_iff_iff]
        simp only [List.all_eq_true]
        constructor
        · intro h q hq
          rw [← ht q (hin q hq)]; exact h q hq
        · intro h q hq
          rw [ht q (hin q hq)]; exact h q hq
      rw [this]

theorem sliding_validation_witness :
    pinned_position.validate_move ⟨8, 5⟩ ⟨5, 8⟩ piece_type.queen
      = some (sliding_rule_spec pinned_position ⟨8, 5⟩ ⟨5, 8⟩ piece_type.queen)
    ∧ (sliding_geometry piece_type.queen ((5 : Int) - 8) ((8 : Int) - 5) = true →
        ∀ q ∈ between_squares ⟨8, 5⟩ ⟨5, 8⟩, position_out_of_bounds q = false)
    ∧ (∀ t : chess, (∀ q, position_out_of_bounds q = false → t.at_ q = pinned_position.at_ q) →
        t.validate_move ⟨8, 5⟩ ⟨5, 8⟩ piece_type.queen
          = pinned_position.validate_move ⟨8, 5⟩ ⟨5, 8⟩ piece_type.queen) :=
  sliding_validation pinned_position ⟨8, 5⟩ ⟨5, 8⟩ piece_type.queen
    (by decide) (by decide) (by decide) (by decide) (Or.inr (Or.inr rfl))

/-! ## Castling: result precedence, flags and the corner test -/

/-- C11 (castling through an occupied path is blocked), evaluated at the failing
input: after `knight_on_d2_game` white's king and a1 rook have not moved, the king
is not in check, and b1, strictly between them, holds the white knight; the castling
attempt e1-c1 returns `would_check`, not `blocked`. -/
theorem castling_blocked_would_check :
    (chess.new.run knight_on_d2_game).bind (fun p =>
      some (p.1, p.2.at_ ⟨5, 1⟩, p.2.at_ ⟨1, 1⟩, p.2.at_ ⟨2, 1⟩, p.2.king_moved,
        p.2.rook_moved 3, p.2.in_check ⟨5, 1⟩,
        (p.2.play ⟨5, 1⟩ ⟨3, 1⟩ piece_type.pawn).map Prod.fst))
    = some ([result.ok, result.ok, result.ok, result.ok, result.ok, result.ok],
        ⟨false, player.white, piece_type.king⟩, ⟨false, player.white, piece_type.rook⟩,
        ⟨false, player.white, piece_type.knight⟩, false, false, some false,
        some result.would_check) := by
  rfl

/-- C12 (`has_moved` means a castling piece moved), evaluated at the failing input:
in `rook_wander_game` no call starts on e1 or h1, every call is accepted, king and
rook stand on e1 and h1, and the castling attempt e1-g1 returns `has_moved`. -/
theorem has_moved_without_move :
    (chess.new.run rook_wander_game).bind (fun p =>
      some ((rook_wander_game.filter (fun m => decide (m.src = ⟨5, 1⟩ ∨ m.src = ⟨8, 1⟩))).length,
        p.1.all (fun r => decide (r = result.ok)), p.2.at_ ⟨5, 1⟩, p.2.at_ ⟨8, 1⟩,
        (p.2.play ⟨5, 1⟩ ⟨7, 1⟩ piece_type.pawn).map Prod.fst))
    = some (0, true, ⟨false, player.white, piece_type.king⟩,
        ⟨false, player.white, piece_type.rook⟩, some result.has_moved) := by
  rfl

/-- C18 (the validator requires a friendly rook for castling), evaluated at the
failing input: after `rook_on_corner_game` the white king stands on e1 and a black
rook on h1; `validate_move` for the king's step e1-g1 returns `ok`, not `bad_move`,
and `play` goes on to return `blocked`. -/
theorem validate_castle_opponent_rook :
    (chess.new.run rook_on_corner_game).bind (fun p =>
      some (p.1, p.2.at_ ⟨5, 1⟩, p.2.at_ ⟨8, 1⟩,
        p.2.validate_move ⟨5, 1⟩ ⟨7, 1⟩ piece_type.king,
        (p.2.play ⟨5, 1⟩ ⟨7, 1⟩ piece_type.pawn).map Prod.fst))
    = some ([result.ok, result.ok, result.ok, result.capture, result.capture, result.capture,
        result.ok, result.ok, result.ok, result.ok],
        ⟨false, player.white, piece_type.king⟩, ⟨false, player.black, piece_type.rook⟩,
        some result.ok, some result.blocked) := by
  rfl

/-- What `king_move` computes for the castling shape: with an occupied `(5, r)`,
`validate_move` from `(5, r)` to `(7, r)` or `(3, r)` for a king returns `bad_move`
exactly when the cell on the corresponding corner is not of kind rook; otherwise
the result is `ok` or `blocked` according to the square next to the king. -/
theorem castling_shape_validation (s : chess) (r d : Int)
    (hr : 1 ≤ r ∧ r ≤ 8) (hd : d = 7 ∨ d = 3)
    (hocc : (s.at_ ⟨5, r⟩).is_empty = false) :
    s.validate_move ⟨5, r⟩ ⟨d, r⟩ piece_type.king
      = some (if (s.at_ (get_rook ⟨d, r⟩)).piece ≠ piece_type.rook then result.bad_move
          else if (s.at_ ⟨if d = 7 then 6 else 4, r⟩).is_empty = true then result.ok
          else result.blocked)
    ∧ (s.validate_move ⟨5, r⟩ ⟨d, r⟩ piece_type.king = some result.bad_move
        ↔ (s.at_ (get_rook ⟨d, r⟩)).piece ≠ piece_type.rook) := by
  have key : s.validate_move ⟨5, r⟩ ⟨d, r⟩ piece_type.king
      = some (if (s.at_ (get_rook ⟨d, r⟩)).piece ≠ piece_type.rook then result.bad_move
          else if (s.at_ ⟨if d = 7 then 6 else 4, r⟩).is_empty = true then result.ok
          else result.blocked) := by
    unfold chess.validate_move
    rw [if_neg (by rw [Bool.not_eq_true, in_bounds_iff]; simp; omega),
      if_neg (by rw [Bool.not_eq_true, in_bounds_iff]; rcases hd with rfl | rfl <;> simp <;> omega)]
    rcases hd with rfl | rfl
    · by_cases hp : (s.at_ ⟨8, r⟩).piece = piece_type.rook
      · by_cases h6 : (s.at_ ⟨6, r⟩).is_empty = true
        · simp [chess.king_move, get_rook, hp, empty_path_with, empty_path_loop, step_distance,
            h6, hocc]
        · simp [chess.king_move, get_rook, hp, empty_path_with, empty_path_loop, step_distance,
            h6]
      · simp [chess.king_move, get_rook, hp]
    · by_cases hp : (s.at_ ⟨1, r⟩).piece = piece_type.rook
      · by_cases h4 : (s.at_ ⟨4, r⟩).is_empty = true
        · simp [chess.king_move, get_rook, hp, empty_path_with, empty_path_loop, step_distance,
            h4, hocc]
        · simp [chess.king_move, get_rook, hp, empty_path_with, empty_path_loop, step_distance,
            h4]
      · simp [chess.king_move, get_rook, hp]
  refine ⟨key, ?_⟩
  rw [key]
  by_cases hp : (s.at_ (get_rook ⟨d, r⟩)).piece = piece_type.rook
  · simp only [hp, ne_eq, not_true_eq_false, if_false, iff_false]
    split_ifs <;> simp
  · simp [hp]

theorem castling_shape_validation_witness :
    chess.new.validate_move ⟨5, 1⟩ ⟨7, 1⟩ piece_type.king
      = some (if (chess.new.at_ (get_rook ⟨7, 1⟩)).piece ≠ piece_type.rook then result.bad_move
          else if (chess.new.at_ ⟨if (7 : Int) = 7 then 6 else 4, 1⟩).is_empty = true
            then result.ok
          else result.blocked)
    ∧ (chess.new.validate_move ⟨5, 1⟩ ⟨7, 1⟩ piece_type.king = some result.bad_move
        ↔ (chess.new.at_ (get_rook ⟨7, 1⟩)).piece ≠ piece_type.rook) :=
  castling_shape_validation chess.new 1 7 (by decide) (Or.inl rfl) (by decide)

/-! ## The Check Oracle and pawns -/

/-- C17 as stated fails: in `lone_pawn_position` black owns nothing but the pawn on
d5, d4 is the empty square straight in front of it, and the Check Oracle, run for
white, answers `true` for d4. -/
theorem pawn_forward_reported :
    (lone_pawn_position._current_player, lone_pawn_position.at_ ⟨4, 5⟩,
      (all_cells.filter (fun c => !(lone_pawn_position._square c.1 c.2).is_empty
        && decide ((lone_pawn_position._square c.1 c.2).owner = player.black))).length,
      (lone_pawn_position.at_ ⟨4, 4⟩).is_empty, lone_pawn_position.in_check ⟨4, 4⟩)
    = (player.white, ⟨false, player.black, piece_type.pawn⟩, 1, true, some true) := by
  decide

/-- Validation of a pawn step straight ahead by `k = 1` or `k = 2` ranks. -/
theorem validate_pawn_forward (s : chess) (pw sq : position) (k : Int)
    (hpw : position_out_of_bounds pw = false) (hsq : position_out_of_bounds sq = false)
    (hk : k = 1 ∨ k = 2) (hfile : sq.file = pw.file)
    (hahead : ((s.at_ pw).owner = player.white ∧ sq.rank = pw.rank + k)
      ∨ ((s.at_ pw).owner = player.black ∧ sq.rank = pw.rank - k)) :
    s.validate_move pw sq piece_type.pawn = some result.ok ↔
      ((s.at_ sq).is_empty = true
        ∧ (k = 1 ∨ ((((s.at_ pw).owner = player.white ∧ pw.rank = 2)
              ∨ ((s.at_ pw).owner = player.black ∧ pw.rank = 7))
            ∧ (s.at_ ⟨pw.file, (pw.rank + sq.rank) / 2⟩).is_empty = true))) := by
  have hdir : ¬ ((sq.rank - pw.rank > 0 ∧ (s.at_ pw).owner = player.black)
      ∨ (sq.rank - pw.rank < 0 ∧ (s.at_ pw).owner = player.white)) := by
    rcases hahead with ⟨h1, h2⟩ | ⟨h1, h2⟩
    · rw [h1]; simp; omega
    · rw [h1]; simp; omega
  have hmid : ∀ rd : Int, rd = 2 ∨ rd = -2 → sq.rank - pw.rank = rd →
      (⟨sq.file, sq.rank - Int.tdiv rd 2⟩ : position) = ⟨pw.file, (pw.rank + sq.rank) / 2⟩ := by
    intro rd hrd hrd'
    rw [position_eq_iff]
    simp only []
    rcases hrd with rfl | rfl
    · have : Int.tdiv 2 2 = 1 := by decide
      rw [this]; omega
    · have : Int.tdiv (-2) 2 = -1 := by decide
      rw [this]; omega
  unfold chess.validate_move
  rw [if_neg (by simp [hpw]), if_neg (by simp [hsq])]
  simp only []
  rw [if_neg (by omega)]
  simp only [chess.pawn_move, Option.some.injEq]
  rw [if_neg hdir]
  rcases hk with rfl | rfl
  · rw [if_neg (by omega), if_pos (by omega), if_pos (by omega)]
    by_cases he : (s.at_ sq).is_empty = true
    · rw [if_pos he]; simp [he]
    · rw [if_neg he]; simp [he]
  · by_cases hhome : (sq.rank - pw.rank = 2 ∧ pw.rank = 2) ∨ (sq.rank - pw.rank = -2 ∧ pw.rank = 7)
    · rw [if_pos ⟨⟨by omega, by omega⟩, hhome⟩]
      have hm := hmid (sq.rank - pw.rank) (by omega) rfl
      rw [hm]
      have hh : ((s.at_ pw).owner = player.white ∧ pw.rank = 2)
          ∨ ((s.at_ pw).owner = player.black ∧ pw.rank = 7) := by
        rcases hahead with ⟨h1, h2⟩ | ⟨h1, h2⟩
        · left; exact ⟨h1, by omega⟩
        · right; exact ⟨h1, by omega⟩
      by_cases he : (s.at_ sq).is_empty = true
          ∧ (s.at_ ⟨pw.file, (pw.rank + sq.rank) / 2⟩).is_empty = true
      · rw [if_pos he]; simp [he, hh]
      · rw [if_neg he]
        refine ⟨fun h => (by cases h), ?_⟩
        rintro ⟨h1, h2 | ⟨_, h3⟩⟩
        · omega
        · exact absurd ⟨h1, h3⟩ he
    · rw [if_neg (by tauto), if_neg (by omega)]
      refine ⟨fun h => (by cases h), ?_⟩
      rintro ⟨_, h2 | ⟨h3, _⟩⟩
      · omega
      · exfalso
        apply hhome
        rcases hahead with ⟨h1, h2⟩ | ⟨h1, h2⟩
        · rcases h3 with ⟨_, h5⟩ | ⟨h4, _⟩
          · left; omega
          · rw [h1] at h4; cases h4
        · rcases h3 with ⟨h4, _⟩ | ⟨_, h5⟩
          · rw [h1] at h4; cases h4
          · right; omega

/-- C17 as amended (the Check Oracle and pawn steps straight ahead): the only piece
the side to move does not own is a pawn on `pw`, and `sq` is on its file, `k = 1` or
`k = 2` ranks ahead of it.  The Check Oracle answers `true` for `sq` exactly when
`sq` is empty and either `k = 1`, or the pawn stands on its home rank (2 for white,
7 for black) and the square between is empty as well; otherwise, in particular for
every occupied `sq`, it answers `false`. -/
theorem pawn_forward_oracle (s : chess) (pw sq : position) (k : Int)
    (hpw : position_out_of_bounds pw = false) (hsq : position_out_of_bounds sq = false)
    (hpawn : (s.at_ pw).is_empty = false ∧ (s.at_ pw).owner ≠ s._current_player
      ∧ (s.at_ pw).piece = piece_type.pawn)
    (honly : ∀ q, position_out_of_bounds q = false → (s.at_ q).is_empty = false →
      (s.at_ q).owner ≠ s._current_player → q = pw)
    (hk : k = 1 ∨ k = 2) (hfile : sq.file = pw.file)
    (hahead : ((s.at_ pw).owner = player.white ∧ sq.rank = pw.rank + k)
      ∨ ((s.at_ pw).owner = player.black ∧ sq.rank = pw.rank - k)) :
    s.in_check sq = some (decide ((s.at_ sq).is_empty = true
      ∧ (k = 1 ∨ ((((s.at_ pw).owner = player.white ∧ pw.rank = 2)
            ∨ ((s.at_ pw).owner = player.black ∧ pw.rank = 7))
          ∧ (s.at_ ⟨pw.file, (pw.rank + sq.rank) / 2⟩).is_empty = true)))) := by
  have hv := validate_pawn_forward s pw sq k hpw hsq hk hfile hahead
  have hiff : (∃ q, position_out_of_bounds q = false ∧ (s.at_ q).is_empty = false
      ∧ (s.at_ q).owner ≠ s._current_player
      ∧ s.validate_move q sq (s.at_ q).piece = some result.ok)
      ↔ s.validate_move pw sq piece_type.pawn = some result.ok := by
    constructor
    · rintro ⟨q, h1, h2, h3, h4⟩
      have := honly q h1 h2 h3
      subst this
      rw [hpawn.2.2] at h4
      exact h4
    · intro h
      exact ⟨pw, hpw, hpawn.1, hpawn.2.1, by rw [hpawn.2.2]; exact h⟩
  by_cases hc : (s.at_ sq).is_empty = true
      ∧ (k = 1 ∨ ((((s.at_ pw).owner = player.white ∧ pw.rank = 2)
            ∨ ((s.at_ pw).owner = player.black ∧ pw.rank = 7))
          ∧ (s.at_ ⟨pw.file, (pw.rank + sq.rank) / 2⟩).is_empty = true))
  · rw [decide_eq_true hc, in_check_true_iff s sq hsq, hiff, hv]
    exact hc
  · rw [decide_eq_false hc, in_check_false_iff s sq hsq, hiff, hv]
    exact hc

theorem lone_pawn_only (q : position) (hq : position_out_of_bounds q = false)
    (h1 : (lone_pawn_position.at_ q).is_empty = false)
    (h2 : (lone_pawn_position.at_ q).owner ≠ lone_pawn_position._current_player) :
    q = ⟨4, 5⟩ := by
  obtain ⟨f, r⟩ := q
  rw [in_bounds_iff] at hq
  simp only [] at hq
  obtain ⟨⟨hf1, hf2⟩, hr1, hr2⟩ := hq
  interval_cases f <;> interval_cases r <;> revert h1 h2 <;> decide

theorem pawn_forward_oracle_witness :
    lone_pawn_position.in_check ⟨4, 4⟩
      = some (decide ((lone_pawn_position.at_ ⟨4, 4⟩).is_empty = true
        ∧ ((1 : Int) = 1 ∨ ((((lone_pawn_position.at_ ⟨4, 5⟩).owner = player.white ∧ (5 : Int) = 2)
              ∨ ((lone_pawn_position.at_ ⟨4, 5⟩).owner = player.black ∧ (5 : Int) = 7))
            ∧ (lone_pawn_position.at_ ⟨4, ((5 : Int) + 4) / 2⟩).is_empty = true)))) :=
  pawn_forward_oracle lone_pawn_position ⟨4, 5⟩ ⟨4, 4⟩ 1 (by decide) (by decide) (by decide)
    lone_pawn_only (Or.inl rfl) rfl (Or.inr (by decide))

end Chess
